import Mathlib

/-!
# DBUpdater: the migration planner

A shallow embedding of the planner of `awsoremod/DBUpdater` (Go) and the
properties of its specification.

Conventions of the embedding.

* A Go `string` is a Lean `String`; `len(s)` is the number of bytes of its UTF-8 encoding.
* A Go function that returns `(T, error)`, calls `log.Fatalf`, or can fault at run time
  returns `Result T`; the three ways of not returning a value are kept apart by `Failure`.
* Output that only informs the operator (`ShowIfVerbose`, `fmt.Printf`) is not modelled.
* The operating system is a parameter: `FileSystem` gives, for a path, what
  `helper.GetFilesInDir` returns for it.
-/

namespace DBUpdater

deriving instance DecidableEq for Except

/-! ## Outcomes -/

/-- The ways a call ends without a value: `error` is a Go `error` value handed back to the
caller, `fatal` is `log.Fatalf` (the message is logged and the process exits with status 1),
`panic` is a run-time panic such as an index out of range. -/
inductive Failure where
  | error (msg : String)
  | fatal (msg : String)
  | panic (msg : String)
deriving DecidableEq, Repr

/-- Outcome of a Go call: a value or a `Failure`. -/
abbrev Result (α : Type) := Except Failure α

/-! ## Go standard library (package `strings`, `strconv`, `path/filepath`, `sort`) -/

/-- Go `len(s)` for a string: the length in bytes. -/
def len (s : String) : Nat := s.utf8ByteSize

/-- Pieces of a character list between the occurrences of `sep`. -/
def Split.pieces (sep : Char) : List Char → List (List Char)
  | [] => [[]]
  | c :: cs =>
    if c = sep then [] :: Split.pieces sep cs
    else
      match Split.pieces sep cs with
      | [] => [[c]]
      | p :: ps => (c :: p) :: ps

/-- Go `strings.Split(s, sep)` for a one-character separator: the substrings between the
separators; a string with `n` separators gives `n + 1` pieces. -/
def Split (s : String) (sep : Char) : List String :=
  (Split.pieces sep s.toList).map String.mk

/-- Value of a run of decimal digits, most significant first, added to `acc`;
`none` when a character is not a digit. -/
def Atoi.digits : List Char → Nat → Option Nat
  | [], acc => some acc
  | c :: cs, acc =>
    if c.isDigit then Atoi.digits cs (acc * 10 + (c.toNat - 48)) else none

/-- Go `strconv.Atoi(s)` on a 64-bit platform: an optional sign `+` or `-` followed by one or
more decimal digits, with a value in the range of `int`. The error text is the one of
`strconv.NumError`, with `s` quoted plainly; a text that is both malformed and too long is
reported as malformed. -/
def Atoi (s : String) : Except String Int :=
  let syntaxError : Except String Int :=
    .error ("strconv.Atoi: parsing \"" ++ s ++ "\": invalid syntax")
  let rangeError : Except String Int :=
    .error ("strconv.Atoi: parsing \"" ++ s ++ "\": value out of range")
  let signed : Bool × List Char :=
    match s.toList with
    | '-' :: rest => (true, rest)
    | '+' :: rest => (false, rest)
    | cs => (false, cs)
  match signed.2 with
  | [] => syntaxError
  | d :: ds =>
    match Atoi.digits (d :: ds) 0 with
    | none => syntaxError
    | some n =>
      if signed.1 then
        if n ≤ 2 ^ 63 then .ok (-(n : Int)) else rangeError
      else
        if n < 2 ^ 63 then .ok (n : Int) else rangeError

/-- Scan of `filepath.Ext` from the last character backwards: `rev` is what is left of the
reversed path, `acc` the characters already passed. -/
def Ext.scan : List Char → List Char → List Char
  | [], _ => []
  | c :: rev, acc =>
    if c = '/' then []
    else if c = '.' then '.' :: acc
    else Ext.scan rev (c :: acc)

/-- Go `filepath.Ext(path)`: the suffix beginning at the final dot of the final element of
the path, empty when there is no dot. The path separator is `/`; the name of a directory
entry holds none. -/
def Ext (path : String) : String :=
  String.mk (Ext.scan path.toList.reverse [])

/-- Go `name[:len(name)-len(extension)]` where `extension` is a suffix of `name`. -/
def trimExtension (name extension : String) : String :=
  String.mk (name.toList.take (name.toList.length - extension.toList.length))

/-- Go counted loop `for i := lo; i < hi; i++ { acc = body i acc }`. -/
def forLoop {β : Type} (lo hi : Nat) (body : Nat → β → β) (acc : β) : β :=
  (List.range' lo (hi - lo)).foldl (fun a i => body i a) acc

/-- Body of a copying loop: `out = append(out, f(xs[i]))`, which is also `out[i] = f(xs[i])`
when `out` is filled from position 0 upwards. An index outside `xs` leaves `out` as it is;
the loops of the program stay inside. -/
def appendElem {α β : Type} (xs : List α) (f : α → β) (i : Nat) (out : List β) : List β :=
  match xs[i]? with
  | some x => out ++ [f x]
  | none => out

/-! ## `github.com/hashicorp/go-version` -/

/-- Modelled from the spec: the version value of the external package
`github.com/hashicorp/go-version`, which is not part of the repository. The spec describes it
as a semver-like triple `v<major>.<minor>.<patch>` with a total order; `original` is the text
it was parsed from (`Original()`). -/
structure Version where
  major : Nat
  minor : Nat
  patch : Nat
  original : String
deriving DecidableEq, Repr

/-- Modelled from the spec: a version component, a non-empty run of decimal digits read as a
natural number. -/
def Version.component (cs : List Char) : Option Nat :=
  match cs with
  | [] => none
  | d :: ds => Atoi.digits (d :: ds) 0

/-- Modelled from the spec: `version.NewVersion(v)` of the external package. It accepts
`<major>.<minor>.<patch>` with decimal components, with or without the leading `v` (the
mandatory `v` is enforced by `NewVersionDb`); any other text is
`Malformed version: <input>`. -/
def NewVersion (v : String) : Except String Version :=
  let body : List Char :=
    match v.toList with
    | 'v' :: rest => rest
    | cs => cs
  match Split.pieces '.' body with
  | [a, b, c] =>
    match Version.component a, Version.component b, Version.component c with
    | some x, some y, some z => .ok { major := x, minor := y, patch := z, original := v }
    | _, _, _ => .error ("Malformed version: " ++ v)
  | _ => .error ("Malformed version: " ++ v)

/-- Modelled from the spec: `Compare` of the external package, the lexicographic comparison
of the triples. -/
def Version.Compare (v o : Version) : Ordering :=
  (compare v.major o.major).then ((compare v.minor o.minor).then (compare v.patch o.patch))

/-! ## `helper` -/

/-- Go `helper.IsFirstV`: `name[:len("v")] == "v"`. Slicing the empty string faults. -/
def IsFirstV (name : String) : Result Bool :=
  match name.toList with
  | [] => .error (.panic "runtime error: slice bounds out of range [:1] with length 0")
  | c :: _ => .ok (c = 'v')

/-- The directory tree as `helper.GetFilesInDir` sees it: for a path, the names of the
entries of that directory in the order the operating system lists them, or the error of
`os.Open` / `ReadDir`. -/
abbrev FileSystem := String → Except String (List String)

/-- Go `helper.GetFilesInDir`; only `Name()` of the entries is ever used. -/
def GetFilesInDir (fs : FileSystem) (pathToDir : String) : Result (List String) :=
  match fs pathToDir with
  | .ok files => .ok files
  | .error e => .error (.error e)

/-! ## `internal/domain` -/

/-- Go `domain.VersionDb`. -/
structure VersionDb where
  version : Version
deriving DecidableEq, Repr

/-- Go `domain.NewVersionDb`. -/
def NewVersionDb (str : String) : Result VersionDb :=
  match IsFirstV str with
  | .error f => .error f
  | .ok false => .error (.error "the database version must start with \x27v\x27")
  | .ok true =>
    match NewVersion str with
    | .error e => .error (.error e)
    | .ok version => .ok { version := version }

/-- Go `VersionDb.String`. -/
def VersionDb.String (v : VersionDb) : String := v.version.original

/-- Go `VersionDb.Equal`. -/
def VersionDb.Equal (first second : VersionDb) : Bool :=
  decide (first.version.Compare second.version = .eq)

/-- Go `VersionDb.GreaterThan`. -/
def VersionDb.GreaterThan (first second : VersionDb) : Bool :=
  decide (first.version.Compare second.version = .gt)

/-- Go `VersionDb.LessThan`. -/
def VersionDb.LessThan (first second : VersionDb) : Bool :=
  decide (first.version.Compare second.version = .lt)

/-- Go `domain.Migration`. -/
structure Migration where
  VersionDb : VersionDb
  Name : String
deriving DecidableEq, Repr

/-- Go `domain.isCorrectMigrationName`. -/
def isCorrectMigrationName (name : String) : Bool :=
  match Split name '.' with
  | [numberInName, nameInName] =>
    if len numberInName ≠ len "0001" then false
    else
      match Atoi numberInName with
      | .error _ => false
      | .ok _ => if len nameInName < 3 then false else true
  | _ => false

/-- Go `domain.NewMigration`. -/
def NewMigration (name : String) (versionDb : VersionDb) : Result Migration :=
  if !isCorrectMigrationName name then .error (.error "incorrect migration name")
  else .ok { VersionDb := versionDb, Name := name }

/-- Go `Migration.IsEqual`. -/
def Migration.IsEqual (first second : Migration) : Bool :=
  first.VersionDb.Equal second.VersionDb && first.Name == second.Name

/-- Go `domain.MigrationGroup`. -/
structure MigrationGroup where
  VersionDb : VersionDb
  Migrations : List Migration
deriving DecidableEq, Repr

/-- Go `domain.NewMigrationGroup`. -/
def NewMigrationGroup (versionDb : VersionDb) (migrations : List Migration) : MigrationGroup :=
  { VersionDb := versionDb, Migrations := migrations }

/-- The value standing for Go `nil` of type `*VersionDb`; `NewVersionDb` never returns it. -/
def VersionDb.nil : VersionDb := { version := { major := 0, minor := 0, patch := 0, original := "" } }

/-- Go `MigrationGroup.Copy`: the migrations are copied and the version is parsed again from
its text, the error being dropped (`version, _ := NewVersionDb(...)`), which leaves `nil`. -/
def MigrationGroup.Copy (m : MigrationGroup) : MigrationGroup :=
  let version : DBUpdater.VersionDb :=
    match NewVersionDb m.VersionDb.String with
    | .ok v => v
    | .error _ => VersionDb.nil
  { VersionDb := version, Migrations := m.Migrations }

/-- The `for` loop of `IndexMigration` over the positions before the last one. -/
def IndexMigration.loop (migration : Migration) : List Migration → Nat → Int
  | [], _ => -1
  | m :: rest, i =>
    if migration.IsEqual m then (i : Int) else IndexMigration.loop migration rest (i + 1)

/-- Go `domain.IndexMigration`: the position of the migration, `-1` when absent. The last
position is tried first. -/
def IndexMigration (migrations : List Migration) (migration : Migration) : Int :=
  match migrations.getLast? with
  | none => -1
  | some last =>
    if migration.IsEqual last then (migrations.length : Int) - 1
    else IndexMigration.loop migration migrations.dropLast 0

/-- The `range` loop of `IndicesMigrationInMigrationGroups`; it has no `break`, a later
group of an equal version overwrites both indices. -/
def IndicesMigrationInMigrationGroups.loop (migration : Migration) :
    List MigrationGroup → Nat → Int × Int → Int × Int
  | [], _, acc => acc
  | mg :: rest, iMigrateGroup, acc =>
    if mg.VersionDb.Equal migration.VersionDb then
      IndicesMigrationInMigrationGroups.loop migration rest (iMigrateGroup + 1)
        ((iMigrateGroup : Int), IndexMigration mg.Migrations migration)
    else IndicesMigrationInMigrationGroups.loop migration rest (iMigrateGroup + 1) acc

/-- Go `domain.IndicesMigrationInMigrationGroups`. -/
def IndicesMigrationInMigrationGroups (mg : List MigrationGroup) (migration : Migration) :
    Int × Int :=
  IndicesMigrationInMigrationGroups.loop migration mg 0 (-1, -1)

/-- Go `sort.Sort(domain.Collection(versions))`, with `Less(i, j) = v[i].LessThan(v[j])`.
The standard library is modelled as the stable insertion sort, which is what it runs on
slices of at most 12 elements; on longer slices its result can differ in the order of
versions that are `Equal`. -/
def sortCollection (versions : List VersionDb) : List VersionDb :=
  versions.insertionSort (fun a b => b.LessThan a = false)

/-! ## `internal/infrastructure/repo/migration_disk` -/

/-- Go `migration_disk.MigrationDiskRepo`. -/
structure MigrationDiskRepo where
  IsVerbose : Bool
  PathToMigrations : String
deriving DecidableEq, Repr

/-- Go `migration_disk.getNumberInNameMigration`: `strconv.Atoi(strings.Split(name, ".")[0])`. -/
def getNumberInNameMigration (name : String) : Result Int :=
  match (Split name '.').head? with
  | none => .error (.panic "runtime error: index out of range [0] with length 0")
  | some strNumber =>
    match Atoi strNumber with
    | .error e => .error (.error e)
    | .ok number => .ok number

/-- The `range` loop of `migrationsStructureCheck`; `i` is the position of the head of the
list in the group. -/
def migrationsStructureCheck.loop : List Migration → Nat → Result Unit
  | [], _ => .ok ()
  | migration :: rest, i =>
    match getNumberInNameMigration migration.Name with
    | .error f => .error f
    | .ok number =>
      if number ≠ (i : Int) + 1 then
        .error (.error ("wrong order of migrations, error on "
          ++ migration.VersionDb.String ++ " " ++ migration.Name))
      else migrationsStructureCheck.loop rest (i + 1)

/-- Go `migration_disk.migrationsStructureCheck`: `.ok ()` is the `nil` error. -/
def migrationsStructureCheck (mg : MigrationGroup) : Result Unit :=
  migrationsStructureCheck.loop mg.Migrations 0

/-- The `range` loop of `GetSortedMigrations` over the directory entries: an entry with another
extension than `.sql`, or whose name without the extension `NewMigration` refuses, is passed
over (`continue`). -/
def GetSortedMigrations.loop (version : VersionDb) : List String → List Migration → List Migration
  | [], migrations => migrations
  | name :: files, migrations =>
    if Ext name ≠ ".sql" then GetSortedMigrations.loop version files migrations
    else
      match NewMigration (trimExtension name (Ext name)) version with
      | .error _ => GetSortedMigrations.loop version files migrations
      | .ok newMigration => GetSortedMigrations.loop version files (migrations ++ [newMigration])

/-- The two tests of the loop of `GetSortedMigrations` on a directory entry, taken together:
the extension is exactly `.sql` and `NewMigration` accepts the name without it. -/
def GetSortedMigrations.keeps (name : String) : Bool :=
  decide (Ext name = ".sql") && isCorrectMigrationName (trimExtension name ".sql")

/-- Go `MigrationDiskRepo.GetSortedMigrations`. The entries are taken in the order of the
listing; the function does not reorder them. -/
def MigrationDiskRepo.GetSortedMigrations (fs : FileSystem) (r : MigrationDiskRepo)
    (version : VersionDb) : Result MigrationGroup :=
  match GetFilesInDir fs (r.PathToMigrations ++ "/" ++ version.String) with
  | .error f => .error f
  | .ok migrationFiles =>
    let mg := NewMigrationGroup version (GetSortedMigrations.loop version migrationFiles [])
    match migrationsStructureCheck mg with
    | .error f => .error f
    | .ok _ => .ok mg

/-- The `range` loop of `GetSortedVersions` over the entries of the migrations root. -/
def GetSortedVersions.loop : List String → List VersionDb → Result (List VersionDb)
  | [], versions => .ok versions
  | nameDir :: rest, versions =>
    match IsFirstV nameDir with
    | .error f => .error f
    | .ok false => GetSortedVersions.loop rest versions
    | .ok true =>
      match NewVersionDb nameDir with
      | .ok v => GetSortedVersions.loop rest (versions ++ [v])
      | .error (.error _) => GetSortedVersions.loop rest versions
      | .error f => .error f

/-- Go `MigrationDiskRepo.GetSortedVersions`. -/
def MigrationDiskRepo.GetSortedVersions (fs : FileSystem) (r : MigrationDiskRepo) :
    Result (List VersionDb) :=
  match GetFilesInDir fs r.PathToMigrations with
  | .error f => .error f
  | .ok versionDirs =>
    match GetSortedVersions.loop versionDirs [] with
    | .error f => .error f
    | .ok versions => .ok (sortCollection versions)

/-! ## `internal/usecase` -/

/-- Go interface `usecase.MigrationRepoForMigrations`. -/
structure MigrationRepoForMigrations where
  GetSortedMigrations : VersionDb → Result MigrationGroup
  GetSortedVersions : Result (List VersionDb)

/-- The disk repository as the implementation of the interface that `core.Run` hands to
`NewMigrationsUseCase`. -/
def MigrationDiskRepo.asRepo (fs : FileSystem) (r : MigrationDiskRepo) :
    MigrationRepoForMigrations :=
  { GetSortedMigrations := r.GetSortedMigrations fs, GetSortedVersions := r.GetSortedVersions fs }

/-- Go `MigrationsUseCase.getUnappliedSortedMigrationsForVersion`. The index `i` of the copying
loop stays below the length, so `Migrations[i]` is always present. -/
def getUnappliedSortedMigrationsForVersion (repo : MigrationRepoForMigrations) (isInitMod : Bool)
    (currentMigration : Migration) : Result MigrationGroup :=
  match repo.GetSortedMigrations currentMigration.VersionDb with
  | .error f => .error f
  | .ok sortedMigrationsInSpecifiedVersion =>
    if isInitMod then
      if sortedMigrationsInSpecifiedVersion.Migrations.length = 0 then
        .error (.error ("in initialization mode there should be migrations with version "
          ++ currentMigration.VersionDb.String))
      else .ok sortedMigrationsInSpecifiedVersion
    else
      let index := IndexMigration sortedMigrationsInSpecifiedVersion.Migrations currentMigration
      if index = -1 then
        .error (.error ("the " ++ currentMigration.VersionDb.String ++ " " ++ currentMigration.Name
          ++ " migration is not in the migrations directory"))
      else
        let unappliedMigrations : List Migration :=
          forLoop (index.toNat + 1) sortedMigrationsInSpecifiedVersion.Migrations.length
            (appendElem sortedMigrationsInSpecifiedVersion.Migrations (fun m => m)) []
        .ok (NewMigrationGroup currentMigration.VersionDb unappliedMigrations)

/-- The `range` loop of `GetUnappliedSortedMigrations` over the sorted versions. -/
def GetUnappliedSortedMigrations.loop (repo : MigrationRepoForMigrations)
    (currentMigration : Migration) :
    List VersionDb → List MigrationGroup → Result (List MigrationGroup)
  | [], unappliedMigrationGroups => .ok unappliedMigrationGroups
  | ver :: versions, unappliedMigrationGroups =>
    if ver.GreaterThan currentMigration.VersionDb then
      match repo.GetSortedMigrations ver with
      | .error f => .error f
      | .ok mg =>
        if mg.Migrations.length ≠ 0 then
          GetUnappliedSortedMigrations.loop repo currentMigration versions
            (unappliedMigrationGroups ++ [mg])
        else GetUnappliedSortedMigrations.loop repo currentMigration versions unappliedMigrationGroups
    else GetUnappliedSortedMigrations.loop repo currentMigration versions unappliedMigrationGroups

/-- Go `MigrationsUseCase.GetUnappliedSortedMigrations`. -/
def GetUnappliedSortedMigrations (repo : MigrationRepoForMigrations) (isInitMod : Bool)
    (currentMigration : Migration) : Result (List MigrationGroup) :=
  match getUnappliedSortedMigrationsForVersion repo isInitMod currentMigration with
  | .error f => .error f
  | .ok newSortedMigrationsInCurrentVersion =>
    let unappliedMigrationGroups : List MigrationGroup :=
      if newSortedMigrationsInCurrentVersion.Migrations.length ≠ 0 then
        [newSortedMigrationsInCurrentVersion]
      else []
    match repo.GetSortedVersions with
    | .error f => .error f
    | .ok versions =>
      GetUnappliedSortedMigrations.loop repo currentMigration versions unappliedMigrationGroups

/-! ## `internal/core` -/

/-- The `range` loop of `determinationLastMigrationToMigrate` for a target given by its version
only: the first group of an equal version decides; `log.Fatalf` follows the loop. Taking
`mg.Migrations[len(mg.Migrations)-1]` of an empty group faults. -/
def determinationLastMigrationToMigrate.loop (versiondb : VersionDb) :
    List MigrationGroup → Result Migration
  | [] => .error (.fatal ("The " ++ versiondb.String
      ++ " version is not in the list of migrations available for updating"))
  | mg :: rest =>
    if mg.VersionDb.Equal versiondb then
      match mg.Migrations.getLast? with
      | some lastMigrationToMigrate => .ok lastMigrationToMigrate
      | none => .error (.panic "runtime error: index out of range [-1]")
    else determinationLastMigrationToMigrate.loop versiondb rest

/-- Go `core.determinationLastMigrationToMigrate`. -/
def determinationLastMigrationToMigrate (stringVersionDb stringNameMigration : String)
    (currentMigration : Migration) (unappliedMigrations : List MigrationGroup) :
    Result Migration :=
  let parsed : Result VersionDb :=
    if stringVersionDb = "" then .ok currentMigration.VersionDb
    else
      match NewVersionDb stringVersionDb with
      | .ok v => .ok v
      | .error (.error e) => .error (.fatal ("wrong version in -versiondb: " ++ e))
      | .error f => .error f
  match parsed with
  | .error f => .error f
  | .ok versiondb =>
    if stringNameMigration = "" then
      determinationLastMigrationToMigrate.loop versiondb unappliedMigrations
    else
      match NewMigration stringNameMigration versiondb with
      | .error (.error e) =>
        .error (.fatal ("Incorrect migration from -versiondb and -migration parameters: " ++ e))
      | .error f => .error f
      | .ok lastMigrationToMigrate =>
        let indices := IndicesMigrationInMigrationGroups unappliedMigrations lastMigrationToMigrate
        if indices.1 = -1 ∨ indices.2 = -1 then
          .error (.fatal ("The " ++ lastMigrationToMigrate.VersionDb.String ++ " "
            ++ lastMigrationToMigrate.Name
            ++ " migration is not in the list of migrations available for updating"))
        else .ok lastMigrationToMigrate

/-- Go `core.getMigrationGroupsAndMigrationsBeforeMigration`. The slice of
`lastIndexMigrationGroup + 1` groups is filled from position 0 upwards; the indices of both
copying loops stay below the lengths, so the indexed elements are always present. -/
def getMigrationGroupsAndMigrationsBeforeMigration (sortedMigrationGroups : List MigrationGroup)
    (beforeThisMigration : Migration) : Result (List MigrationGroup) :=
  let indices := IndicesMigrationInMigrationGroups sortedMigrationGroups beforeThisMigration
  if indices.1 = -1 ∨ indices.2 = -1 then
    .error (.fatal ("the " ++ beforeThisMigration.VersionDb.String ++ " " ++ beforeThisMigration.Name
      ++ " migration or database version is not in the list of migrations available for updating"))
  else
    let lastIndexMigrationGroup := indices.1.toNat
    let lastIndexMigration := indices.2.toNat
    let migrationGroupsUpTo : List MigrationGroup :=
      forLoop 0 lastIndexMigrationGroup
        (appendElem sortedMigrationGroups MigrationGroup.Copy) []
    match sortedMigrationGroups[lastIndexMigrationGroup]? with
    | none => .error (.panic "runtime error: index out of range")
    | some lastMigrationGroup =>
      if indices.2 = (lastMigrationGroup.Migrations.length : Int) - 1 then
        .ok (migrationGroupsUpTo ++ [lastMigrationGroup.Copy])
      else
        let migrationsInLastVersionDbUpTo : List Migration :=
          forLoop 0 (lastIndexMigration + 1)
            (appendElem lastMigrationGroup.Migrations (fun m => m)) []
        .ok (migrationGroupsUpTo
          ++ [NewMigrationGroup lastMigrationGroup.VersionDb migrationsInLastVersionDbUpTo])

/-- The part of Go `core.Run` between the determination of the current migration and the
reading of the update template, which computes `migrationsToMigrate`. The result `none` is a
return of `Run` without anything to apply (`No new migrations`, or no target given). -/
def Run.migrationsToMigrate (repo : MigrationRepoForMigrations) (isInitModeON : Bool)
    (currentMigration : Migration) (StringVersionDb StringNameMigration : String) :
    Result (Option (List MigrationGroup)) :=
  match GetUnappliedSortedMigrations repo isInitModeON currentMigration with
  | .error (.error e) => .error (.fatal ("Error when receiving unapplied migrations: " ++ e))
  | .error f => .error f
  | .ok unappliedMigrations =>
    if unappliedMigrations.length = 0 then .ok none
    else if StringVersionDb = "" ∧ isInitModeON = true then .ok none
    else if StringVersionDb = "" ∧ StringNameMigration = "" then .ok none
    else
      match determinationLastMigrationToMigrate StringVersionDb StringNameMigration
          currentMigration unappliedMigrations with
      | .error f => .error f
      | .ok lastMigrationToMigrate =>
        match getMigrationGroupsAndMigrationsBeforeMigration unappliedMigrations
            lastMigrationToMigrate with
        | .error f => .error f
        | .ok migrationsToMigrate => .ok (some migrationsToMigrate)

/-! ## The outside of the program

The database driver (`pgx`), the operating system and the dump infrastructure are outside of
the planner. Their state is a value of an arbitrary type `ω`; every operation that can change
it takes the state and returns the new one. The program runs on a `State ω`, which also keeps
the list of the calls made so far, in order. -/

/-- Go `config.DbEntry`. -/
structure DbEntry where
  Host : String
  Port : String
  DbName : String
  User : String
  Password : String
deriving DecidableEq, Repr

/-- Go `config.Config`, with the embedded `App`, `Parameters` and `DbEntry` laid out. -/
structure Config where
  Version : String
  IsVersion : Bool
  IsVerbose : Bool
  PathToMigrations : String
  StringVersionDb : String
  StringNameMigration : String
  DbEntry : DbEntry
deriving DecidableEq, Repr

/-- Go `domain.Dump`. -/
structure Dump where
  path : String
deriving DecidableEq, Repr

/-- Go `Dump.Path`. -/
def Dump.Path (d : Dump) : String := d.path

/-- Go `migration_postgres.migration`, the row that `GetCurrentMigration` reads. -/
structure migration_postgres.migration where
  VersionDb : String
  Name : String
deriving DecidableEq, Repr

/-- A call that the program makes to the outside. -/
inductive Call where
  | Connect (connString : String)
  | Exec (sql : String) (args : List String)
  | QueryRowScan (sql : String)
  | QueryCollectOneRow (sql : String)
  | Close
  | Remove (name : String)
  | MkdirAll (path : String)
  | Create (pathForSaveDumps : String)
  | Restore (dump : Dump)
deriving DecidableEq, Repr

/-- Go interface `usecase.DumpInfrastructure` over a state `σ`. -/
structure DumpInfrastructure (σ : Type) where
  Create : String → σ → Result Dump × σ
  Restore : Dump → σ → Result Unit × σ
  GetCommandToRestoreDump : Dump → Except String String

/-- The operations of the outside on its state `ω`. The fields are, in order:
`pgx.ParseConfig` with `pgx.ConnectConfig`; `conn.Exec(ctx, sql, args...)`;
`conn.QueryRow(ctx, sql).Scan(&isAvailable)`; `conn.Query(ctx, sql)` with
`pgx.CollectOneRow(row, pgx.RowToStructByName[migration])`; `conn.Close(ctx)`; whether
`os.Stat(path)` returns no error; `os.ReadFile`; `os.Remove`; `os.Executable`;
`filepath.Dir`; `os.MkdirAll`; and the three methods of the value that
`dump_postgres.NewDumpPostgres` returns, which `Run` uses through `DumpInfrastructure` only. -/
structure Outside (ω : Type) where
  Connect : String → ω → Except String Unit × ω
  Exec : String → List String → ω → Except String Unit × ω
  QueryRowScan : String → ω → Except String Bool × ω
  QueryCollectOneRow : String → ω → Except String migration_postgres.migration × ω
  Close : ω → ω
  Stat : String → ω → Bool
  ReadFile : String → ω → Except String String
  Remove : String → ω → Except String Unit × ω
  Executable : ω → Except String String
  Dir : String → String
  MkdirAll : String → ω → Except String Unit × ω
  Create : String → ω → Except String Dump × ω
  Restore : Dump → ω → Except String Unit × ω
  GetCommandToRestoreDump : Dump → Except String String

/-- The state the program runs on: the state of the outside and the calls made so far. -/
structure State (ω : Type) where
  outside : ω
  calls : List Call
deriving DecidableEq

/-- A Go `error` value as a `Failure`. -/
def asError {α : Type} (r : Except String α) : Result α :=
  match r with
  | .ok a => .ok a
  | .error e => .error (.error e)

/-- One call to the outside: the call is recorded and the outside moves on. -/
def State.call {ω α : Type} (s : State ω) (c : Call) (r : Except String α × ω) :
    Result α × State ω :=
  (asError r.1, { outside := r.2, calls := s.calls ++ [c] })

/-- Go `strings.Contains(s, substr)`. -/
def Contains (s substr : String) : Bool :=
  decide (substr.toList <:+: s.toList)

/-! ## `helper` and `migration_postgres` on the outside -/

/-- Go `helper.OpenConnect`. -/
def OpenConnect {ω : Type} (o : Outside ω) (config : DbEntry) (s : State ω) :
    Result Unit × State ω :=
  let connString := "host=" ++ config.Host ++ " port=" ++ config.Port ++ " dbname="
    ++ config.DbName ++ " user=" ++ config.User ++ " password=" ++ config.Password
    ++ " target_session_attrs=read-write"
  s.call (.Connect connString) (o.Connect connString s.outside)

/-- Go `conn.Close(ctx)`. -/
def connClose {ω : Type} (o : Outside ω) (s : State ω) : State ω :=
  { outside := o.Close s.outside, calls := s.calls ++ [.Close] }

/-- Go `os.Remove(name)`. -/
def osRemove {ω : Type} (o : Outside ω) (name : String) (s : State ω) : Result Unit × State ω :=
  s.call (.Remove name) (o.Remove name s.outside)

/-- Go `helper.ReadFile`. -/
def ReadFile {ω : Type} (o : Outside ω) (pathToSqlFile : String) (s : State ω) : Result String :=
  asError (o.ReadFile pathToSqlFile s.outside)

/-- Go `migration_postgres.migrationRepoToDomain`. -/
def migrationRepoToDomain (m : migration_postgres.migration) : Result Migration :=
  match NewVersionDb m.VersionDb with
  | .error f => .error f
  | .ok version => NewMigration m.Name version

/-- Go `migration_postgres.migrationDomainToRepo`. -/
def migrationDomainToRepo (m : Migration) : migration_postgres.migration :=
  { VersionDb := m.VersionDb.String, Name := m.Name }

/-- Go `MigrationPostgresRepo.HasCurrentMigration`. -/
def MigrationPostgresRepo.HasCurrentMigration {ω : Type} (o : Outside ω)
    (sqlForCheckMigration : String) (s : State ω) : Result Bool × State ω :=
  s.call (.QueryRowScan sqlForCheckMigration) (o.QueryRowScan sqlForCheckMigration s.outside)

/-- Go `MigrationPostgresRepo.GetCurrentMigration`. -/
def MigrationPostgresRepo.GetCurrentMigration {ω : Type} (o : Outside ω)
    (sqlForGetMigration : String) (s : State ω) : Result Migration × State ω :=
  match s.call (.QueryCollectOneRow sqlForGetMigration)
      (o.QueryCollectOneRow sqlForGetMigration s.outside) with
  | (.error f, s') => (.error f, s')
  | (.ok migrationFromDb, s') =>
    match migrationRepoToDomain migrationFromDb with
    | .error (.error e) => (.error (.error ("migrationRepoToDomain failed: " ++ e)), s')
    | .error f => (.error f, s')
    | .ok migration => (.ok migration, s')

/-- Go `MigrationPostgresRepo.UpdateCurrentMigration`: the template is executed with the two
arguments `migration.VersionDb` and `migration.Name`. -/
def MigrationPostgresRepo.UpdateCurrentMigration {ω : Type} (o : Outside ω)
    (sqlForUpdateMigration : String) (lastAppliedMigration : Migration) (s : State ω) :
    Result Unit × State ω :=
  let migration := migrationDomainToRepo lastAppliedMigration
  s.call (.Exec sqlForUpdateMigration [migration.VersionDb, migration.Name])
    (o.Exec sqlForUpdateMigration [migration.VersionDb, migration.Name] s.outside)

/-- Go `MigrationPostgresRepo.ExecSql`: the script is executed without arguments. -/
def MigrationPostgresRepo.ExecSql {ω : Type} (o : Outside ω) (sql : String) (s : State ω) :
    Result Unit × State ω :=
  s.call (.Exec sql []) (o.Exec sql [] s.outside)

/-- Go `MigrationDiskRepo.GetSqlFromMigration`: the text of `<root>/<v>/<name>.sql`. -/
def MigrationDiskRepo.GetSqlFromMigration {ω : Type} (o : Outside ω) (r : MigrationDiskRepo)
    (migration : Migration) (s : State ω) : Result String × State ω :=
  (ReadFile o (r.PathToMigrations ++ "/" ++ migration.VersionDb.String ++ "/" ++ migration.Name
    ++ "." ++ "sql") s, s)

/-- The dump infrastructure of the outside as the program calls it. -/
def Outside.DumpInfrastructure {ω : Type} (o : Outside ω) : DumpInfrastructure (State ω) :=
  { Create := fun pathForSaveDumps s =>
      s.call (.Create pathForSaveDumps) (o.Create pathForSaveDumps s.outside),
    Restore := fun dump s => s.call (.Restore dump) (o.Restore dump s.outside),
    GetCommandToRestoreDump := o.GetCommandToRestoreDump }

/-! ## `internal/usecase` on the outside

What the functions print (`fmt.Printf`, `fmt.Println`, `helper.ShowIfVerbose`) is not part of
the embedding, and the fields and parameters `isVerbose` that only steer it are left out, as
is the field `NameDirForSystemSqlFile`, which no function reads. A version of a group or of a
migration is a value, never `nil`, so the `String()` calls of the messages cannot fault. -/

/-- Go `usecase.FileReaderUseCase`; the three short paths are the constants of the package. -/
structure FileReaderUseCase where
  pathToMigrations : String
  ShortPathToHasCurrentMigrationFile : String
  ShortPathToGetCurrentMigrationFile : String
  ShortPathToUpdateCurrentMigrationFile : String
deriving DecidableEq, Repr

/-- Go `usecase.NewFileReaderUseCase`. -/
def NewFileReaderUseCase (pathToMigrations : String) : FileReaderUseCase :=
  { pathToMigrations := pathToMigrations,
    ShortPathToHasCurrentMigrationFile := "utils" ++ "/HasCurrentVersion.sql",
    ShortPathToGetCurrentMigrationFile := "utils" ++ "/GetCurrentVersion.sql",
    ShortPathToUpdateCurrentMigrationFile := "utils" ++ "/UpdateCurrentVersion.sql" }

/-- Go `FileReaderUseCase.isExistsFile`: true exactly when `os.Stat` returns no error. -/
def FileReaderUseCase.isExistsFile {ω : Type} (o : Outside ω) (uc : FileReaderUseCase)
    (shortPath : String) (s : State ω) : Bool :=
  o.Stat (uc.pathToMigrations ++ "/" ++ shortPath) s.outside

/-- Go `FileReaderUseCase.readSqlFile`. -/
def FileReaderUseCase.readSqlFile {ω : Type} (o : Outside ω) (uc : FileReaderUseCase)
    (shortPath : String) (s : State ω) : Result String :=
  match ReadFile o (uc.pathToMigrations ++ "/" ++ shortPath) s with
  | .error (.error e) => .error (.error ("error reading " ++ shortPath ++ ": " ++ e))
  | .error f => .error f
  | .ok sqlFromFile => .ok sqlFromFile

/-- Go `FileReaderUseCase.IsExistHasCurrentMigrationFile`. -/
def FileReaderUseCase.IsExistHasCurrentMigrationFile {ω : Type} (o : Outside ω)
    (uc : FileReaderUseCase) (s : State ω) : Bool :=
  uc.isExistsFile o uc.ShortPathToHasCurrentMigrationFile s

/-- Go `FileReaderUseCase.GetSqlFromHasCurrentMigrationFile`. -/
def FileReaderUseCase.GetSqlFromHasCurrentMigrationFile {ω : Type} (o : Outside ω)
    (uc : FileReaderUseCase) (s : State ω) : Result String :=
  uc.readSqlFile o uc.ShortPathToHasCurrentMigrationFile s

/-- Go `FileReaderUseCase.GetSqlFromGetCurrentMigrationFile`. -/
def FileReaderUseCase.GetSqlFromGetCurrentMigrationFile {ω : Type} (o : Outside ω)
    (uc : FileReaderUseCase) (s : State ω) : Result String :=
  uc.readSqlFile o uc.ShortPathToGetCurrentMigrationFile s

/-- Go `FileReaderUseCase.GetSqlFromUpdateCurrentMigrationFile`. -/
def FileReaderUseCase.GetSqlFromUpdateCurrentMigrationFile {ω : Type} (o : Outside ω)
    (uc : FileReaderUseCase) (s : State ω) : Result String :=
  match uc.readSqlFile o uc.ShortPathToUpdateCurrentMigrationFile s with
  | .error f => .error f
  | .ok sqlForUpdateMigration =>
    let isContainsTheExpectedArguments :=
      Contains sqlForUpdateMigration "$1" && Contains sqlForUpdateMigration "$2"
    if !isContainsTheExpectedArguments then
      .error (.error ("the " ++ uc.ShortPathToUpdateCurrentMigrationFile
        ++ " must have arguments $1 and $2"))
    else .ok sqlForUpdateMigration

/-- Go interface `usecase.MigrationRepoForMigrationCurrent` over a state `σ`. -/
structure MigrationRepoForMigrationCurrent (σ : Type) where
  HasCurrentMigration : String → σ → Result Bool × σ
  GetCurrentMigration : String → σ → Result Migration × σ
  UpdateCurrentMigration : String → Migration → σ → Result Unit × σ

/-- Go `usecase.MigrationCurrentUseCase`. -/
structure MigrationCurrentUseCase (σ : Type) where
  repo : MigrationRepoForMigrationCurrent σ

/-- Go `MigrationCurrentUseCase.HasCurrentMigration`. -/
def MigrationCurrentUseCase.HasCurrentMigration {σ : Type} (uc : MigrationCurrentUseCase σ)
    (sqlForCheckMigration : String) (s : σ) : Result Bool × σ :=
  match uc.repo.HasCurrentMigration sqlForCheckMigration s with
  | (.error f, s') => (.error f, s')
  | (.ok isAvailable, s') => if isAvailable then (.ok true, s') else (.ok false, s')

/-- Go `MigrationCurrentUseCase.GetCurrentMigration`. -/
def MigrationCurrentUseCase.GetCurrentMigration {σ : Type} (uc : MigrationCurrentUseCase σ)
    (sqlForGetMigration : String) (s : σ) : Result Migration × σ :=
  match uc.repo.GetCurrentMigration sqlForGetMigration s with
  | (.error f, s') => (.error f, s')
  | (.ok currentMigration, s') => (.ok currentMigration, s')

/-- Go `MigrationCurrentUseCase.UpdateCurrentMigration`. -/
def MigrationCurrentUseCase.UpdateCurrentMigration {σ : Type} (uc : MigrationCurrentUseCase σ)
    (sqlForUpdateMigration : String) (lastAppliedMigration : Migration) (s : σ) :
    Result Unit × σ :=
  match uc.repo.UpdateCurrentMigration sqlForUpdateMigration lastAppliedMigration s with
  | (.error f, s') => (.error f, s')
  | (.ok _, s') => (.ok (), s')

/-- The `MigrationPostgresRepo` of the outside as the implementation of
`MigrationRepoForMigrationCurrent` that `core.Run` hands to `NewMigrationCurrentUseCase`. -/
def MigrationPostgresRepo.asRepo {ω : Type} (o : Outside ω) :
    MigrationRepoForMigrationCurrent (State ω) :=
  { HasCurrentMigration := MigrationPostgresRepo.HasCurrentMigration o,
    GetCurrentMigration := MigrationPostgresRepo.GetCurrentMigration o,
    UpdateCurrentMigration := MigrationPostgresRepo.UpdateCurrentMigration o }

/-- Go `usecase.InitMigrationUseCase`. -/
structure InitMigrationUseCase where
  initMigration : Migration
deriving DecidableEq, Repr

/-- Go constant `usecase.stringZeroVersion`. -/
def stringZeroVersion : String := "v0.0.0"

/-- Go constant `usecase.stringZeroMigrationName`. -/
def stringZeroMigrationName : String := "0000.InitMod"

/-- Go `usecase.NewInitMigrationUseCase`. -/
def NewInitMigrationUseCase : Result InitMigrationUseCase :=
  match NewVersionDb stringZeroVersion with
  | .error (.error e) =>
    .error (.error ("error when creating a version from " ++ stringZeroVersion ++ ": " ++ e))
  | .error f => .error f
  | .ok zeroVersion =>
    match NewMigration stringZeroMigrationName zeroVersion with
    | .error (.error e) =>
      .error (.error ("error when creating a migration from " ++ stringZeroVersion ++ " "
        ++ stringZeroMigrationName ++ ": " ++ e))
    | .error f => .error f
    | .ok initMigration => .ok { initMigration := initMigration }

/-- Go `InitMigrationUseCase.GetInitMigration`. -/
def InitMigrationUseCase.GetInitMigration (uc : InitMigrationUseCase) : Migration :=
  uc.initMigration

/-- Go interface `usecase.GetSqlFromRepo` over a state `σ`. -/
structure GetSqlFromRepo (σ : Type) where
  GetSqlFromMigration : Migration → σ → Result String × σ

/-- Go interface `usecase.ExecSqlByUsingRepo` over a state `σ`. -/
structure ExecSqlByUsingRepo (σ : Type) where
  ExecSql : String → σ → Result Unit × σ

/-- Go `usecase.MigrateUseCase`. -/
structure MigrateUseCase (σ : Type) where
  getRepo : GetSqlFromRepo σ
  execRepo : ExecSqlByUsingRepo σ

/-- The body of the inner loop of `Migrate` for one migration: the script is loaded, then
executed; an error of either is returned (`return err`), `.ok ()` lets the loop go on. -/
def Migrate.body {σ : Type} (uc : MigrateUseCase σ) (migration : Migration) (s : σ) :
    Result Unit × σ :=
  match uc.getRepo.GetSqlFromMigration migration s with
  | (.error f, s1) => (.error f, s1)
  | (.ok sql, s1) =>
    match uc.execRepo.ExecSql sql s1 with
    | (.error f, s2) => (.error f, s2)
    | (.ok _, s2) => (.ok (), s2)

/-- The inner `range` loop of `Migrate` over the migrations of one group. -/
def Migrate.migrations {σ : Type} (uc : MigrateUseCase σ) : List Migration → σ → Result Unit × σ
  | [], s => (.ok (), s)
  | migration :: rest, s =>
    match Migrate.body uc migration s with
    | (.error f, s1) => (.error f, s1)
    | (.ok _, s1) => Migrate.migrations uc rest s1

/-- The outer `range` loop of `Migrate` over the groups of the plan. -/
def Migrate.groups {σ : Type} (uc : MigrateUseCase σ) : List MigrationGroup → σ → Result Unit × σ
  | [], s => (.ok (), s)
  | mg :: rest, s =>
    match Migrate.migrations uc mg.Migrations s with
    | (.error f, s1) => (.error f, s1)
    | (.ok _, s1) => Migrate.groups uc rest s1

/-- Go `MigrateUseCase.Migrate`: `.ok ()` is the `nil` error. -/
def MigrateUseCase.Migrate {σ : Type} (uc : MigrateUseCase σ)
    (migrationsToMigrate : List MigrationGroup) (s : σ) : Result Unit × σ :=
  Migrate.groups uc migrationsToMigrate s

/-- Go `usecase.DumpUseCase`. -/
structure DumpUseCase (σ : Type) where
  pathForSaveDumps : String
  infrastructure : DumpInfrastructure σ

/-- Go `usecase.getPathForSaveDumps`. -/
def getPathForSaveDumps {ω : Type} (o : Outside ω) (s : State ω) : Result String × State ω :=
  match o.Executable s.outside with
  | .error e => (.error (.error e), s)
  | .ok pathToExecutable =>
    let pathToDumps := o.Dir pathToExecutable ++ "/" ++ "dumps"
    match s.call (.MkdirAll pathToDumps) (o.MkdirAll pathToDumps s.outside) with
    | (.error (.error e), s') =>
      (.error (.error ("trying to create a directory \x27" ++ "dumps"
        ++ "\x27 to save the dumps, error: " ++ e)), s')
    | (.error f, s') => (.error f, s')
    | (.ok _, s') => (.ok pathToDumps, s')

/-- Go `usecase.NewDumpUseCase`. -/
def NewDumpUseCase {ω : Type} (o : Outside ω) (infrastructure : DumpInfrastructure (State ω))
    (s : State ω) : Result (DumpUseCase (State ω)) × State ω :=
  match getPathForSaveDumps o s with
  | (.error (.error e), s') =>
    (.error (.error
      ("failed to set the path to the directory where to save migrations: " ++ e)), s')
  | (.error f, s') => (.error f, s')
  | (.ok pathForSaveDumps, s') =>
    (.ok { pathForSaveDumps := pathForSaveDumps, infrastructure := infrastructure }, s')

/-- Go `DumpUseCase.Create`. -/
def DumpUseCase.Create {σ : Type} (uc : DumpUseCase σ) (s : σ) : Result Dump × σ :=
  match uc.infrastructure.Create uc.pathForSaveDumps s with
  | (.error f, s') => (.error f, s')
  | (.ok newDump, s') => (.ok newDump, s')

/-- Go `DumpUseCase.RestoreDatabaseFromDumpAndDeleteDump`: after a restore without error the
dump file is removed; an error of `os.Remove` is printed and `nil` is returned. -/
def DumpUseCase.RestoreDatabaseFromDumpAndDeleteDump {ω : Type} (o : Outside ω)
    (uc : DumpUseCase (State ω)) (dump : Dump) (s : State ω) : Result Unit × State ω :=
  match uc.infrastructure.Restore dump s with
  | (.error f, s1) => (.error f, s1)
  | (.ok _, s1) =>
    match osRemove o dump.Path s1 with
    | (.error (.error _), s2) => (.ok (), s2)
    | (.error f, s2) => (.error f, s2)
    | (.ok _, s2) => (.ok (), s2)

/-- Go `DumpUseCase.GetErrorForBadRestore`: the text of the error it returns. -/
def DumpUseCase.GetErrorForBadRestore {σ : Type} (uc : DumpUseCase σ) (dump : Dump) : String :=
  match uc.infrastructure.GetCommandToRestoreDump dump with
  | .error e =>
    "manually restore the database. The path to the dump: " ++ dump.Path ++ ": " ++ e
  | .ok commandToRestoreDump =>
    "manually restore the database. "
      ++ "You can try to restore the dump manually using the command: " ++ commandToRestoreDump

/-! ## `internal/core` on the outside -/

/-- Go `dump_postgres.NewDumpPostgres`: the paths of the two utilities are taken from
`os.Executable`; the utilities themselves are operations of the outside. -/
def NewDumpPostgres {ω : Type} (o : Outside ω) (_dbEntry : DbEntry) (s : State ω) :
    Result (DumpInfrastructure (State ω)) :=
  match o.Executable s.outside with
  | .error e => .error (.error e)
  | .ok _ =>
    match o.Executable s.outside with
    | .error e => .error (.error e)
    | .ok _ => .ok o.DumpInfrastructure

/-- Go `migration_disk` and `migration_postgres` as the two repositories of `MigrateUseCase`,
as `core.Run` hands them to `NewMigrateUseCase`. -/
def NewMigrateUseCase {ω : Type} (o : Outside ω) (repoMigrationDisk : MigrationDiskRepo) :
    MigrateUseCase (State ω) :=
  { getRepo := { GetSqlFromMigration := MigrationDiskRepo.GetSqlFromMigration o repoMigrationDisk },
    execRepo := { ExecSql := MigrationPostgresRepo.ExecSql o } }

/-- Go `core.isInitMode`. -/
def isInitMode {ω : Type} (o : Outside ω) (ucFileReader : FileReaderUseCase)
    (ucMigrationCurrent : MigrationCurrentUseCase (State ω)) (s : State ω) :
    Result Bool × State ω :=
  let isExistHasCurrentMigrationFile := ucFileReader.IsExistHasCurrentMigrationFile o s
  if !isExistHasCurrentMigrationFile then (.ok false, s)
  else
    match ucFileReader.GetSqlFromHasCurrentMigrationFile o s with
    | .error (.error e) =>
      (.error (.fatal ("Error when retrieving sql text from "
        ++ ucFileReader.ShortPathToHasCurrentMigrationFile ++ ": " ++ e)), s)
    | .error f => (.error f, s)
    | .ok sqlFromHasCurrentMigrationFile =>
      match ucMigrationCurrent.HasCurrentMigration sqlFromHasCurrentMigrationFile s with
      | (.error (.error _), s1) => (.ok true, s1)
      | (.error f, s1) => (.error f, s1)
      | (.ok isAvailableCurrentMigrationInDatabase, s1) =>
        if !isAvailableCurrentMigrationInDatabase then (.ok true, s1) else (.ok false, s1)

/-- Go `core.determinationCurrentMigration`. -/
def determinationCurrentMigration {ω : Type} (o : Outside ω) (isInitMod : Bool)
    (ucInitMigration : InitMigrationUseCase) (ucFileReader : FileReaderUseCase)
    (ucMigrationCurrent : MigrationCurrentUseCase (State ω)) (s : State ω) :
    Result Migration × State ω :=
  if isInitMod then (.ok ucInitMigration.GetInitMigration, s)
  else
    match ucFileReader.GetSqlFromGetCurrentMigrationFile o s with
    | .error (.error e) =>
      (.error (.fatal ("Error when retrieving sql text from "
        ++ ucFileReader.ShortPathToGetCurrentMigrationFile ++ ": " ++ e)), s)
    | .error f => (.error f, s)
    | .ok sqlFromGetCurrentMigrationFile =>
      match ucMigrationCurrent.GetCurrentMigration sqlFromGetCurrentMigrationFile s with
      | (.error (.error e), s1) =>
        (.error (.fatal ("Error when retrieving the current database version and the last "
          ++ "applied migration: " ++ e)), s1)
      | (.error f, s1) => (.error f, s1)
      | (.ok currentMigration, s1) => (.ok currentMigration, s1)

/-- Go `core.checkRequiredParameters`. -/
def checkRequiredParameters (cfg : Config) : Result Unit :=
  if cfg.DbEntry.Host = "" ∨ cfg.DbEntry.Port = "" ∨ cfg.DbEntry.DbName = ""
      ∨ cfg.DbEntry.User = "" ∨ cfg.DbEntry.Password = "" then
    .error (.fatal ("Not all parameters for connection are specified. "
      ++ "Familiarize yourself with them using -help."))
  else if cfg.PathToMigrations = "" then
    .error (.fatal ("To view the current version of the database, the last applied migration, "
      ++ "apply new migrations, specify the path to the directory with migration scripts "
      ++ "in the -migrations parameter"))
  else .ok ()

/-- The block of Go `core.Run` that follows a failed `Migrate` and a failed
`UpdateCurrentMigration` alike: the connection is closed, the database is restored from the
dump and the dump deleted; a failed restore ends the process with `log.Fatalf`. -/
def Run.restore {ω : Type} (o : Outside ω) (ucDump : DumpUseCase (State ω)) (newDump : Dump)
    (s : State ω) : Result Unit × State ω :=
  match ucDump.RestoreDatabaseFromDumpAndDeleteDump o newDump (connClose o s) with
  | (.error (.error errFromRestore), s1) =>
    (.error (.fatal ("Error when restoring database from dump: " ++ errFromRestore ++ ": "
      ++ ucDump.GetErrorForBadRestore newDump)), s1)
  | (.error f, s1) => (.error f, s1)
  | (.ok _, s1) => (.ok (), s1)

/-- The last migration of the last group of the plan, Go
`migrationsToMigrate[len(migrationsToMigrate)-1].Migrations[len(...)-1]`; an empty plan or an
empty last group is an index out of range. -/
def Run.lastAppliedMigration (migrationsToMigrate : List MigrationGroup) : Result Migration :=
  match migrationsToMigrate.getLast? with
  | none => .error (.panic "index out of range [-1]")
  | some lastMigrationGroup =>
    match lastMigrationGroup.Migrations.getLast? with
    | none => .error (.panic "index out of range [-1]")
    | some lastAppliedMigration => .ok lastAppliedMigration

/-- The part of Go `core.Run` between the plan and the call of `Migrate`: the update template
is read and checked, the dump use case is built and the dump is created. Each error ends the
process with `log.Fatalf`. -/
def Run.createDump {ω : Type} (o : Outside ω) (cfg : Config) (ucFileReader : FileReaderUseCase)
    (s : State ω) : Result (String × DumpUseCase (State ω) × Dump) × State ω :=
  match ucFileReader.GetSqlFromUpdateCurrentMigrationFile o s with
  | .error (.error e) =>
    (.error (.fatal ("Error when retrieving sql text from "
      ++ ucFileReader.ShortPathToUpdateCurrentMigrationFile ++ ": " ++ e)), s)
  | .error f => (.error f, s)
  | .ok sqlFromUpdateCurrentMigrationFile =>
    match NewDumpPostgres o cfg.DbEntry s with
    | .error (.error e) => (.error (.fatal ("Error when creating infraDumpPostgres: " ++ e)), s)
    | .error f => (.error f, s)
    | .ok infraDumpPostgres =>
      match NewDumpUseCase o infraDumpPostgres s with
      | (.error (.error e), s1) => (.error (.fatal ("Error when creating ucDump: " ++ e)), s1)
      | (.error f, s1) => (.error f, s1)
      | (.ok ucDump, s1) =>
        match ucDump.Create s1 with
        | (.error (.error e), s2) =>
          (.error (.fatal ("Error when creating a new dump: " ++ e)), s2)
        | (.error f, s2) => (.error f, s2)
        | (.ok newDump, s2) => (.ok (sqlFromUpdateCurrentMigrationFile, ucDump, newDump), s2)

/-- The part of Go `core.Run` from the call of `Migrate` to its last `return`: the plan is
applied, the record of the current migration is written and the dump is removed; after an
error of `Migrate` or of `UpdateCurrentMigration` the database is restored. The deferred
`conn.Close` is not part of it. -/
def Run.migrate {ω : Type} (o : Outside ω) (ucMigrationCurrent : MigrationCurrentUseCase (State ω))
    (repoMigrationDisk : MigrationDiskRepo) (sqlFromUpdateCurrentMigrationFile : String)
    (ucDump : DumpUseCase (State ω)) (newDump : Dump) (migrationsToMigrate : List MigrationGroup)
    (s : State ω) : Result Unit × State ω :=
  match (NewMigrateUseCase o repoMigrationDisk).Migrate migrationsToMigrate s with
  | (.error (.error _), s3) => Run.restore o ucDump newDump s3
  | (.error f, s3) => (.error f, s3)
  | (.ok _, s3) =>
    match Run.lastAppliedMigration migrationsToMigrate with
    | .error f => (.error f, s3)
    | .ok lastAppliedMigration =>
      match ucMigrationCurrent.UpdateCurrentMigration sqlFromUpdateCurrentMigrationFile
          lastAppliedMigration s3 with
      | (.error (.error _), s4) => Run.restore o ucDump newDump s4
      | (.error f, s4) => (.error f, s4)
      | (.ok _, s4) =>
        match osRemove o newDump.Path s4 with
        | (.error (.error _), s5) => (.ok (), s5)
        | (.error f, s5) => (.error f, s5)
        | (.ok _, s5) => (.ok (), connClose o s5)

/-- The part of Go `core.Run` after the plan `migrationsToMigrate` is known: `Run.createDump`
followed by `Run.migrate`. -/
def Run.apply {ω : Type} (o : Outside ω) (cfg : Config) (ucFileReader : FileReaderUseCase)
    (ucMigrationCurrent : MigrationCurrentUseCase (State ω))
    (repoMigrationDisk : MigrationDiskRepo) (migrationsToMigrate : List MigrationGroup)
    (s : State ω) : Result Unit × State ω :=
  match Run.createDump o cfg ucFileReader s with
  | (.error f, s2) => (.error f, s2)
  | (.ok (sqlFromUpdateCurrentMigrationFile, ucDump, newDump), s2) =>
    Run.migrate o ucMigrationCurrent repoMigrationDisk sqlFromUpdateCurrentMigrationFile
      ucDump newDump migrationsToMigrate s2

/-- The part of Go `core.Run` that runs with the connection open, from `defer conn.Close(ctx)`
on. The listings of the migration directory are `fs`. -/
def Run.connected {ω : Type} (o : Outside ω) (fs : FileSystem) (cfg : Config) (s : State ω) :
    Result Unit × State ω :=
  let ucFileReader := NewFileReaderUseCase cfg.PathToMigrations
  let ucMigrationCurrent : MigrationCurrentUseCase (State ω) :=
    { repo := MigrationPostgresRepo.asRepo o }
  match NewInitMigrationUseCase with
  | .error (.error e) => (.error (.fatal ("Error when creating ucInitMigration: " ++ e)), s)
  | .error f => (.error f, s)
  | .ok ucInitMigration =>
    match isInitMode o ucFileReader ucMigrationCurrent s with
    | (.error f, s1) => (.error f, s1)
    | (.ok isInitModeON, s1) =>
      match determinationCurrentMigration o isInitModeON ucInitMigration ucFileReader
          ucMigrationCurrent s1 with
      | (.error f, s2) => (.error f, s2)
      | (.ok currentMigration, s2) =>
        let repoMigrationDisk : MigrationDiskRepo :=
          { IsVerbose := cfg.IsVerbose, PathToMigrations := cfg.PathToMigrations }
        match Run.migrationsToMigrate (repoMigrationDisk.asRepo fs) isInitModeON
            currentMigration cfg.StringVersionDb cfg.StringNameMigration with
        | .error f => (.error f, s2)
        | .ok none => (.ok (), s2)
        | .ok (some migrationsToMigrate) =>
          Run.apply o cfg ucFileReader ucMigrationCurrent repoMigrationDisk
            migrationsToMigrate s2

/-- The `defer conn.Close(ctx)` of Go `core.Run` on the outcome of the rest of the function: a
`log.Fatalf` ends the process at once, without the deferred call; a return and a panic run
it. -/
def Run.deferredClose {ω : Type} (o : Outside ω) (r : Result Unit × State ω) :
    Result Unit × State ω :=
  match r with
  | (.error (.fatal m), s) => (.error (.fatal m), s)
  | (r, s) => (r, connClose o s)

/-- Go `core.Run`. The goroutine of `setupCloseHandler`, which waits for an interrupt signal,
is not part of the function. -/
def Run {ω : Type} (o : Outside ω) (fs : FileSystem) (cfg : Config) (s : State ω) :
    Result Unit × State ω :=
  if cfg.IsVersion then (.ok (), s)
  else
    match checkRequiredParameters cfg with
    | .error f => (.error f, s)
    | .ok _ =>
      match OpenConnect o cfg.DbEntry s with
      | (.error (.error e), s1) =>
        (.error (.fatal ("Error when connecting to the database: " ++ e)), s1)
      | (.error f, s1) => (.error f, s1)
      | (.ok _, s1) => Run.deferredClose o (Run.connected o fs cfg s1)

/-- Go `main` after `config.NewConfig`: `core.Run(cfg)` followed by `os.Exit(0)`. The value is
the exit code of the process: `0` from `os.Exit(0)`, `1` from `log.Fatalf`, `2` from a panic of
the Go runtime. -/
def main {ω : Type} (o : Outside ω) (fs : FileSystem) (cfg : Config) (s : State ω) :
    Nat × State ω :=
  match Run o fs cfg s with
  | (.ok _, s') => (0, s')
  | (.error (.panic _), s') => (2, s')
  | (.error _, s') => (1, s')

/-! ## `internal/infrastructure/dump_postgres`

The functions of the package that run inside the program. A string of Go is a sequence of
bytes and its positions count bytes; here a string is a sequence of characters, a position
counts the bytes of the characters before it (`Char.utf8Size`), and a slice is taken at a
position between two characters. The program slices only at positions that `strings.Index`
finds for `DETAIL:` and for the newline, which are such positions, and at position 0. Running
a utility is the parameter `CombinedOutput`, which answers a command with the output and the
error of `cmd.CombinedOutput()`. -/

/-- The loop behind `strings.Index`: `n` is the position of the characters still to search. -/
def Index.loop (substr : List Char) : List Char → Nat → Int
  | [], n => if substr.isEmpty then (n : Int) else -1
  | c :: cs, n =>
    if substr.isPrefixOf (c :: cs) then (n : Int) else Index.loop substr cs (n + c.utf8Size)

/-- Go `strings.Index(s, substr)`: the position of the first instance of `substr` in `s`, or
`-1` if `substr` is not present in `s`. -/
def Index (s substr : String) : Int :=
  Index.loop substr.toList s.toList 0

/-- The characters of a string after the first `n` bytes. -/
def dropBytes : List Char → Nat → List Char
  | [], _ => []
  | c :: cs, n => if n = 0 then c :: cs else dropBytes cs (n - c.utf8Size)

/-- The characters of a string within the first `n` bytes. -/
def takeBytes : List Char → Nat → List Char
  | [], _ => []
  | c :: cs, n => if c.utf8Size ≤ n then c :: takeBytes cs (n - c.utf8Size) else []

/-- Go `s[n:]`; a position outside `0 ≤ n ≤ len(s)` is a run-time panic. -/
def sliceFrom (s : String) (n : Int) : Result String :=
  if n < 0 ∨ (len s : Int) < n then
    .error (.panic "runtime error: slice bounds out of range")
  else .ok (String.mk (dropBytes s.toList n.toNat))

/-- Go `s[:n]`; a position outside `0 ≤ n ≤ len(s)` is a run-time panic. -/
def sliceTo (s : String) (n : Int) : Result String :=
  if n < 0 ∨ (len s : Int) < n then
    .error (.panic "runtime error: slice bounds out of range")
  else .ok (String.mk (takeBytes s.toList n.toNat))

/-- Go `helper.IndexAt`: search for the first substring starting at the specified index. -/
def IndexAt (s sep : String) (n : Int) : Result Int :=
  match sliceFrom s n with
  | .error f => .error f
  | .ok rest =>
    let idx := Index rest sep
    if idx > -1 then .ok (idx + n) else .ok idx

/-- Go `strings.Join(elems, sep)`. -/
def Join : List String → String → String
  | [], _ => ""
  | [a], _ => a
  | a :: b :: rest, sep => a ++ sep ++ Join (b :: rest) sep

/-- The loop behind `strings.Replace(s, old, new, 1)`: the first instance of `old` is replaced
by `new`. -/
def Replace.loop (old new : List Char) : List Char → List Char
  | [] => if old.isEmpty then new else []
  | c :: cs =>
    if old.isPrefixOf (c :: cs) then new ++ (c :: cs).drop old.length
    else c :: Replace.loop old new cs

/-- Go `strings.Replace(s, old, new, 1)`. -/
def Replace (s old new : String) : String :=
  String.mk (Replace.loop old.toList new.toList s.toList)

/-- Go `dump_postgres.DumpPostgres`. -/
structure DumpPostgres where
  pathToDumpUtility : String
  pathToRestoreUtility : String
  dbEntry : DbEntry
deriving DecidableEq, Repr

/-- Go `exec.Cmd` as far as the program fills it: the name and the arguments given to
`exec.Command`, and `cmd.Env`. -/
structure Cmd where
  name : String
  arg : List String
  Env : List String
deriving DecidableEq, Repr

/-- Go `dump_postgres.getPathToDumpUtility`. -/
def getPathToDumpUtility {ω : Type} (o : Outside ω) (s : State ω) : Result String :=
  match o.Executable s.outside with
  | .error e => .error (.error e)
  | .ok pathToExecutable =>
    let pathToDirWithCurrentlyExecutable := o.Dir pathToExecutable
    .ok (pathToDirWithCurrentlyExecutable ++ "/pg_dump_restore_15_2/pg_dump.exe")

/-- Go `dump_postgres.getPathToRestoreUtility`. -/
def getPathToRestoreUtility {ω : Type} (o : Outside ω) (s : State ω) : Result String :=
  match o.Executable s.outside with
  | .error e => .error (.error e)
  | .ok pathToExecutable =>
    let pathToDirWithCurrentlyExecutable := o.Dir pathToExecutable
    .ok (pathToDirWithCurrentlyExecutable ++ "/pg_dump_restore_15_2/pg_restore.exe")

/-- Go `dump_postgres.NewDumpPostgres` as the value it returns; `NewDumpPostgres` above is the
same function as `core.Run` uses it, through the interface `DumpInfrastructure`. -/
def DumpPostgres.New {ω : Type} (o : Outside ω) (dbEntry : DbEntry) (s : State ω) :
    Result DumpPostgres :=
  match getPathToDumpUtility o s with
  | .error f => .error f
  | .ok pathToDumpUtility =>
    match getPathToRestoreUtility o s with
    | .error f => .error f
    | .ok pathToRestoreUtility =>
      .ok { dbEntry := dbEntry, pathToDumpUtility := pathToDumpUtility,
            pathToRestoreUtility := pathToRestoreUtility }

/-- Go `DumpPostgres.getParametersForDumpUtility`. -/
def DumpPostgres.getParametersForDumpUtility (infra : DumpPostgres) (pathToDump : String) :
    List String :=
  ["--host=" ++ infra.dbEntry.Host,
   "--port=" ++ infra.dbEntry.Port,
   "--username=" ++ infra.dbEntry.User,
   "--no-password",
   "--format=" ++ "custom",
   "--create",
   "--clean",
   "--if-exists",
   "--dbname=" ++ infra.dbEntry.DbName,
   "--file=" ++ pathToDump]

/-- Go `DumpPostgres.getParametersForRestoreUtility`. -/
def DumpPostgres.getParametersForRestoreUtility (infra : DumpPostgres) (pathToDump : String) :
    List String :=
  ["--host=" ++ infra.dbEntry.Host,
   "--port=" ++ infra.dbEntry.Port,
   "--username=" ++ infra.dbEntry.User,
   "--no-password",
   "--format=" ++ "custom",
   "--create",
   "--clean",
   "--if-exists",
   "--dbname=" ++ "postgres",
   pathToDump]

/-- The command that Go `DumpPostgres.Create` runs for the dump at `pathToDump`: the dump
utility with its parameters, the password in `PGPASSWORD` of the environment. -/
def DumpPostgres.Create.cmd (uc : DumpPostgres) (pathToDump : String) : Cmd :=
  let parameters := uc.getParametersForDumpUtility pathToDump
  { name := uc.pathToDumpUtility, arg := parameters,
    Env := [] ++ ["PGPASSWORD=" ++ uc.dbEntry.Password] }

/-- The command that Go `DumpPostgres.Restore` runs: the restore utility with its parameters,
the password in `PGPASSWORD` of the environment. -/
def DumpPostgres.Restore.cmd (infra : DumpPostgres) (dump : Dump) : Cmd :=
  let parameters := infra.getParametersForRestoreUtility dump.Path
  { name := infra.pathToRestoreUtility, arg := parameters,
    Env := [] ++ ["PGPASSWORD=" ++ infra.dbEntry.Password] }

/-- The statements of Go `DumpPostgres.Restore` between `cmd.CombinedOutput()` and the test of
`err`: when the output holds `DETAIL:`, it is cut after the position that `helper.IndexAt`
returns for the newline; that position is not tested against `-1`. -/
def DumpPostgres.Restore.strOutput (output : String) : Result String :=
  let strOutput := output
  let detailIndex := Index strOutput "DETAIL:"
  if detailIndex ≠ -1 then
    match IndexAt strOutput "\n" (detailIndex + 1) with
    | .error f => .error f
    | .ok lastIndex => sliceTo strOutput (lastIndex + 1)
  else .ok strOutput

/-- Go `DumpPostgres.Restore`: the error, when the utility fails, is
`fmt.Errorf("%s: %w", strOutput, err)`. -/
def DumpPostgres.Restore (CombinedOutput : Cmd → String × Option String) (infra : DumpPostgres)
    (dump : Dump) : Result Unit :=
  let cmd := DumpPostgres.Restore.cmd infra dump
  match CombinedOutput cmd with
  | (output, err) =>
    match DumpPostgres.Restore.strOutput output with
    | .error f => .error f
    | .ok strOutput =>
      match err with
      | some e => .error (.error (strOutput ++ ": " ++ e))
      | none => .ok ()

/-- Go `DumpPostgres.GetCommandToRestoreDump`. -/
def DumpPostgres.GetCommandToRestoreDump {ω : Type} (o : Outside ω) (infra : DumpPostgres)
    (dump : Dump) (s : State ω) : Result String :=
  match getPathToRestoreUtility o s with
  | .error f => .error f
  | .ok pathToRestoreUtility =>
    let params := infra.getParametersForRestoreUtility dump.Path
    let strParams := Join params " "
    let commandToRestoreDump := pathToRestoreUtility ++ " " ++ strParams
    let commandToRestoreDump := Replace commandToRestoreDump " --no-password " " "
    .ok commandToRestoreDump
/-! ## Fixtures

Concrete trees and records, the ones of the scenarios of the specification, on which the
properties below are instantiated. -/

/-- The migrations root of the fixtures. -/
def exampleRepo : MigrationDiskRepo := { IsVerbose := false, PathToMigrations := "migrations" }

/-- The tree of the scenario *Normal update*: `v0.0.3` and `v0.0.4` with three scripts each,
next to `utils`. -/
def exampleTree : FileSystem := fun path =>
  if path = "migrations" then .ok ["utils", "v0.0.3", "v0.0.4"]
  else if path = "migrations/v0.0.3" then
    .ok ["0001.First.sql", "0002.Clear.sql", "0003.Hqwerty.sql"]
  else if path = "migrations/v0.0.4" then .ok ["0001.hhh.sql", "0002.jjj.sql", "0003.kkk.sql"]
  else .error "open: no such file or directory"

/-- Version `v0.0.3`. -/
def v003 : VersionDb := { version := { major := 0, minor := 0, patch := 3, original := "v0.0.3" } }

/-- Version `v0.0.4`. -/
def v004 : VersionDb := { version := { major := 0, minor := 0, patch := 4, original := "v0.0.4" } }

/-- The current record `(v0.0.3, 0002.Clear)` of the scenario *Normal update*. -/
def exampleCurrent : Migration := { VersionDb := v003, Name := "0002.Clear" }

/-- The group `v0.0.3` of `exampleTree` as the disk source loads it. -/
def exampleHead : MigrationGroup :=
  { VersionDb := v003,
    Migrations := [{ VersionDb := v003, Name := "0001.First" },
                   { VersionDb := v003, Name := "0002.Clear" },
                   { VersionDb := v003, Name := "0003.Hqwerty" }] }

/-- Version `v0.0.5`. -/
def v005 : VersionDb := { version := { major := 0, minor := 0, patch := 5, original := "v0.0.5" } }

/-- The tree of the test `IncorrectOrderInPreviousVersions`: the past version `v0.0.4` has an
ordinal gap (`0010.kkk` follows `0002.jjj`). -/
def pastGapTree : FileSystem := fun path =>
  if path = "migrations" then .ok ["utils", "v0.0.4", "v0.0.5"]
  else if path = "migrations/v0.0.4" then .ok ["0001.hhh.sql", "0002.jjj.sql", "0010.kkk.sql"]
  else if path = "migrations/v0.0.5" then
    .ok ["0001.First.sql", "0002.Second.sql", "0003.Clear.sql", "0004.ASDF.sql", "0005.ZXCD.sql"]
  else .error "open: no such file or directory"

/-- The tree `pastGapTree` with the gap of `v0.0.4` closed. -/
def pastDenseTree : FileSystem := fun path =>
  if path = "migrations" then .ok ["utils", "v0.0.4", "v0.0.5"]
  else if path = "migrations/v0.0.4" then .ok ["0001.hhh.sql", "0002.jjj.sql", "0003.kkk.sql"]
  else if path = "migrations/v0.0.5" then
    .ok ["0001.First.sql", "0002.Second.sql", "0003.Clear.sql", "0004.ASDF.sql", "0005.ZXCD.sql"]
  else .error "open: no such file or directory"

/-- The current record `(v0.0.5, 0003.Clear)` of the test `IncorrectOrderInPreviousVersions`. -/
def pastGapCurrent : Migration := { VersionDb := v005, Name := "0003.Clear" }

/-- The unapplied groups of the scenario *Normal update*: the rest of `v0.0.3` after
`0002.Clear`, and `v0.0.4`. -/
def exampleUnapplied : List MigrationGroup :=
  [{ VersionDb := v003, Migrations := [{ VersionDb := v003, Name := "0003.Hqwerty" }] },
   { VersionDb := v004,
     Migrations := [{ VersionDb := v004, Name := "0001.hhh" },
                    { VersionDb := v004, Name := "0002.jjj" },
                    { VersionDb := v004, Name := "0003.kkk" }] }]

/-- The target `(v0.0.4, 0002.jjj)` of the scenario *Migration-within-version*. -/
def exampleTarget : Migration := { VersionDb := v004, Name := "0002.jjj" }

/-- The tree of the scenario *Ordinal gap*: `v0.0.4` starts at `0002`. -/
def gapTree : FileSystem := fun path =>
  if path = "migrations" then .ok ["utils", "v0.0.3", "v0.0.4"]
  else if path = "migrations/v0.0.3" then .ok ["0001.First.sql"]
  else if path = "migrations/v0.0.4" then .ok ["0002.hhh.sql", "0003.jjj.sql", "0004.kkk.sql"]
  else .error "open: no such file or directory"

/-- The tree of the scenario *Malformed names ignored* without the malformed files. -/
def wellNamedTree : FileSystem := fun path =>
  if path = "migrations" then .ok ["utils", "v0.0.3"]
  else if path = "migrations/v0.0.3" then .ok ["0001.First.sql", "0002.Good.sql"]
  else .error "open: no such file or directory"

/-- The tree of the scenario *Malformed names ignored*: `v0.0.3` also holds four files that
fail the name or the extension check. -/
def malformedNamesTree : FileSystem := fun path =>
  if path = "migrations/v0.0.3" then
    .ok ["0001.First.sql", "02.Clear.sql", "0002.Clear.lash", "0002..sql", "0002.Clear",
         "0002.Good.sql"]
  else wellNamedTree path

/-- The current record `(v0.0.3, 0001.First)` of the scenario *Malformed names ignored*. -/
def malformedNamesCurrent : Migration := { VersionDb := v003, Name := "0001.First" }

/-- The unapplied groups of `pastDenseTree` (and of `pastGapTree`) for `pastGapCurrent`. -/
def pastGapUnapplied : List MigrationGroup :=
  [{ VersionDb := v005,
     Migrations := [{ VersionDb := v005, Name := "0004.ASDF" },
                    { VersionDb := v005, Name := "0005.ZXCD" }] }]

/-- Version `v0.0.4` written `v0.0.04`: the same version, another text. -/
def v004' : VersionDb :=
  { version := { major := 0, minor := 0, patch := 4, original := "v0.0.04" } }

/-- A tree in which one version has two directories, `v0.0.04` and `v0.0.4`; the root is
listed in the order of the names. -/
def repeatedVersionTree : FileSystem := fun path =>
  if path = "migrations" then .ok ["utils", "v0.0.04", "v0.0.3", "v0.0.4"]
  else if path = "migrations/v0.0.3" then .ok ["0001.First.sql"]
  else if path = "migrations/v0.0.04" then .ok ["0001.hhh.sql", "0002.jjj.sql"]
  else if path = "migrations/v0.0.4" then .ok ["0001.hhh.sql"]
  else .error "open: no such file or directory"

/-- The current record `(v0.0.3, 0001.First)`, the last migration of `v0.0.3` in
`repeatedVersionTree`. -/
def repeatedVersionCurrent : Migration := { VersionDb := v003, Name := "0001.First" }

/-- The unapplied groups of `repeatedVersionTree` for `repeatedVersionCurrent`. -/
def repeatedVersionUnapplied : List MigrationGroup :=
  [{ VersionDb := v004',
     Migrations := [{ VersionDb := v004', Name := "0001.hhh" },
                    { VersionDb := v004', Name := "0002.jjj" }] },
   { VersionDb := v004, Migrations := [{ VersionDb := v004, Name := "0001.hhh" }] }]

/-- Version `v0.1.2`. -/
def v012 : VersionDb := { version := { major := 0, minor := 1, patch := 2, original := "v0.1.2" } }

/-- The directory `v0.1.2` of the test `CurrentMigrationLast`, listed in the order in which the
test creates the files: `0002.Clear.sql` before `0001.FirstMigration.sql`. -/
def creationOrderTree : FileSystem := fun path =>
  if path = "migrations" then .ok ["utils", "v0.1.2"]
  else if path = "migrations/v0.1.2" then .ok ["0002.Clear.sql", "0001.FirstMigration.sql"]
  else .error "open: no such file or directory"

/-- The directory of `creationOrderTree` listed in the order of the names. -/
def nameOrderTree : FileSystem := fun path =>
  if path = "migrations" then .ok ["utils", "v0.1.2"]
  else if path = "migrations/v0.1.2" then .ok ["0001.FirstMigration.sql", "0002.Clear.sql"]
  else .error "open: no such file or directory"


/-- Version `v0.0.0`, the version of the initialization mode. -/
def v000 : VersionDb := { version := { major := 0, minor := 0, patch := 0, original := "v0.0.0" } }

/-- The record `(v0.0.0, 0000.InitMod)` that the initialization mode takes as current. -/
def initCurrent : Migration := { VersionDb := v000, Name := "0000.InitMod" }

/-- The tree of the scenario *Init-mode bootstrap*: `v0.0.0` with two scripts and `v0.0.3`
with one. -/
def initTree : FileSystem := fun path =>
  if path = "migrations" then .ok ["utils", "v0.0.0", "v0.0.3"]
  else if path = "migrations/v0.0.0" then
    .ok ["0001.CreateLastMigrationTable.sql", "0002.InsetInitData.sql"]
  else if path = "migrations/v0.0.3" then .ok ["0001.Clear.sql"]
  else .error "open: no such file or directory"

/-- The group `v0.0.0` of `initTree` as the disk source loads it. -/
def initHead : MigrationGroup :=
  { VersionDb := v000,
    Migrations := [{ VersionDb := v000, Name := "0001.CreateLastMigrationTable" },
                   { VersionDb := v000, Name := "0002.InsetInitData" }] }

/-- The group `v0.0.3` of `initTree` as the disk source loads it. -/
def initLater : MigrationGroup :=
  { VersionDb := v003, Migrations := [{ VersionDb := v003, Name := "0001.Clear" }] }

/-- The tree of the test `v0.0.0 has no migrations`: the directory `v0.0.0` holds no script. -/
def emptyZeroTree : FileSystem := fun path =>
  if path = "migrations" then .ok ["utils", "v0.0.0", "v0.0.3"]
  else if path = "migrations/v0.0.0" then .ok []
  else if path = "migrations/v0.0.3" then .ok ["0001.Clear.sql"]
  else .error "open: no such file or directory"

/-- A small outside for the examples: the files with their text, what the probe and the query
of the current record answer, the scripts whose execution fails, the statements executed so
far with their arguments, and whether the restore utility works. -/
structure World where
  files : List (String × String)
  probe : Except String Bool
  record : Except String migration_postgres.migration
  failing : List String
  executed : List (String × List String)
  restoreWorks : Bool
deriving DecidableEq

/-- The operations of the outside on a `World`. A restore puts the database back, so the
statements executed so far are gone; the dump is written to `db.dump` of the given directory. -/
def exampleOutside : Outside World :=
  { Connect := fun _ w => (.ok (), w),
    Exec := fun sql args w =>
      if sql ∈ w.failing then (.error ("ERROR: syntax error at or near " ++ sql), w)
      else (.ok (), { w with executed := w.executed ++ [(sql, args)] }),
    QueryRowScan := fun _ w => (w.probe, w),
    QueryCollectOneRow := fun _ w => (w.record, w),
    Close := fun w => w,
    Stat := fun path w => (w.files.lookup path).isSome,
    ReadFile := fun path w =>
      match w.files.lookup path with
      | some text => .ok text
      | none => .error ("open " ++ path ++ ": no such file or directory"),
    Remove := fun name w =>
      if (w.files.lookup name).isSome then
        (.ok (), { w with files := w.files.filter (fun f => f.1 ≠ name) })
      else (.error ("remove " ++ name ++ ": no such file or directory"), w),
    Executable := fun _ => .ok "/opt/dbupdater/dbupdater",
    Dir := fun _ => "/opt/dbupdater",
    MkdirAll := fun _ w => (.ok (), w),
    Create := fun pathForSaveDumps w =>
      (.ok { path := pathForSaveDumps ++ "/db.dump" },
        { w with files := w.files ++ [(pathForSaveDumps ++ "/db.dump", "dump")] }),
    Restore := fun _ w =>
      if w.restoreWorks then (.ok (), { w with executed := [] })
      else (.error "pg_restore: error: connection to server failed", w),
    GetCommandToRestoreDump := fun dump => .ok ("pg_restore --create --clean " ++ dump.Path) }

/-- The files under `migrations/utils` of the examples. -/
def utilsFiles : List (String × String) :=
  [("migrations/utils/HasCurrentVersion.sql", "SELECT COUNT(*)<>0 FROM lastMigration"),
   ("migrations/utils/GetCurrentVersion.sql", "SELECT version, name FROM lastMigration"),
   ("migrations/utils/UpdateCurrentVersion.sql",
     "UPDATE lastMigration SET version = $1, name = $2")]

/-- The world of the scenario *Normal update*: the record is `(v0.0.3, 0002.Clear)` and every
script runs. -/
def exampleWorld : World :=
  { files := utilsFiles ++
      [("migrations/v0.0.3/0003.Hqwerty.sql", "CREATE TABLE hqwerty ()"),
       ("migrations/v0.0.4/0001.hhh.sql", "CREATE TABLE hhh ()"),
       ("migrations/v0.0.4/0002.jjj.sql", "CREATE TABLE jjj ()"),
       ("migrations/v0.0.4/0003.kkk.sql", "CREATE TABLE kkk ()")],
    probe := .ok true,
    record := .ok { VersionDb := "v0.0.3", Name := "0002.Clear" },
    failing := [],
    executed := [],
    restoreWorks := true }

/-- The world `exampleWorld` in which the script `0002.jjj` of `v0.0.4` fails. -/
def failingWorld : World := { exampleWorld with failing := ["CREATE TABLE jjj ()"] }

/-- The world `failingWorld` in which the restore utility fails as well. -/
def brokenRestoreWorld : World := { failingWorld with restoreWorks := false }

/-- The world of the scenario *Init-mode bootstrap*: the probe fails on the missing table. -/
def bootstrapWorld : World :=
  { files := utilsFiles ++
      [("migrations/v0.0.0/0001.CreateLastMigrationTable.sql", "CREATE TABLE lastMigration ()"),
       ("migrations/v0.0.0/0002.InsetInitData.sql", "INSERT INTO lastMigration VALUES ()"),
       ("migrations/v0.0.3/0001.Clear.sql", "DELETE FROM t")],
    probe := .error "ERROR: relation lastmigration does not exist (SQLSTATE 42P01)",
    record := .error "ERROR: relation lastmigration does not exist (SQLSTATE 42P01)",
    failing := [],
    executed := [],
    restoreWorks := true }

/-- The connection parameters of the examples. -/
def exampleDbEntry : DbEntry :=
  { Host := "localhost", Port := "5432", DbName := "db", User := "postgres", Password := "pw" }

/-- The configuration of a run on the directory `migrations` with the two targets given. -/
def exampleConfig (StringVersionDb StringNameMigration : String) : Config :=
  { Version := "1.0.0", IsVersion := false, IsVerbose := false,
    PathToMigrations := "migrations", StringVersionDb := StringVersionDb,
    StringNameMigration := StringNameMigration, DbEntry := exampleDbEntry }

/-- The state in which a run on the world `w` starts: no call made yet. -/
def start (w : World) : State World := { outside := w, calls := [] }

/-- The state of a run on the world `w` when the plan is known: the connection is open, the
probe and the query of the current record are made. -/
def afterSetup (w : World) : State World :=
  { outside := w,
    calls := [.Connect ("host=localhost port=5432 dbname=db user=postgres password=pw "
                ++ "target_session_attrs=read-write"),
              .QueryRowScan "SELECT COUNT(*)<>0 FROM lastMigration",
              .QueryCollectOneRow "SELECT version, name FROM lastMigration"] }

/-- The dump that `exampleOutside` creates. -/
def exampleDump : Dump := { path := "/opt/dbupdater/dumps/db.dump" }

/-- The dump use case of a run on `exampleOutside`. -/
def exampleDumpUseCase : DumpUseCase (State World) :=
  { pathForSaveDumps := "/opt/dbupdater/dumps",
    infrastructure := exampleOutside.DumpInfrastructure }

/-- The state of a run on the world `w` when the dump is created. -/
def afterDump (w : World) : State World :=
  { outside := { w with files := w.files ++ [("/opt/dbupdater/dumps/db.dump", "dump")] },
    calls := (afterSetup w).calls
      ++ [.MkdirAll "/opt/dbupdater/dumps", .Create "/opt/dbupdater/dumps"] }

/-- A tree whose only script of `v0.0.3` has a signed number, `+001.First.sql`. -/
def signedNameTree : FileSystem := fun path =>
  if path = "migrations" then .ok ["utils", "v0.0.3"]
  else if path = "migrations/v0.0.3" then .ok ["+001.First.sql"]
  else .error "open: no such file or directory"

/-- The world `exampleWorld` in which the query of the current record answers an empty
`version_db`. -/
def emptyVersionWorld : World :=
  { exampleWorld with record := .ok { VersionDb := "", Name := "0002.Clear" } }

/-- The root of the tests `MigrationSortingCheck` and `InvalidVersionName`, in the order in
which the tests create the directories. -/
def sortingTree : FileSystem := fun path =>
  if path = "migrations" then
    .ok ["utils", "v0.1.2", "v0.2.5", "v0.1.11", "v0.1.9", "v0.0.52", "v0.2.15", "vt.0.2.5a"]
  else .error "open: no such file or directory"

/-- The versions of `sortingTree` in ascending order, as the test `MigrationSortingCheck`
expects them. -/
def sortingVersions : List VersionDb :=
  [{ version := { major := 0, minor := 0, patch := 52, original := "v0.0.52" } },
   { version := { major := 0, minor := 1, patch := 2, original := "v0.1.2" } },
   { version := { major := 0, minor := 1, patch := 9, original := "v0.1.9" } },
   { version := { major := 0, minor := 1, patch := 11, original := "v0.1.11" } },
   { version := { major := 0, minor := 2, patch := 5, original := "v0.2.5" } },
   { version := { major := 0, minor := 2, patch := 15, original := "v0.2.15" } }]

/-- The world `exampleWorld` with the update template of the test `EmptyFile`: the file is
there and holds no text. -/
def emptyTemplateWorld : World :=
  { exampleWorld with
      files := [("migrations/utils/HasCurrentVersion.sql", "SELECT COUNT(*)<>0 FROM lastMigration"),
                ("migrations/utils/GetCurrentVersion.sql", "SELECT version, name FROM lastMigration"),
                ("migrations/utils/UpdateCurrentVersion.sql", "")] }

/-- One group of `v0.0.3` that holds the migration `0001.First` only. -/
def singleGroup : List MigrationGroup :=
  [{ VersionDb := v003, Migrations := [{ VersionDb := v003, Name := "0001.First" }] }]

/-- The connection parameters `exampleDbEntry` with another password. -/
def otherPasswordEntry : DbEntry := { exampleDbEntry with Password := "another secret" }

/-- The value that `dump_postgres.NewDumpPostgres` returns on `exampleOutside` for
`exampleDbEntry`. -/
def exampleDumpPostgres : DumpPostgres :=
  { pathToDumpUtility := "/opt/dbupdater/pg_dump_restore_15_2/pg_dump.exe",
    pathToRestoreUtility := "/opt/dbupdater/pg_dump_restore_15_2/pg_restore.exe",
    dbEntry := exampleDbEntry }

/-- An output of the restore utility that fails on a database in use: the line `DETAIL:` is
followed by the command. -/
def busyOutput : String :=
  "pg_restore: error: could not execute query: ERROR:  database is being accessed by other users\n"
    ++ "DETAIL:  There is 1 other session using the database.\n"
    ++ "Command was: DROP DATABASE db;\n"

/-- An output of the restore utility that ends with the line `DETAIL:`, without a newline
after it. -/
def unterminatedOutput : String :=
  "pg_restore: error: could not execute query: ERROR:  database is being accessed by other users\n"
    ++ "DETAIL:  There is 1 other session using the database."

/-- A restore utility that fails with the given output and `exit status 1`. -/
def failingUtility (output : String) : Cmd → String × Option String :=
  fun _ => (output, some "exit status 1")

/-! ## Notions of the specification -/

/-- The migrations of a plan in plan order: the groups in order, the migrations of each group
in order. -/
def flattenedPlan (plan : List MigrationGroup) : List Migration :=
  (plan.map (fun mg => mg.Migrations)).flatten

/-- The migrations `migrations` are loaded and executed one after the other without error,
which takes the state `s` to the state `s'`. -/
def Migrate.applied {σ : Type} (uc : MigrateUseCase σ) : List Migration → σ → σ → Prop
  | [], s, s' => s' = s
  | migration :: rest, s, s' =>
    ∃ s1, Migrate.body uc migration s = (.ok (), s1) ∧ Migrate.applied uc rest s1 s'

/-- The outcome `r` of a pass over `migrations` from the state `s` that stops at the first
error: a prefix `done` is applied; either nothing is left and `r` is no error, or the next
migration fails and `r` is its error with the state it left, nothing after it being tried. -/
def Migrate.stopsAtFirstError {σ : Type} (uc : MigrateUseCase σ) (migrations : List Migration)
    (s : σ) (r : Result Unit × σ) : Prop :=
  ∃ (done rest : List Migration) (s' : σ),
    migrations = done ++ rest ∧ Migrate.applied uc done s s' ∧
    ((rest = [] ∧ r = (.ok (), s')) ∨
      ∃ (migration : Migration) (later : List Migration) (f : Failure) (s'' : σ),
        rest = migration :: later ∧ Migrate.body uc migration s' = (.error f, s'') ∧
        r = (.error f, s''))

/-- The calls made from the state `s` to a later state `s'`. -/
def State.since {ω : Type} (s s' : State ω) : List Call :=
  s'.calls.drop s.calls.length

/-- The call writes the record of the current migration: it is the `Exec` of
`UpdateCurrentMigration`, the only one that passes arguments to its statement. -/
def Call.isUpdate : Call → Bool
  | .Exec _ (_ :: _) => true
  | _ => false

/-- The run of `core.Run` on `cfg` from the state `s` finds the mode `isInitModeON` and the
current migration `currentMigration` in the state `s'`: the parameters are complete, the
connection opens, and the mode and the current migration are determined. -/
def Run.finds {ω : Type} (o : Outside ω) (cfg : Config) (s : State ω)
    (isInitModeON : Bool) (currentMigration : Migration) (s' : State ω) : Prop :=
  cfg.IsVersion = false ∧ checkRequiredParameters cfg = .ok () ∧
  ∃ (ucInitMigration : InitMigrationUseCase) (s1 s2 : State ω),
    NewInitMigrationUseCase = .ok ucInitMigration ∧
    OpenConnect o cfg.DbEntry s = (.ok (), s1) ∧
    isInitMode o (NewFileReaderUseCase cfg.PathToMigrations)
      { repo := MigrationPostgresRepo.asRepo o } s1 = (.ok isInitModeON, s2) ∧
    determinationCurrentMigration o isInitModeON ucInitMigration
      (NewFileReaderUseCase cfg.PathToMigrations)
      { repo := MigrationPostgresRepo.asRepo o } s2 = (.ok currentMigration, s')

/-- The run of `core.Run` on `cfg` from the state `s` finds the mode `isInitModeON` and the
current migration `currentMigration` and comes to apply the plan `migrationsToMigrate` in the
state `s'`: the planner returns that plan. -/
def Run.plansFrom {ω : Type} (o : Outside ω) (fs : FileSystem) (cfg : Config) (s : State ω)
    (isInitModeON : Bool) (currentMigration : Migration)
    (migrationsToMigrate : List MigrationGroup) (s' : State ω) : Prop :=
  Run.finds o cfg s isInitModeON currentMigration s' ∧
  Run.migrationsToMigrate
    (MigrationDiskRepo.asRepo fs
      { IsVerbose := cfg.IsVerbose, PathToMigrations := cfg.PathToMigrations })
    isInitModeON currentMigration cfg.StringVersionDb cfg.StringNameMigration
    = .ok (some migrationsToMigrate)

/-- The run of `core.Run` on `cfg` from the state `s` comes to apply the plan
`migrationsToMigrate` in the state `s'`, in some mode and for some current migration. -/
def Run.plans {ω : Type} (o : Outside ω) (fs : FileSystem) (cfg : Config) (s : State ω)
    (migrationsToMigrate : List MigrationGroup) (s' : State ω) : Prop :=
  ∃ (isInitModeON : Bool) (currentMigration : Migration),
    Run.plansFrom o fs cfg s isInitModeON currentMigration migrationsToMigrate s'

/-- The call is one that `core.Run` makes before it calls `Migrate`: the connecting, the probe,
the query of the current record, the making of the directory of the dumps and the creation of
the dump. -/
def Call.isSetup : Call → Bool
  | .Connect _ => true
  | .QueryRowScan _ => true
  | .QueryCollectOneRow _ => true
  | .MkdirAll _ => true
  | .Create _ => true
  | _ => false

/-- A version component as the specification writes it: a non-empty run of decimal digits. -/
def Version.isDecimal (cs : List Char) : Bool :=
  !cs.isEmpty && cs.all Char.isDigit

/-- The version string `v<a>.<b>.<c>` of three components. -/
def Version.text (a b c : List Char) : String :=
  String.mk ('v' :: a ++ '.' :: b ++ '.' :: c)

/-- The lexicographic order of triples of natural numbers, strict. -/
def tripleLess (x y z x' y' z' : Nat) : Prop :=
  x < x' ∨ (x = x' ∧ (y < y' ∨ (y = y' ∧ z < z')))

/-- The version of an entry of the migrations root: the entry has one when its name starts
with `v` and parses as a version, which is when `NewVersionDb` accepts the name. -/
def versionOfEntry (name : String) : Option VersionDb :=
  match NewVersionDb name with
  | .ok v => some v
  | .error _ => none
/-! # Properties

## Loops and searches -/

theorem foldl_range'_collect {α β : Type} (xs : List α) (g : α → β) :
    ∀ (n lo : Nat) (acc : List β),
      (List.range' lo n).foldl (fun a i => appendElem xs g i a) acc
        = acc ++ ((xs.drop lo).take n).map g := by
  unfold appendElem
  intro n
  induction n with
  | zero => intro lo acc; simp
  | succ n ih =>
    intro lo acc
    rw [List.range'_succ, List.foldl_cons, ih]
    by_cases h : lo < xs.length
    · rw [List.getElem?_eq_getElem h, List.drop_eq_getElem_cons h, List.take_succ_cons,
        List.map_cons, List.append_assoc]
      rfl
    · have h1 : xs.length ≤ lo := Nat.le_of_not_lt h
      rw [List.getElem?_eq_none h1, List.drop_eq_nil_of_le h1,
        List.drop_eq_nil_of_le (Nat.le_succ_of_le h1)]
      simp

theorem forLoop_collect {α β : Type} (xs : List α) (g : α → β) (lo hi : Nat) :
    forLoop lo hi (appendElem xs g) []
      = ((xs.drop lo).take (hi - lo)).map g := by
  unfold forLoop
  rw [foldl_range'_collect]
  simp

theorem IndexMigration_loop_spec (migration : Migration) :
    ∀ (ms : List Migration) (i : Nat),
      (IndexMigration.loop migration ms i = -1 ∧ ∀ x ∈ ms, migration.IsEqual x = false) ∨
      (∃ (k : Nat) (x : Migration), ms[k]? = some x ∧ migration.IsEqual x = true ∧
        IndexMigration.loop migration ms i = ((i + k : Nat) : Int)) := by
  intro ms
  induction ms with
  | nil => intro i; left; simp [IndexMigration.loop]
  | cons m rest ih =>
    intro i
    by_cases h : migration.IsEqual m = true
    · right
      exact ⟨0, m, by simp, h, by simp [IndexMigration.loop, h]⟩
    · have hf : migration.IsEqual m = false := by simpa using h
      rcases ih (i + 1) with ⟨h1, h2⟩ | ⟨k, x, h1, h2, h3⟩
      · left
        refine ⟨by simp [IndexMigration.loop, hf, h1], ?_⟩
        intro x hx
        rcases List.mem_cons.mp hx with rfl | hx
        · exact hf
        · exact h2 x hx
      · right
        refine ⟨k + 1, x, by simpa using h1, h2, ?_⟩
        simp only [IndexMigration.loop, hf, Bool.false_eq_true, if_false, h3]
        congr 1
        omega

theorem IndexMigration_spec (ms : List Migration) (migration : Migration) :
    (IndexMigration ms migration = -1 ∧ ∀ x ∈ ms, migration.IsEqual x = false) ∨
    (∃ (k : Nat) (x : Migration), ms[k]? = some x ∧ migration.IsEqual x = true ∧
      IndexMigration ms migration = (k : Int)) := by
  unfold IndexMigration
  cases hl : ms.getLast? with
  | none =>
    left
    have : ms = [] := List.getLast?_eq_none_iff.mp hl
    simp [this]
  | some last =>
    obtain ⟨ys, rfl⟩ := List.getLast?_eq_some_iff.mp hl
    simp only
    by_cases h : migration.IsEqual last = true
    · right
      refine ⟨ys.length, last, by simp, h, ?_⟩
      simp [h]
    · have hf : migration.IsEqual last = false := by simpa using h
      simp only [hf, Bool.false_eq_true, if_false, List.dropLast_concat]
      rcases IndexMigration_loop_spec migration ys 0 with ⟨h1, h2⟩ | ⟨k, x, h1, h2, h3⟩
      · left
        refine ⟨h1, ?_⟩
        intro x hx
        rcases List.mem_append.mp hx with hx | hx
        · exact h2 x hx
        · simp at hx; subst hx; exact hf
      · right
        have hk : k < ys.length := by
          by_contra hc
          rw [List.getElem?_eq_none (Nat.le_of_not_lt hc)] at h1
          cases h1
        refine ⟨k, x, ?_, h2, by simpa using h3⟩
        rw [List.getElem?_append_left hk]
        exact h1

theorem migrationsStructureCheck_loop_ok_iff :
    ∀ (ms : List Migration) (i : Nat),
      migrationsStructureCheck.loop ms i = .ok () ↔
        ∀ (k : Nat) (m : Migration), ms[k]? = some m →
          getNumberInNameMigration m.Name = .ok (((i + k : Nat) : Int) + 1) := by
  intro ms
  induction ms with
  | nil => intro i; simp [migrationsStructureCheck.loop]
  | cons m rest ih =>
    intro i
    unfold migrationsStructureCheck.loop
    cases hn : getNumberInNameMigration m.Name with
    | error f =>
      simp only
      constructor
      · intro h; cases h
      · intro h
        have := h 0 m (by simp)
        rw [hn] at this
        cases this
    | ok number =>
      simp only
      by_cases hne : number ≠ (i : Int) + 1
      · rw [if_pos hne]
        constructor
        · intro h; cases h
        · intro h
          have := h 0 m (by simp)
          rw [hn] at this
          simp at this
          exact absurd this hne
      · rw [if_neg hne, ih]
        have hnum : number = (i : Int) + 1 := by simpa using hne
        constructor
        · intro h k x hk
          cases k with
          | zero =>
            simp at hk
            subst hk
            rw [hn, hnum]
            simp
          | succ k =>
            simp at hk
            have := h k x hk
            rw [this]
            congr 2
            omega
        · intro h k x hk
          have := h (k + 1) x (by simpa using hk)
          rw [this]
          congr 2
          omega

theorem migrationsStructureCheck_ok_iff (mg : MigrationGroup) :
    migrationsStructureCheck mg = .ok () ↔
      ∀ (k : Nat) (m : Migration), mg.Migrations[k]? = some m →
        getNumberInNameMigration m.Name = .ok ((k : Int) + 1) := by
  unfold migrationsStructureCheck
  rw [migrationsStructureCheck_loop_ok_iff]
  simp

/-- In a group that passes the structure check, two positions with the same name coincide. -/
theorem name_position_unique (mg : MigrationGroup) (h : migrationsStructureCheck mg = .ok ())
    (j k : Nat) (a b : Migration) (ha : mg.Migrations[j]? = some a)
    (hb : mg.Migrations[k]? = some b) (hab : a.Name = b.Name) : j = k := by
  rw [migrationsStructureCheck_ok_iff] at h
  have h1 := h j a ha
  have h2 := h k b hb
  rw [hab, h2] at h1
  simp at h1
  omega
/-! ## The unapplied migrations of the current version -/

theorem Migration.IsEqual_name {a b : Migration} (h : a.IsEqual b = true) : a.Name = b.Name := by
  unfold Migration.IsEqual at h
  simp at h
  exact h.2

theorem getElem?_of_mem_drop {α : Type} (xs : List α) (n : Nat) (x : α) (h : x ∈ xs.drop n) :
    ∃ k, n ≤ k ∧ xs[k]? = some x := by
  obtain ⟨j, hj⟩ := List.mem_iff_getElem?.mp h
  rw [List.getElem?_drop] at hj
  exact ⟨n + j, Nat.le_add_right n j, hj⟩

theorem getElem?_of_mem_take {α : Type} (xs : List α) (n : Nat) (x : α) (h : x ∈ xs.take n) :
    ∃ k, k < n ∧ xs[k]? = some x := by
  obtain ⟨j, hj⟩ := List.mem_iff_getElem?.mp h
  rw [List.getElem?_take] at hj
  by_cases hjn : j < n
  · rw [if_pos hjn] at hj
    exact ⟨j, hjn, hj⟩
  · rw [if_neg hjn] at hj
    cases hj

/-- C1: in normal mode, for a head group loaded for the current version,
`getUnappliedSortedMigrationsForVersion` fails with
`the <v> <name> migration is not in the migrations directory` exactly when no migration of the
head group is equal to the current record (so also when the group is empty); otherwise it
returns the group of the current version holding the migrations of the head group at the
positions strictly after the index found by `IndexMigration`, in the same order. For a head
group that passes the structure check (every group the disk source loads), none of the
returned migrations equals the current record or has the name of a migration at or before
the found index. -/
theorem getUnappliedSortedMigrationsForVersion_normal_mode
    (repo : MigrationRepoForMigrations) (currentMigration : Migration) (head : MigrationGroup)
    (hload : repo.GetSortedMigrations currentMigration.VersionDb = .ok head) :
    (getUnappliedSortedMigrationsForVersion repo false currentMigration
        = .error (.error ("the " ++ currentMigration.VersionDb.String ++ " "
            ++ currentMigration.Name ++ " migration is not in the migrations directory"))
      ↔ ∀ m ∈ head.Migrations, currentMigration.IsEqual m = false) ∧
    ((∃ m ∈ head.Migrations, currentMigration.IsEqual m = true) →
      ∃ (index : Nat) (found : Migration),
        IndexMigration head.Migrations currentMigration = (index : Int) ∧
        head.Migrations[index]? = some found ∧ currentMigration.IsEqual found = true ∧
        getUnappliedSortedMigrationsForVersion repo false currentMigration
          = .ok { VersionDb := currentMigration.VersionDb,
                  Migrations := head.Migrations.drop (index + 1) } ∧
        (migrationsStructureCheck head = .ok () →
          ∀ m ∈ head.Migrations.drop (index + 1),
            currentMigration.IsEqual m = false ∧
            ∀ m' ∈ head.Migrations.take (index + 1), m'.Name ≠ m.Name)) := by
  have hres : ∀ (index : Nat), IndexMigration head.Migrations currentMigration = (index : Int) →
      getUnappliedSortedMigrationsForVersion repo false currentMigration
        = .ok { VersionDb := currentMigration.VersionDb,
                Migrations := head.Migrations.drop (index + 1) } := by
    intro index hidx
    unfold getUnappliedSortedMigrationsForVersion
    rw [hload]
    simp only [Bool.false_eq_true, if_false, hidx]
    have hne : ¬ ((index : Int) = -1) := by omega
    rw [if_neg hne]
    have hcollect := forLoop_collect head.Migrations (fun x => x) (index + 1)
      head.Migrations.length
    simp only [List.map_id_fun', id_eq] at hcollect
    simp only [Int.toNat_ofNat, NewMigrationGroup]
    rw [hcollect]
    congr 2
    apply List.take_of_length_le
    simp
  rcases IndexMigration_spec head.Migrations currentMigration with
    ⟨hidx, hnone⟩ | ⟨k, x, hk, hx, hidx⟩
  · refine ⟨⟨fun _ => hnone, fun _ => ?_⟩, ?_⟩
    · unfold getUnappliedSortedMigrationsForVersion
      rw [hload]
      simp [hidx]
    · rintro ⟨m, hm, he⟩
      rw [hnone m hm] at he
      cases he
  · have hmem : x ∈ head.Migrations := List.mem_iff_getElem?.mpr ⟨k, hk⟩
    refine ⟨⟨fun h => ?_, fun h => ?_⟩, fun _ => ⟨k, x, hidx, hk, hx, hres k hidx, ?_⟩⟩
    · rw [hres k hidx] at h
      cases h
    · rw [h x hmem] at hx
      cases hx
    · intro hcheck m hm
      obtain ⟨j, hj, hmj⟩ := getElem?_of_mem_drop _ _ _ hm
      constructor
      · by_contra hc
        have hc' : currentMigration.IsEqual m = true := by simpa using hc
        have hname : x.Name = m.Name := by
          rw [← Migration.IsEqual_name hx, Migration.IsEqual_name hc']
        have := name_position_unique head hcheck k j x m hk hmj hname
        omega
      · intro m' hm' hname
        obtain ⟨i, hi, hmi⟩ := getElem?_of_mem_take _ _ _ hm'
        have := name_position_unique head hcheck i j m' m hmi hmj hname
        omega

/-- Witness of C1 on the scenario *Normal update*: the head group `v0.0.3` is loaded and the
current record `0002.Clear` is in it, so the call does not fail. -/
theorem getUnappliedSortedMigrationsForVersion_normal_mode_witness :
    (exampleRepo.asRepo exampleTree).GetSortedMigrations exampleCurrent.VersionDb
        = .ok exampleHead ∧
    (getUnappliedSortedMigrationsForVersion (exampleRepo.asRepo exampleTree) false exampleCurrent
        = .error (.error ("the " ++ exampleCurrent.VersionDb.String ++ " "
            ++ exampleCurrent.Name ++ " migration is not in the migrations directory"))
      ↔ ∀ m ∈ exampleHead.Migrations, exampleCurrent.IsEqual m = false) :=
  ⟨by decide,
   (getUnappliedSortedMigrationsForVersion_normal_mode (exampleRepo.asRepo exampleTree)
      exampleCurrent exampleHead (by decide)).1⟩

/-! ## The unapplied groups of the later versions -/

theorem GetUnappliedSortedMigrations_loop_ok_iff (repo : MigrationRepoForMigrations)
    (currentMigration : Migration) :
    ∀ (versions : List VersionDb) (acc res : List MigrationGroup),
      GetUnappliedSortedMigrations.loop repo currentMigration versions acc = .ok res ↔
        ∃ groups : List MigrationGroup,
          List.Forall₂ (fun v g => repo.GetSortedMigrations v = .ok g)
            (versions.filter (fun v => v.GreaterThan currentMigration.VersionDb)) groups ∧
          res = acc ++ groups.filter (fun g => g.Migrations.length ≠ 0) := by
  intro versions
  induction versions with
  | nil =>
    intro acc res
    simp only [GetUnappliedSortedMigrations.loop, List.filter_nil, List.forall₂_nil_left_iff]
    constructor
    · intro h
      injection h with h
      exact ⟨[], rfl, by simp [h]⟩
    · rintro ⟨groups, rfl, h⟩
      simp [h]
  | cons ver versions ih =>
    intro acc res
    unfold GetUnappliedSortedMigrations.loop
    by_cases hgt : ver.GreaterThan currentMigration.VersionDb = true
    · rw [if_pos hgt, List.filter_cons_of_pos (by simpa using hgt)]
      cases hload : repo.GetSortedMigrations ver with
      | error f =>
        simp only
        constructor
        · intro h; cases h
        · rintro ⟨groups, hall, -⟩
          cases hall with
          | cons h _ => rw [hload] at h; cases h
      | ok mg =>
        simp only
        by_cases hne : mg.Migrations.length ≠ 0
        · rw [if_pos hne, ih]
          constructor
          · rintro ⟨groups, hall, rfl⟩
            refine ⟨mg :: groups, List.Forall₂.cons hload hall, ?_⟩
            rw [List.filter_cons_of_pos (by simpa using hne)]
            simp
          · rintro ⟨groups, hall, rfl⟩
            cases hall with
            | cons h hrest =>
              rw [hload] at h
              injection h with h
              subst h
              refine ⟨_, hrest, ?_⟩
              rw [List.filter_cons_of_pos (by simpa using hne)]
              simp
        · rw [if_neg hne, ih]
          constructor
          · rintro ⟨groups, hall, rfl⟩
            refine ⟨mg :: groups, List.Forall₂.cons hload hall, ?_⟩
            rw [List.filter_cons_of_neg (by simpa using hne)]
          · rintro ⟨groups, hall, rfl⟩
            cases hall with
            | cons h hrest =>
              rw [hload] at h
              injection h with h
              subst h
              refine ⟨_, hrest, ?_⟩
              rw [List.filter_cons_of_neg (by simpa using hne)]
    · rw [if_neg hgt, List.filter_cons_of_neg (by simpa using hgt)]
      exact ih acc res

theorem GetUnappliedSortedMigrations_loop_congr (repo repo' : MigrationRepoForMigrations)
    (currentMigration : Migration) :
    ∀ (versions : List VersionDb) (acc : List MigrationGroup),
      (∀ v ∈ versions, v.GreaterThan currentMigration.VersionDb = true →
        repo'.GetSortedMigrations v = repo.GetSortedMigrations v) →
      GetUnappliedSortedMigrations.loop repo' currentMigration versions acc
        = GetUnappliedSortedMigrations.loop repo currentMigration versions acc := by
  intro versions
  induction versions with
  | nil => intro acc _; rfl
  | cons ver versions ih =>
    intro acc hsame
    have hrest : ∀ v ∈ versions, v.GreaterThan currentMigration.VersionDb = true →
        repo'.GetSortedMigrations v = repo.GetSortedMigrations v :=
      fun v hv => hsame v (List.mem_cons_of_mem _ hv)
    unfold GetUnappliedSortedMigrations.loop
    by_cases hgt : ver.GreaterThan currentMigration.VersionDb = true
    · rw [if_pos hgt, if_pos hgt, hsame ver (List.mem_cons_self _ _) hgt]
      cases repo.GetSortedMigrations ver with
      | error f => rfl
      | ok mg => simp only [ih _ hrest]
    · rw [if_neg hgt, if_neg hgt]
      exact ih acc hrest

/-- The unapplied groups depend on the repository only through the sorted versions, the group of
the current version and the groups of the listed versions greater than the current one. -/
theorem GetUnappliedSortedMigrations_congr (repo repo' : MigrationRepoForMigrations)
    (isInitMod : Bool) (currentMigration : Migration)
    (hversions : repo'.GetSortedVersions = repo.GetSortedVersions)
    (hhead : repo'.GetSortedMigrations currentMigration.VersionDb
      = repo.GetSortedMigrations currentMigration.VersionDb)
    (hsame : ∀ versions : List VersionDb, repo.GetSortedVersions = .ok versions →
      ∀ v ∈ versions, v.GreaterThan currentMigration.VersionDb = true →
        repo'.GetSortedMigrations v = repo.GetSortedMigrations v) :
    GetUnappliedSortedMigrations repo' isInitMod currentMigration
      = GetUnappliedSortedMigrations repo isInitMod currentMigration := by
  have h1 : getUnappliedSortedMigrationsForVersion repo' isInitMod currentMigration
      = getUnappliedSortedMigrationsForVersion repo isInitMod currentMigration := by
    unfold getUnappliedSortedMigrationsForVersion
    rw [hhead]
  unfold GetUnappliedSortedMigrations
  rw [h1, hversions]
  cases getUnappliedSortedMigrationsForVersion repo isInitMod currentMigration with
  | error f => rfl
  | ok head =>
    cases hv : repo.GetSortedVersions with
    | error f => rfl
    | ok versions =>
      exact GetUnappliedSortedMigrations_loop_congr repo repo' currentMigration _ _
        (hsame versions hv)

theorem GetUnappliedSortedMigrations_ok_iff (repo : MigrationRepoForMigrations)
    (isInitMod : Bool) (currentMigration : Migration) (res : List MigrationGroup) :
    GetUnappliedSortedMigrations repo isInitMod currentMigration = .ok res ↔
      ∃ (head : MigrationGroup) (versions : List VersionDb) (groups : List MigrationGroup),
        getUnappliedSortedMigrationsForVersion repo isInitMod currentMigration = .ok head ∧
        repo.GetSortedVersions = .ok versions ∧
        List.Forall₂ (fun v g => repo.GetSortedMigrations v = .ok g)
          (versions.filter (fun v => v.GreaterThan currentMigration.VersionDb)) groups ∧
        res = (if head.Migrations.length ≠ 0 then [head] else [])
          ++ groups.filter (fun g => g.Migrations.length ≠ 0) := by
  unfold GetUnappliedSortedMigrations
  cases hh : getUnappliedSortedMigrationsForVersion repo isInitMod currentMigration with
  | error f =>
    simp only
    constructor
    · intro h; cases h
    · rintro ⟨_, _, _, h, -⟩; cases h
  | ok head =>
    cases hv : repo.GetSortedVersions with
    | error f =>
      simp only
      constructor
      · intro h; cases h
      · rintro ⟨_, _, _, -, h, -⟩; cases h
    | ok versions =>
      simp only
      rw [GetUnappliedSortedMigrations_loop_ok_iff]
      constructor
      · rintro ⟨groups, hall, rfl⟩
        exact ⟨head, versions, groups, rfl, rfl, hall, rfl⟩
      · rintro ⟨head', versions', groups, h1, h2, hall, rfl⟩
        injection h1 with h1
        injection h2 with h2
        subst h1 h2
        exact ⟨groups, hall, rfl⟩

/-- A group that the disk source returns has the version it was asked for, passes the structure
check, and holds the accepted entries of the listing of the version directory. -/
theorem MigrationDiskRepo.GetSortedMigrations_ok (fs : FileSystem) (r : MigrationDiskRepo)
    (version : VersionDb) (mg : MigrationGroup)
    (h : r.GetSortedMigrations fs version = .ok mg) :
    mg.VersionDb = version ∧ migrationsStructureCheck mg = .ok () ∧
    ∃ files, fs (r.PathToMigrations ++ "/" ++ version.String) = .ok files ∧
      mg.Migrations = GetSortedMigrations.loop version files [] := by
  unfold MigrationDiskRepo.GetSortedMigrations GetFilesInDir at h
  cases hfs : fs (r.PathToMigrations ++ "/" ++ version.String) with
  | error e => rw [hfs] at h; cases h
  | ok files =>
    rw [hfs] at h
    simp only at h
    cases hc : migrationsStructureCheck
        (NewMigrationGroup version (GetSortedMigrations.loop version files [])) with
    | error f => rw [hc] at h; cases h
    | ok u =>
      rw [hc] at h
      injection h with h
      subst h
      exact ⟨rfl, hc, files, rfl, rfl⟩

theorem getUnappliedSortedMigrationsForVersion_version (repo : MigrationRepoForMigrations)
    (hrepo : ∀ v g, repo.GetSortedMigrations v = .ok g → g.VersionDb = v)
    (isInitMod : Bool) (currentMigration : Migration) (head : MigrationGroup)
    (h : getUnappliedSortedMigrationsForVersion repo isInitMod currentMigration = .ok head) :
    head.VersionDb = currentMigration.VersionDb := by
  unfold getUnappliedSortedMigrationsForVersion at h
  cases hl : repo.GetSortedMigrations currentMigration.VersionDb with
  | error f => rw [hl] at h; cases h
  | ok sorted =>
    rw [hl] at h
    simp only at h
    split at h
    · split at h
      · cases h
      · injection h with h
        subst h
        exact hrepo _ _ hl
    · split at h
      · cases h
      · injection h with h
        subst h
        rfl

theorem forall₂_mem_right {α β : Type} {R : α → β → Prop} {l : List α} {l' : List β}
    (h : List.Forall₂ R l l') : ∀ b ∈ l', ∃ a ∈ l, R a b := by
  induction h with
  | nil => intro b hb; cases hb
  | cons hab _ ih =>
    intro b hb
    rcases List.mem_cons.mp hb with rfl | hb
    · exact ⟨_, List.mem_cons_self _ _, hab⟩
    · obtain ⟨a, ha, hr⟩ := ih b hb
      exact ⟨a, List.mem_cons_of_mem _ ha, hr⟩

/-- Every unapplied group holds a migration, and is the rest of the current version or the
group of a listed version greater than the current one. -/
theorem GetUnappliedSortedMigrations_groups (repo : MigrationRepoForMigrations)
    (hrepo : ∀ v g, repo.GetSortedMigrations v = .ok g → g.VersionDb = v)
    (isInitMod : Bool) (currentMigration : Migration) (res : List MigrationGroup)
    (h : GetUnappliedSortedMigrations repo isInitMod currentMigration = .ok res) :
    ∀ g ∈ res, g.Migrations ≠ [] ∧
      (g.VersionDb = currentMigration.VersionDb ∨
        g.VersionDb.GreaterThan currentMigration.VersionDb = true) := by
  obtain ⟨head, versions, groups, hhead, -, hall, rfl⟩ :=
    (GetUnappliedSortedMigrations_ok_iff repo isInitMod currentMigration res).mp h
  intro g hg
  rcases List.mem_append.mp hg with hg | hg
  · by_cases hne : head.Migrations.length ≠ 0
    · rw [if_pos hne] at hg
      simp at hg
      subst hg
      refine ⟨?_, Or.inl (getUnappliedSortedMigrationsForVersion_version repo hrepo _ _ _ hhead)⟩
      intro hnil
      rw [hnil] at hne
      exact hne rfl
    · rw [if_neg hne] at hg
      cases hg
  · have hg' := List.mem_filter.mp hg
    obtain ⟨v, hv, hload⟩ := forall₂_mem_right hall g hg'.1
    have hv' := List.mem_filter.mp hv
    refine ⟨?_, Or.inr ?_⟩
    · intro hnil
      have := hg'.2
      rw [hnil] at this
      simp at this
    · rw [hrepo v g hload]
      exact hv'.2

theorem VersionDb.not_LessThan_self (v : VersionDb) : v.LessThan v = false := by
  have h : v.version.Compare v.version = .eq := by
    unfold Version.Compare
    rw [compare_eq_iff_eq.mpr rfl, compare_eq_iff_eq.mpr rfl, compare_eq_iff_eq.mpr rfl]
    rfl
  unfold VersionDb.LessThan
  rw [h]
  rfl

theorem VersionDb.not_LessThan_of_GreaterThan {a b : VersionDb} (h : a.GreaterThan b = true) :
    a.LessThan b = false := by
  unfold VersionDb.GreaterThan at h
  unfold VersionDb.LessThan
  have hc : a.version.Compare b.version = .gt := by simpa using h
  rw [hc]
  rfl

/-- C2: for every tree, mode and current record, `GetUnappliedSortedMigrations` of the disk
source succeeds with `res` exactly when the head group, the sorted versions and the groups of
all listed versions strictly greater than the current one load, and then `res` is the head
group (if it holds a migration) followed by exactly the non-empty groups of those versions, in
the order of `GetSortedVersions`. Groups of other versions are never loaded: a tree that gives
the same sorted versions, the same group of the current version and the same groups of the
listed greater versions gives the same outcome (the same groups or the same error), whatever
its past version directories hold; and no group of the result has a version less than the
current one. -/
theorem GetUnappliedSortedMigrations_later_versions (fs : FileSystem) (r : MigrationDiskRepo)
    (isInitMod : Bool) (currentMigration : Migration) :
    (∀ res : List MigrationGroup,
      GetUnappliedSortedMigrations (r.asRepo fs) isInitMod currentMigration = .ok res ↔
        ∃ (head : MigrationGroup) (versions : List VersionDb) (groups : List MigrationGroup),
          getUnappliedSortedMigrationsForVersion (r.asRepo fs) isInitMod currentMigration
            = .ok head ∧
          r.GetSortedVersions fs = .ok versions ∧
          List.Forall₂ (fun v g => r.GetSortedMigrations fs v = .ok g)
            (versions.filter (fun v => v.GreaterThan currentMigration.VersionDb)) groups ∧
          res = (if head.Migrations.length ≠ 0 then [head] else [])
            ++ groups.filter (fun g => g.Migrations.length ≠ 0)) ∧
    (∀ fs' : FileSystem,
      r.GetSortedVersions fs' = r.GetSortedVersions fs →
      r.GetSortedMigrations fs' currentMigration.VersionDb
        = r.GetSortedMigrations fs currentMigration.VersionDb →
      (∀ versions : List VersionDb, r.GetSortedVersions fs = .ok versions →
        ∀ v ∈ versions, v.GreaterThan currentMigration.VersionDb = true →
          r.GetSortedMigrations fs' v = r.GetSortedMigrations fs v) →
      GetUnappliedSortedMigrations (r.asRepo fs') isInitMod currentMigration
        = GetUnappliedSortedMigrations (r.asRepo fs) isInitMod currentMigration) ∧
    (∀ res : List MigrationGroup,
      GetUnappliedSortedMigrations (r.asRepo fs) isInitMod currentMigration = .ok res →
      ∀ g ∈ res, g.VersionDb.LessThan currentMigration.VersionDb = false) := by
  refine ⟨fun res => GetUnappliedSortedMigrations_ok_iff _ _ _ res, ?_, ?_⟩
  · intro fs' hv hhead hsame
    exact GetUnappliedSortedMigrations_congr (r.asRepo fs) (r.asRepo fs') isInitMod
      currentMigration hv hhead hsame
  · intro res h g hg
    have hrepo : ∀ v g, (r.asRepo fs).GetSortedMigrations v = .ok g → g.VersionDb = v :=
      fun v g hl => (MigrationDiskRepo.GetSortedMigrations_ok fs r v g hl).1
    rcases (GetUnappliedSortedMigrations_groups _ hrepo _ _ _ h g hg).2 with heq | hgt
    · rw [heq]
      exact VersionDb.not_LessThan_self _
    · exact VersionDb.not_LessThan_of_GreaterThan hgt

/-- Witness of C2 on the tree of the test `IncorrectOrderInPreviousVersions`: the past
version `v0.0.4` has an ordinal gap (its own group fails to load), the current record is
`(v0.0.5, 0003.Clear)`, and the call gives the same result as on the tree without the gap:
the two remaining migrations of `v0.0.5` and nothing of `v0.0.4`. -/
theorem GetUnappliedSortedMigrations_later_versions_witness :
    exampleRepo.GetSortedMigrations pastGapTree v004
      = .error (.error "wrong order of migrations, error on v0.0.4 0010.kkk") ∧
    GetUnappliedSortedMigrations (exampleRepo.asRepo pastDenseTree) false pastGapCurrent
      = .ok pastGapUnapplied ∧
    GetUnappliedSortedMigrations (exampleRepo.asRepo pastGapTree) false pastGapCurrent
      = GetUnappliedSortedMigrations (exampleRepo.asRepo pastDenseTree) false pastGapCurrent :=
  ⟨by decide, by decide,
   (GetUnappliedSortedMigrations_later_versions pastDenseTree exampleRepo false
      pastGapCurrent).2.1 pastGapTree (by decide) (by decide)
      (fun versions hversions => by
        have hsorted : exampleRepo.GetSortedVersions pastDenseTree = .ok [v004, v005] := by
          decide
        rw [hsorted] at hversions
        injection hversions with hversions
        subst hversions
        decide)⟩

/-! ## The plan up to the target -/

theorem Version.Compare_eq_iff (v o : Version) :
    v.Compare o = .eq ↔ v.major = o.major ∧ v.minor = o.minor ∧ v.patch = o.patch := by
  unfold Version.Compare
  rcases Nat.lt_trichotomy v.major o.major with h1 | h1 | h1
  · rw [compare_lt_iff_lt.mpr h1]
    simp [Ordering.then]
    omega
  · rw [compare_eq_iff_eq.mpr h1]
    rcases Nat.lt_trichotomy v.minor o.minor with h2 | h2 | h2
    · rw [compare_lt_iff_lt.mpr h2]
      simp [Ordering.then]
      omega
    · rw [compare_eq_iff_eq.mpr h2]
      simp only [Ordering.then]
      rw [compare_eq_iff_eq]
      exact ⟨fun h => ⟨h1, h2, h⟩, fun h => h.2.2⟩
    · rw [compare_gt_iff_gt.mpr h2]
      simp [Ordering.then]
      omega
  · rw [compare_gt_iff_gt.mpr h1]
    simp [Ordering.then]
    omega

theorem VersionDb.Equal_iff (a b : VersionDb) :
    a.Equal b = true ↔ a.version.major = b.version.major ∧ a.version.minor = b.version.minor ∧
      a.version.patch = b.version.patch := by
  unfold VersionDb.Equal
  rw [decide_eq_true_iff, Version.Compare_eq_iff]

theorem VersionDb.Equal_refl (a : VersionDb) : a.Equal a = true := by
  rw [VersionDb.Equal_iff]
  exact ⟨rfl, rfl, rfl⟩

theorem VersionDb.Equal_symm {a b : VersionDb} (h : a.Equal b = true) : b.Equal a = true := by
  rw [VersionDb.Equal_iff] at *
  exact ⟨h.1.symm, h.2.1.symm, h.2.2.symm⟩

theorem VersionDb.Equal_trans {a b c : VersionDb} (h1 : a.Equal b = true)
    (h2 : b.Equal c = true) : a.Equal c = true := by
  rw [VersionDb.Equal_iff] at *
  exact ⟨h1.1.trans h2.1, h1.2.1.trans h2.2.1, h1.2.2.trans h2.2.2⟩

/-- What the search over the groups returns: the accumulator when no group has a version equal
to the one of the migration, otherwise the position of the last such group and the index that
`IndexMigration` finds in it. -/
theorem IndicesMigrationInMigrationGroups_loop_spec (migration : Migration) :
    ∀ (gs : List MigrationGroup) (i : Nat) (acc : Int × Int),
      ((∀ grp ∈ gs, grp.VersionDb.Equal migration.VersionDb = false) ∧
        IndicesMigrationInMigrationGroups.loop migration gs i acc = acc) ∨
      (∃ (j : Nat) (grp : MigrationGroup), gs[j]? = some grp ∧
        grp.VersionDb.Equal migration.VersionDb = true ∧
        (∀ (k : Nat) (grp' : MigrationGroup), j < k → gs[k]? = some grp' →
          grp'.VersionDb.Equal migration.VersionDb = false) ∧
        IndicesMigrationInMigrationGroups.loop migration gs i acc
          = (((i + j : Nat) : Int), IndexMigration grp.Migrations migration)) := by
  intro gs
  induction gs with
  | nil => intro i acc; left; simp [IndicesMigrationInMigrationGroups.loop]
  | cons mg rest ih =>
    intro i acc
    unfold IndicesMigrationInMigrationGroups.loop
    by_cases heq : mg.VersionDb.Equal migration.VersionDb = true
    · rw [if_pos heq]
      rcases ih (i + 1) ((i : Int), IndexMigration mg.Migrations migration) with
        ⟨hnone, hres⟩ | ⟨j, grp, hj, hgrp, hlater, hres⟩
      · right
        refine ⟨0, mg, by simp, heq, ?_, by simpa using hres⟩
        intro k grp' hk hget
        cases k with
        | zero => omega
        | succ k =>
          simp at hget
          exact hnone grp' (List.mem_iff_getElem?.mpr ⟨k, hget⟩)
      · right
        refine ⟨j + 1, grp, by simpa using hj, hgrp, ?_, ?_⟩
        · intro k grp' hk hget
          cases k with
          | zero => omega
          | succ k =>
            simp at hget
            exact hlater k grp' (by omega) hget
        · rw [hres]
          congr 2
          omega
    · rw [if_neg heq]
      have hf : mg.VersionDb.Equal migration.VersionDb = false := by simpa using heq
      rcases ih (i + 1) acc with ⟨hnone, hres⟩ | ⟨j, grp, hj, hgrp, hlater, hres⟩
      · left
        refine ⟨?_, hres⟩
        intro grp hmem
        rcases List.mem_cons.mp hmem with rfl | hmem
        · exact hf
        · exact hnone grp hmem
      · right
        refine ⟨j + 1, grp, by simpa using hj, hgrp, ?_, ?_⟩
        · intro k grp' hk hget
          cases k with
          | zero => omega
          | succ k =>
            simp at hget
            exact hlater k grp' (by omega) hget
        · rw [hres]
          congr 2
          omega

theorem IndicesMigrationInMigrationGroups_spec (gs : List MigrationGroup)
    (migration : Migration) :
    ((∀ grp ∈ gs, grp.VersionDb.Equal migration.VersionDb = false) ∧
      IndicesMigrationInMigrationGroups gs migration = (-1, -1)) ∨
    (∃ (j : Nat) (grp : MigrationGroup), gs[j]? = some grp ∧
      grp.VersionDb.Equal migration.VersionDb = true ∧
      (∀ (k : Nat) (grp' : MigrationGroup), j < k → gs[k]? = some grp' →
        grp'.VersionDb.Equal migration.VersionDb = false) ∧
      IndicesMigrationInMigrationGroups gs migration
        = ((j : Int), IndexMigration grp.Migrations migration)) := by
  unfold IndicesMigrationInMigrationGroups
  rcases IndicesMigrationInMigrationGroups_loop_spec migration gs 0 (-1, -1) with
    h | ⟨j, grp, hj, hgrp, hlater, hres⟩
  · exact Or.inl h
  · exact Or.inr ⟨j, grp, hj, hgrp, hlater, by simpa using hres⟩

/-- Copying a group whose version was built by `NewVersionDb` gives the group back. -/
theorem MigrationGroup.Copy_of_built (m : MigrationGroup)
    (h : NewVersionDb m.VersionDb.String = .ok m.VersionDb) : m.Copy = m := by
  unfold MigrationGroup.Copy
  rw [h]

/-- A version that `NewVersionDb` returns is parsed again to itself from its text. -/
theorem NewVersionDb_built (str : String) (v : VersionDb) (h : NewVersionDb str = .ok v) :
    NewVersionDb v.String = .ok v := by
  have hs : v.String = str := by
    unfold NewVersionDb at h
    split at h
    · cases h
    · cases h
    · split at h
      · cases h
      · rename_i version hv
        injection h with h
        subst h
        unfold NewVersion at hv
        simp only at hv
        split at hv
        · split at hv
          · injection hv with hv
            subst hv
            rfl
          · cases hv
        · cases hv
  rw [hs]
  exact h

theorem getElem?_map_Name {ms : List Migration} {k : Nat} {x : Migration}
    (h : ms[k]? = some x) : (ms.map (fun a => a.Name))[k]? = some x.Name := by
  rw [List.getElem?_map, h]
  rfl

/-- A target that sits at migration `m` of group `g`, in a list of groups with pairwise
distinct versions where group `g` has the version of the target and no repeated name, is
located there by `IndicesMigrationInMigrationGroups`. -/
theorem IndicesMigrationInMigrationGroups_of_position (groups : List MigrationGroup)
    (target : Migration) (g m : Nat) (grp : MigrationGroup) (x : Migration)
    (hdistinct : groups.Pairwise (fun a b => a.VersionDb.Equal b.VersionDb = false))
    (hg : groups[g]? = some grp) (hm : grp.Migrations[m]? = some x)
    (hversion : grp.VersionDb.Equal target.VersionDb = true)
    (hx : target.IsEqual x = true)
    (hnames : (grp.Migrations.map (fun a => a.Name)).Nodup) :
    IndicesMigrationInMigrationGroups groups target = ((g : Int), (m : Int)) := by
  have hglt : g < groups.length := (List.getElem?_eq_some_iff.mp hg).1
  rcases IndicesMigrationInMigrationGroups_spec groups target with
    ⟨hnone, -⟩ | ⟨j, grp', hj, hgrp', hlater, hres⟩
  · rw [hnone grp (List.mem_iff_getElem?.mpr ⟨g, hg⟩)] at hversion
    cases hversion
  have hjlt : j < groups.length := (List.getElem?_eq_some_iff.mp hj).1
  have hjg : j = g := by
    rcases Nat.lt_trichotomy j g with hlt | heq | hgt
    · rw [hlater g grp hlt hg] at hversion
      cases hversion
    · exact heq
    · have hrel := List.pairwise_iff_getElem.mp hdistinct g j hglt hjlt hgt
      have e1 : groups[g] = grp := (List.getElem?_eq_some_iff.mp hg).2
      have e2 : groups[j] = grp' := (List.getElem?_eq_some_iff.mp hj).2
      rw [e1, e2, VersionDb.Equal_trans hversion (VersionDb.Equal_symm hgrp')] at hrel
      cases hrel
  subst hjg
  rw [hj] at hg
  injection hg with hg
  subst hg
  rw [hres]
  rcases IndexMigration_spec grp'.Migrations target with ⟨-, hnone⟩ | ⟨k, y, hk, hy, hidx⟩
  · rw [hnone x (List.mem_iff_getElem?.mpr ⟨m, hm⟩)] at hx
    cases hx
  have hname : y.Name = x.Name := by
    rw [← Migration.IsEqual_name hy, Migration.IsEqual_name hx]
  have hklt : k < (grp'.Migrations.map (fun a => a.Name)).length := by
    rw [List.length_map]
    exact (List.getElem?_eq_some_iff.mp hk).1
  have hkm : k = m := by
    apply List.getElem?_inj hklt hnames
    rw [getElem?_map_Name hk, getElem?_map_Name hm, hname]
  rw [hidx, hkm]

/-- C3: for every list of groups with pairwise distinct versions (each version built by
`NewVersionDb`) and every target that `IndicesMigrationInMigrationGroups` locates at group
index `g` and migration index `m`: the target sits there (group `g` has its version and
migration `m` of group `g` is equal to it, and no other group has that version), and
`getMigrationGroupsAndMigrationsBeforeMigration` returns exactly `g + 1` groups, namely the
groups `0..g-1` unchanged followed by one group with the version of group `g` holding exactly
its migrations `0..m`; so the last migration of the last group of the plan is the target.
When the names of group `g` are not repeated, `m` is the only position of the target in it. -/
theorem getMigrationGroupsAndMigrationsBeforeMigration_plan
    (groups : List MigrationGroup) (target : Migration) (g m : Nat)
    (hbuilt : ∀ a ∈ groups, NewVersionDb a.VersionDb.String = .ok a.VersionDb)
    (hdistinct : groups.Pairwise (fun a b => a.VersionDb.Equal b.VersionDb = false))
    (hloc : IndicesMigrationInMigrationGroups groups target = ((g : Int), (m : Int))) :
    ∃ (grp : MigrationGroup) (x : Migration) (plan : List MigrationGroup),
      groups[g]? = some grp ∧ grp.Migrations[m]? = some x ∧
      grp.VersionDb.Equal target.VersionDb = true ∧ target.IsEqual x = true ∧
      (∀ (j : Nat) (grp' : MigrationGroup), groups[j]? = some grp' →
        grp'.VersionDb.Equal target.VersionDb = true → j = g) ∧
      ((grp.Migrations.map (fun a => a.Name)).Nodup →
        ∀ (k : Nat) (y : Migration), grp.Migrations[k]? = some y →
          target.IsEqual y = true → k = m) ∧
      getMigrationGroupsAndMigrationsBeforeMigration groups target = .ok plan ∧
      plan = groups.take g
        ++ [{ VersionDb := grp.VersionDb, Migrations := grp.Migrations.take (m + 1) }] ∧
      plan.length = g + 1 ∧
      ∃ last : MigrationGroup, plan.getLast? = some last ∧ last.Migrations.getLast? = some x := by
  rcases IndicesMigrationInMigrationGroups_spec groups target with
    ⟨-, hres⟩ | ⟨j, grp, hj, hgrp, hlater, hres⟩
  · rw [hres] at hloc
    injection hloc with h1 _
    omega
  rw [hres] at hloc
  injection hloc with h1 h2
  have hjg : j = g := by omega
  subst hjg
  rcases IndexMigration_spec grp.Migrations target with ⟨h3, -⟩ | ⟨k, x, hk, hx, h3⟩
  · rw [h3] at h2
    omega
  have hkm : k = m := by
    rw [h3] at h2
    omega
  subst hkm
  have hjlt : j < groups.length := (List.getElem?_eq_some_iff.mp hj).1
  have hklt : k < grp.Migrations.length := (List.getElem?_eq_some_iff.mp hk).1
  have hplan : getMigrationGroupsAndMigrationsBeforeMigration groups target
      = .ok (groups.take j
        ++ [{ VersionDb := grp.VersionDb, Migrations := grp.Migrations.take (k + 1) }]) := by
    unfold getMigrationGroupsAndMigrationsBeforeMigration
    rw [hres, h3]
    have hne : ¬ (((j : Int), (k : Int)).1 = -1 ∨ ((j : Int), (k : Int)).2 = -1) := by
      simp only
      omega
    rw [if_neg hne]
    simp only [Int.toNat_ofNat, hj]
    have hcopy : forLoop 0 j (appendElem groups MigrationGroup.Copy) [] = groups.take j := by
      rw [forLoop_collect]
      simp only [List.drop_zero, Nat.sub_zero]
      have hid : ∀ a ∈ groups.take j, a.Copy = id a := fun a ha =>
        MigrationGroup.Copy_of_built a (hbuilt a (List.mem_of_mem_take ha))
      rw [List.map_congr_left hid, List.map_id]
    have hgrp_mem : grp ∈ groups := List.mem_iff_getElem?.mpr ⟨j, hj⟩
    rw [hcopy]
    by_cases hlast : (k : Int) = (grp.Migrations.length : Int) - 1
    · rw [if_pos hlast, MigrationGroup.Copy_of_built grp (hbuilt grp hgrp_mem)]
      have hall : grp.Migrations.take (k + 1) = grp.Migrations :=
        List.take_of_length_le (by omega)
      rw [hall]
    · rw [if_neg hlast]
      have hcollect := forLoop_collect grp.Migrations (fun a => a) 0 (k + 1)
      simp only [List.map_id_fun', id_eq, List.drop_zero, Nat.sub_zero] at hcollect
      rw [hcollect]
      rfl
  refine ⟨grp, x, _, hj, hk, hgrp, hx, ?_, ?_, hplan, rfl, ?_, ?_⟩
  · intro j' grp' hj' hgrp'
    rcases Nat.lt_trichotomy j' j with hlt | heq | hgt
    · have hj'lt : j' < groups.length := (List.getElem?_eq_some_iff.mp hj').1
      have hrel := List.pairwise_iff_getElem.mp hdistinct j' j hj'lt hjlt hlt
      have e1 : groups[j'] = grp' := (List.getElem?_eq_some_iff.mp hj').2
      have e2 : groups[j] = grp := (List.getElem?_eq_some_iff.mp hj).2
      rw [e1, e2] at hrel
      rw [VersionDb.Equal_trans hgrp' (VersionDb.Equal_symm hgrp)] at hrel
      cases hrel
    · exact heq
    · rw [hlater j' grp' hgt hj'] at hgrp'
      cases hgrp'
  · intro hnodup k' y hk' hy
    have hname : y.Name = x.Name := by
      rw [← Migration.IsEqual_name hy, Migration.IsEqual_name hx]
    have hk'lt : k' < (grp.Migrations.map (fun a => a.Name)).length := by
      rw [List.length_map]
      exact (List.getElem?_eq_some_iff.mp hk').1
    apply List.getElem?_inj hk'lt hnodup
    rw [getElem?_map_Name hk', getElem?_map_Name hk, hname]
  · rw [List.length_append, List.length_take, List.length_singleton]
    omega
  · refine ⟨_, List.getLast?_concat _, ?_⟩
    simp only
    rw [List.getLast?_take]
    simp only [Nat.add_one_ne_zero, if_false, Nat.add_sub_cancel, hk]
    rfl

/-- Witness of C3 on the scenario *Migration-within-version*: the target `(v0.0.4, 0002.jjj)`
is located at group 1, migration 1 of the unapplied groups, and the plan has two groups. -/
theorem getMigrationGroupsAndMigrationsBeforeMigration_plan_witness :
    (∀ a ∈ exampleUnapplied, NewVersionDb a.VersionDb.String = .ok a.VersionDb) ∧
    exampleUnapplied.Pairwise (fun a b => a.VersionDb.Equal b.VersionDb = false) ∧
    IndicesMigrationInMigrationGroups exampleUnapplied exampleTarget = (((1 : Nat) : Int), ((1 : Nat) : Int)) ∧
    ∃ plan : List MigrationGroup,
      getMigrationGroupsAndMigrationsBeforeMigration exampleUnapplied exampleTarget = .ok plan ∧
      plan.length = 1 + 1 :=
  ⟨by decide, by decide, by decide,
   match getMigrationGroupsAndMigrationsBeforeMigration_plan exampleUnapplied exampleTarget 1 1
      (by decide) (by decide) (by decide) with
   | ⟨_, _, plan, _, _, _, _, _, _, hplan, _, hlen, _⟩ => ⟨plan, hplan, hlen⟩⟩

/-! ## Loading a version directory -/

/-- The loop of `GetSortedMigrations` appends, in listing order, the names without extension of
exactly the entries that pass both tests. -/
theorem GetSortedMigrations_loop_eq (version : VersionDb) :
    ∀ (files : List String) (migrations : List Migration),
      GetSortedMigrations.loop version files migrations
        = migrations ++
          (files.filter GetSortedMigrations.keeps).map
            (fun name => { VersionDb := version, Name := trimExtension name ".sql" }) := by
  intro files
  induction files with
  | nil => intro migrations; simp [GetSortedMigrations.loop]
  | cons name files ih =>
    intro migrations
    unfold GetSortedMigrations.loop
    by_cases hext : Ext name = ".sql"
    · have hne : ¬ (Ext name ≠ ".sql") := fun h => h hext
      rw [if_neg hne, hext]
      unfold NewMigration
      by_cases hname : isCorrectMigrationName (trimExtension name ".sql") = true
      · rw [hname]
        simp only [Bool.not_true, Bool.false_eq_true, if_false]
        rw [ih, List.filter_cons_of_pos (by simp [GetSortedMigrations.keeps, hext, hname])]
        simp
      · have hf : isCorrectMigrationName (trimExtension name ".sql") = false := by
          simpa using hname
        rw [hf]
        simp only [Bool.not_false, if_true]
        rw [ih, List.filter_cons_of_neg (by simp [GetSortedMigrations.keeps, hf])]
    · rw [if_pos hext, ih, List.filter_cons_of_neg (by simp [GetSortedMigrations.keeps, hext])]

theorem GetSortedMigrations_loop_accepted (version : VersionDb) (files : List String) :
    ∀ m ∈ GetSortedMigrations.loop version files [],
      isCorrectMigrationName m.Name = true ∧ m.VersionDb = version := by
  intro m hm
  rw [GetSortedMigrations_loop_eq] at hm
  simp only [List.nil_append, List.mem_map, List.mem_filter] at hm
  obtain ⟨name, ⟨-, hacc⟩, rfl⟩ := hm
  simp only [GetSortedMigrations.keeps, Bool.and_eq_true, decide_eq_true_eq] at hacc
  exact ⟨hacc.2, rfl⟩

/-- A correct migration name has an ordinal: `getNumberInNameMigration` does not fail on it. -/
theorem getNumberInNameMigration_of_correct (name : String)
    (h : isCorrectMigrationName name = true) : ∃ n : Int, getNumberInNameMigration name = .ok n := by
  unfold isCorrectMigrationName at h
  unfold getNumberInNameMigration
  split at h
  · rename_i numberInName nameInName hsplit
    rw [hsplit]
    simp only [List.head?_cons]
    split at h
    · cases h
    · split at h
      · cases h
      · rename_i n hn
        exact ⟨n, rfl⟩
  · cases h

/-- The structure check stops at the first position whose ordinal is not the position plus
one, with the error that names the migration there. -/
theorem migrationsStructureCheck_loop_first_offender :
    ∀ (ms : List Migration) (i : Nat) (k : Nat) (m : Migration) (n : Int),
      ms[k]? = some m →
      (∀ (j : Nat) (m' : Migration), j < k → ms[j]? = some m' →
        getNumberInNameMigration m'.Name = .ok (((i + j : Nat) : Int) + 1)) →
      getNumberInNameMigration m.Name = .ok n → n ≠ ((i + k : Nat) : Int) + 1 →
      migrationsStructureCheck.loop ms i
        = .error (.error ("wrong order of migrations, error on "
            ++ m.VersionDb.String ++ " " ++ m.Name)) := by
  intro ms
  induction ms with
  | nil => intro i k m n hk; simp at hk
  | cons a rest ih =>
    intro i k m n hk hbefore hn hne
    unfold migrationsStructureCheck.loop
    cases k with
    | zero =>
      simp at hk
      subst hk
      rw [hn]
      simp only
      rw [if_pos (by simpa using hne)]
    | succ k =>
      simp at hk
      have h0 := hbefore 0 a (by omega) (by simp)
      rw [h0]
      simp only [Nat.add_zero, ne_eq, not_true_eq_false, if_false]
      apply ih (i + 1) k m n hk _ hn
      · intro heq; apply hne; rw [heq]; congr 2; omega
      · intro j m' hj hget
        have := hbefore (j + 1) m' (by omega) (by simpa using hget)
        rw [this]
        congr 2
        omega

/-- C5: for every listing of a version directory, with `ms` the sequence of its accepted
migrations: every accepted migration has an ordinal (the integer value of the part of its
name before the dot); `GetSortedMigrations` fails if and only if some migration at 0-based
position `i` has an ordinal different from `i + 1`; the error is
`wrong order of migrations, error on <v> <name>` for the migration at the first such position;
and every group it returns is the group of `ms` with `ordinal(migrations[i]) = i + 1` for
all `i`. -/
theorem GetSortedMigrations_ordinals (fs : FileSystem) (r : MigrationDiskRepo)
    (version : VersionDb) (files : List String)
    (hfiles : fs (r.PathToMigrations ++ "/" ++ version.String) = .ok files) :
    (∀ m ∈ GetSortedMigrations.loop version files [],
      ∃ n : Int, getNumberInNameMigration m.Name = .ok n) ∧
    ((∃ f, r.GetSortedMigrations fs version = .error f) ↔
      ∃ (i : Nat) (m : Migration),
        (GetSortedMigrations.loop version files [])[i]? = some m ∧
        getNumberInNameMigration m.Name ≠ .ok ((i : Int) + 1)) ∧
    (∀ (i : Nat) (m : Migration),
      (GetSortedMigrations.loop version files [])[i]? = some m →
      getNumberInNameMigration m.Name ≠ .ok ((i : Int) + 1) →
      (∀ (j : Nat) (m' : Migration), j < i →
        (GetSortedMigrations.loop version files [])[j]? = some m' →
        getNumberInNameMigration m'.Name = .ok ((j : Int) + 1)) →
      r.GetSortedMigrations fs version
        = .error (.error ("wrong order of migrations, error on "
            ++ version.String ++ " " ++ m.Name))) ∧
    (∀ g : MigrationGroup, r.GetSortedMigrations fs version = .ok g →
      g.VersionDb = version ∧ g.Migrations = GetSortedMigrations.loop version files [] ∧
      ∀ (i : Nat) (m : Migration), g.Migrations[i]? = some m →
        getNumberInNameMigration m.Name = .ok ((i : Int) + 1)) := by
  have hacc := GetSortedMigrations_loop_accepted version files
  have hord : ∀ m ∈ GetSortedMigrations.loop version files [],
      ∃ n : Int, getNumberInNameMigration m.Name = .ok n :=
    fun m hm => getNumberInNameMigration_of_correct m.Name (hacc m hm).1
  have hres : r.GetSortedMigrations fs version
      = match migrationsStructureCheck
          (NewMigrationGroup version (GetSortedMigrations.loop version files [])) with
        | .error f => .error f
        | .ok _ => .ok (NewMigrationGroup version (GetSortedMigrations.loop version files [])) := by
    unfold MigrationDiskRepo.GetSortedMigrations GetFilesInDir
    rw [hfiles]
  have hok := migrationsStructureCheck_ok_iff
    (NewMigrationGroup version (GetSortedMigrations.loop version files []))
  simp only [NewMigrationGroup] at hok hres
  refine ⟨hord, ⟨?_, ?_⟩, ?_, ?_⟩
  · rintro ⟨f, hf⟩
    by_contra hnot
    have hall : ∀ (k : Nat) (m : Migration),
        (GetSortedMigrations.loop version files [])[k]? = some m →
        getNumberInNameMigration m.Name = .ok ((k : Int) + 1) := by
      intro k m hk
      by_contra hne
      exact hnot ⟨k, m, hk, hne⟩
    rw [hres, hok.mpr hall] at hf
    cases hf
  · rintro ⟨i, m, hi, hne⟩
    cases hc : migrationsStructureCheck
        { VersionDb := version, Migrations := GetSortedMigrations.loop version files [] } with
    | error f => exact ⟨f, by rw [hres, hc]⟩
    | ok u => exact absurd (hok.mp hc i m hi) hne
  · intro i m hi hne hbefore
    obtain ⟨n, hn⟩ := hord m (List.mem_iff_getElem?.mpr ⟨i, hi⟩)
    have hver : m.VersionDb = version := (hacc m (List.mem_iff_getElem?.mpr ⟨i, hi⟩)).2
    have hloop := migrationsStructureCheck_loop_first_offender
      (GetSortedMigrations.loop version files []) 0 i m n hi
      (by intro j m' hj hget; simpa using hbefore j m' hj hget) hn
      (by intro heq; apply hne; rw [hn, heq]; simp)
    rw [hres]
    unfold migrationsStructureCheck
    simp only
    rw [hloop, hver]
  · intro g hg
    obtain ⟨hv, hcheck, files', hfiles', hms⟩ :=
      MigrationDiskRepo.GetSortedMigrations_ok fs r version g hg
    rw [hfiles] at hfiles'
    injection hfiles' with hfiles'
    subst hfiles'
    exact ⟨hv, hms, (migrationsStructureCheck_ok_iff g).mp hcheck⟩

/-- Witness of C5 on the scenario *Ordinal gap*: `v0.0.4` holds `0002.hhh`, `0003.jjj` and
`0004.kkk`, and loading it fails on the first of them. -/
theorem GetSortedMigrations_ordinals_witness :
    gapTree (exampleRepo.PathToMigrations ++ "/" ++ v004.String)
      = .ok ["0002.hhh.sql", "0003.jjj.sql", "0004.kkk.sql"] ∧
    exampleRepo.GetSortedMigrations gapTree v004
      = .error (.error ("wrong order of migrations, error on "
          ++ v004.String ++ " " ++ "0002.hhh")) :=
  ⟨by decide,
   (GetSortedMigrations_ordinals gapTree exampleRepo v004
      ["0002.hhh.sql", "0003.jjj.sql", "0004.kkk.sql"] (by decide)).2.2.1
      0 { VersionDb := v004, Name := "0002.hhh" } (by decide) (by decide)
      (fun j _ hj => absurd hj (Nat.not_lt_zero j))⟩

/-! ## Files that are passed over -/

/-- C7: for every listing of a version directory, `GetSortedMigrations` keeps exactly the
entries whose extension is exactly `.sql` and whose name without it is a correct migration
name (as those names, in listing order) and passes over every other entry without an error:
its outcome is the structure check of the kept migrations. So a listing with the same kept
entries (files that fail a test removed or added) gives the same group or the same error, and
a tree that differs from another only in that way inside version directories gives the same
plan. -/
theorem GetSortedMigrations_silent_skip (fs : FileSystem) (r : MigrationDiskRepo)
    (version : VersionDb) (files : List String)
    (hfiles : fs (r.PathToMigrations ++ "/" ++ version.String) = .ok files) :
    (GetSortedMigrations.loop version files []
      = (files.filter GetSortedMigrations.keeps).map
          (fun name => { VersionDb := version, Name := trimExtension name ".sql" })) ∧
    (r.GetSortedMigrations fs version
      = match migrationsStructureCheck
          { VersionDb := version, Migrations := GetSortedMigrations.loop version files [] } with
        | .error f => .error f
        | .ok _ => .ok { VersionDb := version,
                         Migrations := GetSortedMigrations.loop version files [] }) ∧
    (∀ (fs' : FileSystem) (files' : List String),
      fs' (r.PathToMigrations ++ "/" ++ version.String) = .ok files' →
      files'.filter GetSortedMigrations.keeps = files.filter GetSortedMigrations.keeps →
      r.GetSortedMigrations fs' version = r.GetSortedMigrations fs version) ∧
    (∀ (fs' : FileSystem),
      fs' r.PathToMigrations = fs r.PathToMigrations →
      (∀ v : VersionDb,
        fs' (r.PathToMigrations ++ "/" ++ v.String) = fs (r.PathToMigrations ++ "/" ++ v.String) ∨
        ∃ (l l' : List String),
          fs (r.PathToMigrations ++ "/" ++ v.String) = .ok l ∧
          fs' (r.PathToMigrations ++ "/" ++ v.String) = .ok l' ∧
          l'.filter GetSortedMigrations.keeps = l.filter GetSortedMigrations.keeps) →
      ∀ (isInitModeON : Bool) (currentMigration : Migration)
        (StringVersionDb StringNameMigration : String),
        Run.migrationsToMigrate (r.asRepo fs') isInitModeON currentMigration
            StringVersionDb StringNameMigration
          = Run.migrationsToMigrate (r.asRepo fs) isInitModeON currentMigration
            StringVersionDb StringNameMigration) := by
  have hres : ∀ (fs₀ : FileSystem) (v : VersionDb) (l : List String),
      fs₀ (r.PathToMigrations ++ "/" ++ v.String) = .ok l →
      r.GetSortedMigrations fs₀ v
        = match migrationsStructureCheck
            { VersionDb := v, Migrations := GetSortedMigrations.loop v l [] } with
          | .error f => .error f
          | .ok _ => .ok { VersionDb := v, Migrations := GetSortedMigrations.loop v l [] } := by
    intro fs₀ v l hl
    unfold MigrationDiskRepo.GetSortedMigrations GetFilesInDir
    rw [hl]
    rfl
  have hsame : ∀ (fs₁ fs₂ : FileSystem) (v : VersionDb) (l₁ l₂ : List String),
      fs₁ (r.PathToMigrations ++ "/" ++ v.String) = .ok l₁ →
      fs₂ (r.PathToMigrations ++ "/" ++ v.String) = .ok l₂ →
      l₂.filter GetSortedMigrations.keeps = l₁.filter GetSortedMigrations.keeps →
      r.GetSortedMigrations fs₂ v = r.GetSortedMigrations fs₁ v := by
    intro fs₁ fs₂ v l₁ l₂ h1 h2 hkeep
    rw [hres fs₁ v l₁ h1, hres fs₂ v l₂ h2, GetSortedMigrations_loop_eq v l₁,
      GetSortedMigrations_loop_eq v l₂, hkeep]
  refine ⟨by rw [GetSortedMigrations_loop_eq]; rfl, hres fs version files hfiles, ?_, ?_⟩
  · intro fs' files' hfiles' hkeep
    exact hsame fs fs' version files files' hfiles hfiles' hkeep
  · intro fs' hroot hdirs isInitModeON currentMigration StringVersionDb StringNameMigration
    have hrepo : r.asRepo fs' = r.asRepo fs := by
      unfold MigrationDiskRepo.asRepo
      congr 1
      · funext v
        rcases hdirs v with h | ⟨l, l', hl, hl', hkeep⟩
        · unfold MigrationDiskRepo.GetSortedMigrations GetFilesInDir
          rw [h]
        · exact hsame fs fs' v l l' hl hl' hkeep
      · unfold MigrationDiskRepo.GetSortedVersions GetFilesInDir
        rw [hroot]
    rw [hrepo]

/-- Witness of C7 on the scenario *Malformed names ignored*: with the four malformed files in
`v0.0.3` the loaded group and the plan for `-versiondb v0.0.3` are the ones of the tree
without them, and the plan contains only `0002.Good`. -/
theorem GetSortedMigrations_silent_skip_witness :
    wellNamedTree (exampleRepo.PathToMigrations ++ "/" ++ v003.String)
      = .ok ["0001.First.sql", "0002.Good.sql"] ∧
    exampleRepo.GetSortedMigrations malformedNamesTree v003
      = exampleRepo.GetSortedMigrations wellNamedTree v003 ∧
    Run.migrationsToMigrate (exampleRepo.asRepo malformedNamesTree) false malformedNamesCurrent
        "v0.0.3" ""
      = Run.migrationsToMigrate (exampleRepo.asRepo wellNamedTree) false malformedNamesCurrent
        "v0.0.3" "" ∧
    Run.migrationsToMigrate (exampleRepo.asRepo malformedNamesTree) false malformedNamesCurrent
        "v0.0.3" ""
      = .ok (some [{ VersionDb := v003,
                     Migrations := [{ VersionDb := v003, Name := "0002.Good" }] }]) :=
  ⟨by decide,
   (GetSortedMigrations_silent_skip wellNamedTree exampleRepo v003
      ["0001.First.sql", "0002.Good.sql"] (by decide)).2.2.1 malformedNamesTree
      ["0001.First.sql", "02.Clear.sql", "0002.Clear.lash", "0002..sql", "0002.Clear",
       "0002.Good.sql"] (by decide) (by decide),
   (GetSortedMigrations_silent_skip wellNamedTree exampleRepo v003
      ["0001.First.sql", "0002.Good.sql"] (by decide)).2.2.2 malformedNamesTree (by decide)
      (fun v => by
        by_cases h : exampleRepo.PathToMigrations ++ "/" ++ v.String = "migrations/v0.0.3"
        · right
          rw [h]
          exact ⟨["0001.First.sql", "0002.Good.sql"],
            ["0001.First.sql", "02.Clear.sql", "0002.Clear.lash", "0002..sql", "0002.Clear",
             "0002.Good.sql"], by decide, by decide, by decide⟩
        · left
          unfold malformedNamesTree
          rw [if_neg h])
      false malformedNamesCurrent "v0.0.3" "",
   by decide⟩

/-! ## Target selection -/

theorem GetUnappliedSortedMigrations_nonempty (repo : MigrationRepoForMigrations)
    (isInitMod : Bool) (currentMigration : Migration) (res : List MigrationGroup)
    (h : GetUnappliedSortedMigrations repo isInitMod currentMigration = .ok res) :
    ∀ g ∈ res, g.Migrations ≠ [] := by
  obtain ⟨head, versions, groups, -, -, -, rfl⟩ :=
    (GetUnappliedSortedMigrations_ok_iff repo isInitMod currentMigration res).mp h
  intro g hg hnil
  rcases List.mem_append.mp hg with hg | hg
  · by_cases hne : head.Migrations.length ≠ 0
    · rw [if_pos hne] at hg
      simp at hg
      subst hg
      rw [hnil] at hne
      exact hne rfl
    · rw [if_neg hne] at hg
      cases hg
  · have := (List.mem_filter.mp hg).2
    rw [hnil] at this
    simp at this

/-- The search of a target given by its version only, over groups that all hold a migration:
it ends in `log.Fatalf` exactly when no group has the version, and otherwise returns the last
migration of the first group that has it. -/
theorem determinationLastMigrationToMigrate_loop_spec (versiondb : VersionDb) :
    ∀ (groups : List MigrationGroup), (∀ g ∈ groups, g.Migrations ≠ []) →
      (determinationLastMigrationToMigrate.loop versiondb groups
          = .error (.fatal ("The " ++ versiondb.String
              ++ " version is not in the list of migrations available for updating"))
        ↔ ∀ g ∈ groups, g.VersionDb.Equal versiondb = false) ∧
      (∀ g : MigrationGroup, groups.find? (fun a => a.VersionDb.Equal versiondb) = some g →
        ∃ last : Migration, g.Migrations.getLast? = some last ∧
          determinationLastMigrationToMigrate.loop versiondb groups = .ok last) := by
  intro groups
  induction groups with
  | nil =>
    intro _
    simp [determinationLastMigrationToMigrate.loop]
  | cons mg rest ih =>
    intro hne
    have hrest := ih (fun g hg => hne g (List.mem_cons_of_mem _ hg))
    unfold determinationLastMigrationToMigrate.loop
    by_cases heq : mg.VersionDb.Equal versiondb = true
    · rw [if_pos heq]
      have hmg : mg.Migrations ≠ [] := hne mg (List.mem_cons_self _ _)
      obtain ⟨last, hlast⟩ : ∃ last, mg.Migrations.getLast? = some last := by
        cases hl : mg.Migrations.getLast? with
        | none => exact absurd (List.getLast?_eq_none_iff.mp hl) hmg
        | some last => exact ⟨last, rfl⟩
      rw [hlast]
      simp only
      refine ⟨⟨fun h => ?_, fun h => ?_⟩, ?_⟩
      · cases h
      · rw [h mg (List.mem_cons_self _ _)] at heq
        cases heq
      · intro g hg
        rw [List.find?_cons, heq] at hg
        injection hg with hg
        subst hg
        exact ⟨last, hlast, rfl⟩
    · rw [if_neg heq]
      have hf : mg.VersionDb.Equal versiondb = false := by simpa using heq
      refine ⟨⟨fun h g hg => ?_, fun h => ?_⟩, ?_⟩
      · rcases List.mem_cons.mp hg with rfl | hg
        · exact hf
        · exact hrest.1.mp h g hg
      · exact hrest.1.mpr (fun g hg => h g (List.mem_cons_of_mem _ hg))
      · intro g hg
        rw [List.find?_cons, hf] at hg
        exact hrest.2 g hg

theorem NewVersionDb_ne_empty {str : String} {v : VersionDb} (h : NewVersionDb str = .ok v) :
    str ≠ "" := by
  intro hs
  subst hs
  have : NewVersionDb "" = .error (.panic
      "runtime error: slice bounds out of range [:1] with length 0") := rfl
  rw [this] at h
  cases h

/-- With a version target that parses, `determinationLastMigrationToMigrate` runs the search of
the parsed version when no migration target is given. -/
theorem determinationLastMigrationToMigrate_version_only_eq (stringVersionDb : String)
    (versiondb : VersionDb) (currentMigration : Migration) (groups : List MigrationGroup)
    (hparse : NewVersionDb stringVersionDb = .ok versiondb) :
    determinationLastMigrationToMigrate stringVersionDb "" currentMigration groups
      = determinationLastMigrationToMigrate.loop versiondb groups := by
  unfold determinationLastMigrationToMigrate
  rw [if_neg (NewVersionDb_ne_empty hparse), hparse]
  simp

/-- C8: when only a version target is given (it parses, and the migration target is empty),
on the unapplied groups that `GetUnappliedSortedMigrations` returned,
`determinationLastMigrationToMigrate` fails with
`The <v> version is not in the list of migrations available for updating` if and only if no
unapplied group has a version equal to the parsed target, and otherwise returns the last
migration of the (first) unapplied group whose version equals it. -/
theorem determinationLastMigrationToMigrate_version_only (repo : MigrationRepoForMigrations)
    (isInitMod : Bool) (currentMigration : Migration) (unappliedMigrations : List MigrationGroup)
    (stringVersionDb : String) (versiondb : VersionDb)
    (hunapplied : GetUnappliedSortedMigrations repo isInitMod currentMigration
      = .ok unappliedMigrations)
    (hparse : NewVersionDb stringVersionDb = .ok versiondb) :
    (determinationLastMigrationToMigrate stringVersionDb "" currentMigration unappliedMigrations
        = .error (.fatal ("The " ++ versiondb.String
            ++ " version is not in the list of migrations available for updating"))
      ↔ ∀ g ∈ unappliedMigrations, g.VersionDb.Equal versiondb = false) ∧
    (∀ g : MigrationGroup,
      unappliedMigrations.find? (fun a => a.VersionDb.Equal versiondb) = some g →
      ∃ last : Migration, g.Migrations.getLast? = some last ∧
        determinationLastMigrationToMigrate stringVersionDb "" currentMigration
          unappliedMigrations = .ok last) := by
  rw [determinationLastMigrationToMigrate_version_only_eq _ _ _ _ hparse]
  exact determinationLastMigrationToMigrate_loop_spec versiondb unappliedMigrations
    (GetUnappliedSortedMigrations_nonempty repo isInitMod currentMigration _ hunapplied)

/-- Witness of C8 on the scenario *Normal update*: `-versiondb v0.0.4` selects `0003.kkk`, the
last migration of `v0.0.4`. -/
theorem determinationLastMigrationToMigrate_version_only_witness :
    GetUnappliedSortedMigrations (exampleRepo.asRepo exampleTree) false exampleCurrent
      = .ok exampleUnapplied ∧
    NewVersionDb "v0.0.4" = .ok v004 ∧
    ∃ (g : MigrationGroup) (last : Migration),
      exampleUnapplied.find? (fun a => a.VersionDb.Equal v004) = some g ∧
      g.Migrations.getLast? = some last ∧ last.Name = "0003.kkk" ∧
      determinationLastMigrationToMigrate "v0.0.4" "" exampleCurrent exampleUnapplied
        = .ok last :=
  ⟨by decide, by decide,
   match (determinationLastMigrationToMigrate_version_only (exampleRepo.asRepo exampleTree)
      false exampleCurrent exampleUnapplied "v0.0.4" v004 (by decide) (by decide)).2
      { VersionDb := v004,
        Migrations := [{ VersionDb := v004, Name := "0001.hhh" },
                       { VersionDb := v004, Name := "0002.jjj" },
                       { VersionDb := v004, Name := "0003.kkk" }] } (by decide) with
   | ⟨last, hlast, hres⟩ =>
     ⟨_, last, by decide, hlast, by
        have h : last = { VersionDb := v004, Name := "0003.kkk" } := by
          have h2 : ([{ VersionDb := v004, Name := "0001.hhh" },
              { VersionDb := v004, Name := "0002.jjj" },
              ({ VersionDb := v004, Name := "0003.kkk" } : Migration)]).getLast?
              = some { VersionDb := v004, Name := "0003.kkk" } := rfl
          rw [h2] at hlast
          injection hlast with hlast
          exact hlast.symm
        rw [h], hres⟩⟩

theorem IndexMigration_eq_neg_one_iff (ms : List Migration) (migration : Migration) :
    IndexMigration ms migration = -1 ↔ ∀ x ∈ ms, migration.IsEqual x = false := by
  rcases IndexMigration_spec ms migration with ⟨h1, h2⟩ | ⟨k, x, hk, hx, hidx⟩
  · exact ⟨fun _ => h2, fun _ => h1⟩
  · constructor
    · intro h
      rw [hidx] at h
      omega
    · intro h
      rw [h x (List.mem_iff_getElem?.mpr ⟨k, hk⟩)] at hx
      cases hx

/-- In a list of groups with pairwise distinct versions, the group that the search over the
groups ends on is the only one with the version of the migration. -/
theorem group_of_version_unique (groups : List MigrationGroup) (version : VersionDb)
    (hdistinct : groups.Pairwise (fun a b => a.VersionDb.Equal b.VersionDb = false))
    (j j' : Nat) (grp grp' : MigrationGroup) (hj : groups[j]? = some grp)
    (hj' : groups[j']? = some grp') (hgrp : grp.VersionDb.Equal version = true)
    (hgrp' : grp'.VersionDb.Equal version = true) : j' = j := by
  have hjlt : j < groups.length := (List.getElem?_eq_some_iff.mp hj).1
  have hj'lt : j' < groups.length := (List.getElem?_eq_some_iff.mp hj').1
  have e1 : groups[j] = grp := (List.getElem?_eq_some_iff.mp hj).2
  have e2 : groups[j'] = grp' := (List.getElem?_eq_some_iff.mp hj').2
  rcases Nat.lt_trichotomy j' j with hlt | heq | hgt
  · have hrel := List.pairwise_iff_getElem.mp hdistinct j' j hj'lt hjlt hlt
    rw [e1, e2, VersionDb.Equal_trans hgrp' (VersionDb.Equal_symm hgrp)] at hrel
    cases hrel
  · exact heq
  · have hrel := List.pairwise_iff_getElem.mp hdistinct j j' hjlt hj'lt hgt
    rw [e1, e2, VersionDb.Equal_trans hgrp (VersionDb.Equal_symm hgrp')] at hrel
    cases hrel

/-- Target selection with a migration target, on groups with pairwise distinct versions whose
migrations carry the version of their group: it ends in `log.Fatalf` with
`The <v> <name> migration is not in the list of migrations available for updating` exactly
when no migration of the groups is equal to the candidate, and otherwise returns the
candidate. -/
theorem determinationLastMigrationToMigrate_migration_target_of_distinct
    (stringVersionDb stringNameMigration : String) (currentMigration : Migration)
    (groups : List MigrationGroup) (versiondb : VersionDb) (candidate : Migration)
    (hname : stringNameMigration ≠ "")
    (heffective : (stringVersionDb = "" ∧ versiondb = currentMigration.VersionDb) ∨
      NewVersionDb stringVersionDb = .ok versiondb)
    (hcandidate : NewMigration stringNameMigration versiondb = .ok candidate)
    (hdistinct : groups.Pairwise (fun a b => a.VersionDb.Equal b.VersionDb = false))
    (hcarry : ∀ g ∈ groups, ∀ m ∈ g.Migrations, m.VersionDb.Equal g.VersionDb = true) :
    (determinationLastMigrationToMigrate stringVersionDb stringNameMigration currentMigration
        groups
        = .error (.fatal ("The " ++ candidate.VersionDb.String ++ " " ++ candidate.Name
            ++ " migration is not in the list of migrations available for updating"))
      ↔ ∀ g ∈ groups, ∀ m ∈ g.Migrations, candidate.IsEqual m = false) ∧
    ((∃ g ∈ groups, ∃ m ∈ g.Migrations, candidate.IsEqual m = true) →
      determinationLastMigrationToMigrate stringVersionDb stringNameMigration currentMigration
        groups = .ok candidate) := by
  have hres : determinationLastMigrationToMigrate stringVersionDb stringNameMigration
      currentMigration groups
      = if (IndicesMigrationInMigrationGroups groups candidate).1 = -1 ∨
            (IndicesMigrationInMigrationGroups groups candidate).2 = -1 then
          .error (.fatal ("The " ++ candidate.VersionDb.String ++ " " ++ candidate.Name
            ++ " migration is not in the list of migrations available for updating"))
        else .ok candidate := by
    unfold determinationLastMigrationToMigrate
    rcases heffective with ⟨hsv, hv⟩ | hparse
    · rw [if_pos hsv, ← hv]
      simp only
      rw [if_neg hname, hcandidate]
    · rw [if_neg (NewVersionDb_ne_empty hparse), hparse]
      simp only
      rw [if_neg hname, hcandidate]
  have hkey : ((IndicesMigrationInMigrationGroups groups candidate).1 = -1 ∨
      (IndicesMigrationInMigrationGroups groups candidate).2 = -1)
      ↔ ∀ g ∈ groups, ∀ m ∈ g.Migrations, candidate.IsEqual m = false := by
    have hversion : ∀ g ∈ groups, ∀ m ∈ g.Migrations, candidate.IsEqual m = true →
        g.VersionDb.Equal candidate.VersionDb = true := by
      intro g hg m hm hmeq
      unfold Migration.IsEqual at hmeq
      simp only [Bool.and_eq_true] at hmeq
      exact VersionDb.Equal_symm (VersionDb.Equal_trans hmeq.1 (hcarry g hg m hm))
    rcases IndicesMigrationInMigrationGroups_spec groups candidate with
      ⟨hnone, hidx⟩ | ⟨j, grp, hj, hgrp, -, hidx⟩
    · rw [hidx]
      refine ⟨fun _ g hg m hm => ?_, fun _ => Or.inl rfl⟩
      by_contra hne
      have := hversion g hg m hm (by simpa using hne)
      rw [hnone g hg] at this
      cases this
    · rw [hidx]
      simp only
      have hj1 : ¬ ((j : Int) = -1) := by omega
      rw [or_iff_right hj1, IndexMigration_eq_neg_one_iff]
      refine ⟨fun h g hg m hm => ?_, fun h => h grp (List.mem_iff_getElem?.mpr ⟨j, hj⟩)⟩
      by_contra hne
      have hmeq : candidate.IsEqual m = true := by simpa using hne
      obtain ⟨j', hj'⟩ := List.mem_iff_getElem?.mp hg
      have := group_of_version_unique groups candidate.VersionDb hdistinct j j' grp g hj hj'
        hgrp (hversion g hg m hm hmeq)
      subst this
      rw [hj] at hj'
      injection hj' with hj'
      subst hj'
      rw [h m hm] at hmeq
      cases hmeq
  rw [hres]
  constructor
  · rw [← hkey]
    constructor
    · intro h
      by_contra hne
      rw [if_neg hne] at h
      cases h
    · intro h
      rw [if_pos h]
  · rintro ⟨g, hg, m, hm, hmeq⟩
    have hne : ¬ ((IndicesMigrationInMigrationGroups groups candidate).1 = -1 ∨
        (IndicesMigrationInMigrationGroups groups candidate).2 = -1) := by
      rw [hkey]
      intro h
      rw [h g hg m hm] at hmeq
      cases hmeq
    rw [if_neg hne]

theorem Version.Compare_congr_left {a b : Version} (c : Version) (h : a.Compare b = .eq) :
    a.Compare c = b.Compare c := by
  obtain ⟨h1, h2, h3⟩ := (Version.Compare_eq_iff a b).mp h
  unfold Version.Compare
  rw [h1, h2, h3]

/-- C10: for every tree and every current record (in normal mode, and in init-mode alike), on
the unapplied groups that `GetUnappliedSortedMigrations` returned from the disk source: every
group has the version of the current record or a greater one, so none has a version equal to
a target strictly less than the current version, and `determinationLastMigrationToMigrate`
rejects such a version target with
`The <v> version is not in the list of migrations available for updating`, whatever the
directory of that version holds; when some migration is unapplied, so that `Run` reaches the
target selection, `Run` ends with that message. -/
theorem determinationLastMigrationToMigrate_version_less_than_current (fs : FileSystem)
    (r : MigrationDiskRepo) (isInitMod : Bool) (currentMigration : Migration)
    (unappliedMigrations : List MigrationGroup) (stringVersionDb : String)
    (versiondb : VersionDb)
    (hunapplied : GetUnappliedSortedMigrations (r.asRepo fs) isInitMod currentMigration
      = .ok unappliedMigrations)
    (hparse : NewVersionDb stringVersionDb = .ok versiondb)
    (hless : versiondb.LessThan currentMigration.VersionDb = true) :
    (∀ g ∈ unappliedMigrations, g.VersionDb = currentMigration.VersionDb ∨
      g.VersionDb.GreaterThan currentMigration.VersionDb = true) ∧
    (∀ g ∈ unappliedMigrations, g.VersionDb.Equal versiondb = false) ∧
    determinationLastMigrationToMigrate stringVersionDb "" currentMigration unappliedMigrations
      = .error (.fatal ("The " ++ versiondb.String
          ++ " version is not in the list of migrations available for updating")) ∧
    (unappliedMigrations ≠ [] →
      Run.migrationsToMigrate (r.asRepo fs) isInitMod currentMigration stringVersionDb ""
        = .error (.fatal ("The " ++ versiondb.String
            ++ " version is not in the list of migrations available for updating"))) := by
  have hrepo : ∀ v g, (r.asRepo fs).GetSortedMigrations v = .ok g → g.VersionDb = v :=
    fun v g hl => (MigrationDiskRepo.GetSortedMigrations_ok fs r v g hl).1
  have hversions := fun g hg =>
    (GetUnappliedSortedMigrations_groups _ hrepo _ _ _ hunapplied g hg).2
  have hlt : versiondb.version.Compare currentMigration.VersionDb.version = .lt := by
    unfold VersionDb.LessThan at hless
    simpa using hless
  have hnone : ∀ g ∈ unappliedMigrations, g.VersionDb.Equal versiondb = false := by
    intro g hg
    by_contra hne
    have heq : g.VersionDb.version.Compare versiondb.version = .eq := by
      have : g.VersionDb.Equal versiondb = true := by simpa using hne
      unfold VersionDb.Equal at this
      simpa using this
    have hcmp := Version.Compare_congr_left currentMigration.VersionDb.version heq
    rw [hlt] at hcmp
    rcases hversions g hg with hcur | hgt
    · rw [hcur] at hcmp
      have hself := VersionDb.not_LessThan_self currentMigration.VersionDb
      unfold VersionDb.LessThan at hself
      rw [hcmp] at hself
      simp at hself
    · unfold VersionDb.GreaterThan at hgt
      rw [hcmp] at hgt
      simp at hgt
  have hfatal : determinationLastMigrationToMigrate stringVersionDb "" currentMigration
      unappliedMigrations
      = .error (.fatal ("The " ++ versiondb.String
          ++ " version is not in the list of migrations available for updating")) := by
    rw [determinationLastMigrationToMigrate_version_only_eq _ _ _ _ hparse]
    exact (determinationLastMigrationToMigrate_loop_spec versiondb unappliedMigrations
      (GetUnappliedSortedMigrations_nonempty _ isInitMod currentMigration _ hunapplied)).1.mpr
      hnone
  refine ⟨hversions, hnone, hfatal, ?_⟩
  intro hne
  unfold Run.migrationsToMigrate
  rw [hunapplied]
  simp only
  have hlen : ¬ (unappliedMigrations.length = 0) := by
    intro h
    exact hne (List.length_eq_zero.mp h)
  have hsv : stringVersionDb ≠ "" := NewVersionDb_ne_empty hparse
  rw [if_neg hlen, if_neg (fun h => hsv h.1), if_neg (fun h => hsv h.1), hfatal]

/-- Witness of C10 on the tree of the test `IncorrectOrderInPreviousVersions` with the gap
closed: the current record is `(v0.0.5, 0003.Clear)`, the directory `v0.0.4` exists and holds
valid migrations, and `-versiondb v0.0.4` is rejected. -/
theorem determinationLastMigrationToMigrate_version_less_than_current_witness :
    GetUnappliedSortedMigrations (exampleRepo.asRepo pastDenseTree) false pastGapCurrent
      = .ok pastGapUnapplied ∧
    NewVersionDb "v0.0.4" = .ok v004 ∧
    v004.LessThan pastGapCurrent.VersionDb = true ∧
    exampleRepo.GetSortedMigrations pastDenseTree v004
      = .ok { VersionDb := v004,
              Migrations := [{ VersionDb := v004, Name := "0001.hhh" },
                             { VersionDb := v004, Name := "0002.jjj" },
                             { VersionDb := v004, Name := "0003.kkk" }] } ∧
    Run.migrationsToMigrate (exampleRepo.asRepo pastDenseTree) false pastGapCurrent "v0.0.4" ""
      = .error (.fatal ("The " ++ v004.String
          ++ " version is not in the list of migrations available for updating")) :=
  ⟨by decide, by decide, by decide, by decide,
   (determinationLastMigrationToMigrate_version_less_than_current pastDenseTree exampleRepo
      false pastGapCurrent pastGapUnapplied "v0.0.4" v004 (by decide) (by decide)
      (by decide)).2.2.2
      (by decide)⟩

/-! ## Where the program departs from its specification -/

/-- C4 (the program on a tree with a repeated version): with the directories `v0.0.04`
(`0001.hhh`, `0002.jjj`) and `v0.0.4` (`0001.hhh`), the current record `(v0.0.3, 0001.First)`
and the target `-versiondb v0.0.4 -migration 0001.hhh`, the sorted versions hold the version
twice, and the plan has two adjacent groups whose versions are `Equal`, the first not
`LessThan` the second. -/
theorem Run_migrationsToMigrate_repeated_version :
    exampleRepo.GetSortedVersions repeatedVersionTree = .ok [v003, v004', v004] ∧
    Run.migrationsToMigrate (exampleRepo.asRepo repeatedVersionTree) false
        repeatedVersionCurrent "v0.0.4" "0001.hhh"
      = .ok (some repeatedVersionUnapplied) ∧
    v004'.LessThan v004 = false ∧ v004'.Equal v004 = true := by
  decide

/-- C6 (the program on a listing that is not in the order of the names): the directory
`v0.1.2` holds `0001.FirstMigration.sql` and `0002.Clear.sql`, ordinals exactly `1..2`; listed
as `0002.Clear.sql`, `0001.FirstMigration.sql`, `GetSortedMigrations` fails with
`wrong order of migrations`, while the listing in the order of the names loads. -/
theorem GetSortedMigrations_listing_order :
    exampleRepo.GetSortedMigrations creationOrderTree v012
      = .error (.error "wrong order of migrations, error on v0.1.2 0002.Clear") ∧
    exampleRepo.GetSortedMigrations nameOrderTree v012
      = .ok { VersionDb := v012,
              Migrations := [{ VersionDb := v012, Name := "0001.FirstMigration" },
                             { VersionDb := v012, Name := "0002.Clear" }] } := by
  decide

/-- C9 (the program on a tree with a repeated version): with the directories `v0.0.04`
(`0001.hhh`, `0002.jjj`) and `v0.0.4` (`0001.hhh`) and the current record
`(v0.0.3, 0001.First)`, the candidate `(v0.0.04, 0002.jjj)` of
`-versiondb v0.0.04 -migration 0002.jjj` is among the unapplied migrations, and target
selection still fails with
`The v0.0.04 0002.jjj migration is not in the list of migrations available for updating`. -/
theorem determinationLastMigrationToMigrate_repeated_version :
    GetUnappliedSortedMigrations (exampleRepo.asRepo repeatedVersionTree) false
        repeatedVersionCurrent = .ok repeatedVersionUnapplied ∧
    NewMigration "0002.jjj" v004' = .ok { VersionDb := v004', Name := "0002.jjj" } ∧
    (∃ g ∈ repeatedVersionUnapplied,
      ({ VersionDb := v004', Name := "0002.jjj" } : Migration) ∈ g.Migrations) ∧
    determinationLastMigrationToMigrate "v0.0.04" "0002.jjj" repeatedVersionCurrent
        repeatedVersionUnapplied
      = .error (.fatal
          "The v0.0.04 0002.jjj migration is not in the list of migrations available for updating") := by
  decide

/-! ## Groups and plans of the disk source -/

/-- Every version that the loop of `GetSortedVersions` adds is built by `NewVersionDb`. -/
theorem GetSortedVersions_loop_built :
    ∀ (dirs : List String) (acc res : List VersionDb),
      (∀ v ∈ acc, NewVersionDb v.String = .ok v) →
      GetSortedVersions.loop dirs acc = .ok res →
      ∀ v ∈ res, NewVersionDb v.String = .ok v
  | [], acc, res, hacc, h => by
    simp only [GetSortedVersions.loop, Except.ok.injEq] at h
    subst h
    exact hacc
  | d :: dirs, acc, res, hacc, h => by
    rw [GetSortedVersions.loop] at h
    rcases hfirst : IsFirstV d with f | b
    · rw [hfirst] at h
      cases h
    rw [hfirst] at h
    cases b
    · exact GetSortedVersions_loop_built dirs acc res hacc h
    · simp only [] at h
      rcases hparse : NewVersionDb d with f | v
      · rw [hparse] at h
        rcases f with e | e | e
        · exact GetSortedVersions_loop_built dirs acc res hacc h
        · cases h
        · cases h
      · rw [hparse] at h
        refine GetSortedVersions_loop_built dirs (acc ++ [v]) res ?_ h
        intro v' hv'
        rcases List.mem_append.mp hv' with hv' | hv'
        · exact hacc v' hv'
        · rw [List.mem_singleton.mp hv']
          exact NewVersionDb_built d v hparse

/-- Every version that the disk source lists is built by `NewVersionDb`. -/
theorem GetSortedVersions_built (fs : FileSystem) (r : MigrationDiskRepo)
    (versions : List VersionDb) (h : r.GetSortedVersions fs = .ok versions) :
    ∀ v ∈ versions, NewVersionDb v.String = .ok v := by
  unfold MigrationDiskRepo.GetSortedVersions at h
  rcases hdirs : GetFilesInDir fs r.PathToMigrations with f | dirs
  · rw [hdirs] at h
    cases h
  rw [hdirs] at h
  simp only [] at h
  rcases hloop : GetSortedVersions.loop dirs [] with f | vs
  · rw [hloop] at h
    cases h
  rw [hloop] at h
  simp only [Except.ok.injEq] at h
  subst h
  intro v hv
  have hv' : v ∈ vs := (List.perm_insertionSort _ vs).mem_iff.mp hv
  exact GetSortedVersions_loop_built dirs [] vs (by simp) hloop v hv'

/-- The migrations of a group that the disk source loads carry the version of the group. -/
theorem GetSortedMigrations_carry (fs : FileSystem) (r : MigrationDiskRepo)
    (version : VersionDb) (mg : MigrationGroup)
    (h : r.GetSortedMigrations fs version = .ok mg) :
    mg.VersionDb = version ∧ ∀ m ∈ mg.Migrations, m.VersionDb = version := by
  obtain ⟨hv, -, files, -, hms⟩ := MigrationDiskRepo.GetSortedMigrations_ok fs r version mg h
  refine ⟨hv, fun m hm => ?_⟩
  rw [hms] at hm
  exact (GetSortedMigrations_loop_accepted version files m hm).2

/-- The group of the current version that the unapplied computation returns on the disk source
has the current version, and its migrations carry it and are among the loaded ones. -/
theorem getUnappliedSortedMigrationsForVersion_carry (fs : FileSystem) (r : MigrationDiskRepo)
    (isInitMod : Bool) (currentMigration : Migration) (head : MigrationGroup)
    (h : getUnappliedSortedMigrationsForVersion (r.asRepo fs) isInitMod currentMigration
      = .ok head) :
    head.VersionDb = currentMigration.VersionDb ∧
    ∀ m ∈ head.Migrations, m.VersionDb = currentMigration.VersionDb := by
  unfold getUnappliedSortedMigrationsForVersion at h
  rcases hload : (r.asRepo fs).GetSortedMigrations currentMigration.VersionDb with f | loaded
  · rw [hload] at h
    cases h
  rw [hload] at h
  obtain ⟨hv, hms⟩ := GetSortedMigrations_carry fs r currentMigration.VersionDb loaded hload
  cases isInitMod
  · simp only [Bool.false_eq_true, if_false] at h
    split at h
    · cases h
    · simp only [Except.ok.injEq] at h
      subst h
      refine ⟨rfl, fun m hm => ?_⟩
      simp only [NewMigrationGroup, forLoop_collect, List.map_id_fun', id_eq] at hm
      exact hms m (List.mem_of_mem_drop (List.mem_of_mem_take hm))
  · simp only [if_true] at h
    split at h
    · cases h
    · simp only [Except.ok.injEq] at h
      subst h
      exact ⟨hv, hms⟩

/-- The unapplied groups of the disk source, for a current version built by `NewVersionDb`:
each has a version built by `NewVersionDb`, is not empty, and its migrations carry its
version. -/
theorem GetUnappliedSortedMigrations_carry (fs : FileSystem) (r : MigrationDiskRepo)
    (isInitMod : Bool) (currentMigration : Migration) (res : List MigrationGroup)
    (hbuilt : NewVersionDb currentMigration.VersionDb.String = .ok currentMigration.VersionDb)
    (h : GetUnappliedSortedMigrations (r.asRepo fs) isInitMod currentMigration = .ok res) :
    ∀ g ∈ res, NewVersionDb g.VersionDb.String = .ok g.VersionDb ∧ g.Migrations ≠ [] ∧
      ∀ m ∈ g.Migrations, m.VersionDb = g.VersionDb := by
  have hnonempty := GetUnappliedSortedMigrations_nonempty (r.asRepo fs) isInitMod
    currentMigration res h
  obtain ⟨head, versions, groups, hhead, hversions, hgroups, hres⟩ :=
    (GetUnappliedSortedMigrations_ok_iff (r.asRepo fs) isInitMod currentMigration res).mp h
  obtain ⟨hhv, hhm⟩ := getUnappliedSortedMigrationsForVersion_carry fs r isInitMod
    currentMigration head hhead
  intro g hg
  refine ⟨?_, hnonempty g hg, ?_⟩ <;>
  · rw [hres] at hg
    rcases List.mem_append.mp hg with hg | hg
    · split at hg
      · rw [List.mem_singleton.mp hg, hhv]
        first
          | exact hbuilt
          | exact hhm
      · cases hg
    · have hg' : g ∈ groups := List.mem_of_mem_filter hg
      obtain ⟨v, hv, hload⟩ := forall₂_mem_right hgroups g hg'
      obtain ⟨hgv, hgm⟩ := GetSortedMigrations_carry fs r v g hload
      rw [hgv]
      first
        | exact GetSortedVersions_built fs r versions hversions v (List.mem_of_mem_filter hv)
        | exact hgm

/-- The plan that `getMigrationGroupsAndMigrationsBeforeMigration` returns, for groups whose
versions are built by `NewVersionDb`: the target is located at the group `g`, the last one of
its version, and at a migration `m` of that group equal to it; the plan is the groups before
`g` followed by the group `g` cut after the migration `m`. -/
theorem getMigrationGroupsAndMigrationsBeforeMigration_shape (groups : List MigrationGroup)
    (target : Migration) (plan : List MigrationGroup)
    (hbuilt : ∀ a ∈ groups, NewVersionDb a.VersionDb.String = .ok a.VersionDb)
    (h : getMigrationGroupsAndMigrationsBeforeMigration groups target = .ok plan) :
    ∃ (g m : Nat) (grp : MigrationGroup) (x : Migration),
      IndicesMigrationInMigrationGroups groups target = ((g : Int), (m : Int)) ∧
      groups[g]? = some grp ∧ grp.Migrations[m]? = some x ∧
      grp.VersionDb.Equal target.VersionDb = true ∧ target.IsEqual x = true ∧
      (∀ (k : Nat) (grp' : MigrationGroup), g < k → groups[k]? = some grp' →
        grp'.VersionDb.Equal target.VersionDb = false) ∧
      plan = groups.take g
        ++ [{ VersionDb := grp.VersionDb, Migrations := grp.Migrations.take (m + 1) }] := by
  rcases IndicesMigrationInMigrationGroups_spec groups target with
    ⟨-, hres⟩ | ⟨j, grp, hj, hgrp, hlater, hres⟩
  · unfold getMigrationGroupsAndMigrationsBeforeMigration at h
    rw [hres] at h
    simp at h
  rcases IndexMigration_spec grp.Migrations target with ⟨h3, -⟩ | ⟨k, x, hk, hx, h3⟩
  · unfold getMigrationGroupsAndMigrationsBeforeMigration at h
    rw [hres, h3] at h
    simp at h
  have hklt : k < grp.Migrations.length := (List.getElem?_eq_some_iff.mp hk).1
  refine ⟨j, k, grp, x, by rw [hres, h3], hj, hk, hgrp, hx, hlater, ?_⟩
  unfold getMigrationGroupsAndMigrationsBeforeMigration at h
  rw [hres, h3] at h
  have hne : ¬ (((j : Int), (k : Int)).1 = -1 ∨ ((j : Int), (k : Int)).2 = -1) := by
    simp only
    omega
  rw [if_neg hne] at h
  simp only [Int.toNat_ofNat, hj] at h
  have hcopy : forLoop 0 j (appendElem groups MigrationGroup.Copy) [] = groups.take j := by
    rw [forLoop_collect]
    simp only [List.drop_zero, Nat.sub_zero]
    have hid : ∀ a ∈ groups.take j, a.Copy = id a := fun a ha =>
      MigrationGroup.Copy_of_built a (hbuilt a (List.mem_of_mem_take ha))
    rw [List.map_congr_left hid, List.map_id]
  have hgrp_mem : grp ∈ groups := List.mem_iff_getElem?.mpr ⟨j, hj⟩
  rw [hcopy] at h
  by_cases hlast : (k : Int) = (grp.Migrations.length : Int) - 1
  · rw [if_pos hlast, MigrationGroup.Copy_of_built grp (hbuilt grp hgrp_mem)] at h
    have hall : grp.Migrations.take (k + 1) = grp.Migrations :=
      List.take_of_length_le (by omega)
    rw [hall]
    simp only [Except.ok.injEq] at h
    exact h.symm
  · rw [if_neg hlast] at h
    have hcollect := forLoop_collect grp.Migrations (fun a => a) 0 (k + 1)
    simp only [List.map_id_fun', id_eq, List.drop_zero, Nat.sub_zero] at hcollect
    rw [hcollect] at h
    simp only [Except.ok.injEq] at h
    exact h.symm

/-- The last migration of the last group of a plan that ends with a group cut after the
migration `m`. -/
theorem Run.lastAppliedMigration_of_shape (before : List MigrationGroup) (grp : MigrationGroup)
    (m : Nat) (x : Migration) (hx : grp.Migrations[m]? = some x) :
    Run.lastAppliedMigration
        (before ++ [{ VersionDb := grp.VersionDb, Migrations := grp.Migrations.take (m + 1) }])
      = .ok x := by
  have hlt : m < grp.Migrations.length := (List.getElem?_eq_some_iff.mp hx).1
  have hlast : (grp.Migrations.take (m + 1)).getLast? = some x := by
    rw [List.getLast?_eq_getElem?, List.length_take, List.getElem?_take]
    have e : min (m + 1) grp.Migrations.length - 1 = m := by omega
    rw [e, if_pos (by omega)]
    exact hx
  unfold Run.lastAppliedMigration
  simp only [List.getLast?_append, List.getLast?_singleton, Option.or, hlast]

/-- What the planning part of `core.Run` went through when it returns a plan. -/
theorem Run.migrationsToMigrate_some (repo : MigrationRepoForMigrations) (isInitModeON : Bool)
    (currentMigration : Migration) (StringVersionDb StringNameMigration : String)
    (plan : List MigrationGroup)
    (h : Run.migrationsToMigrate repo isInitModeON currentMigration StringVersionDb
      StringNameMigration = .ok (some plan)) :
    ∃ (unappliedMigrations : List MigrationGroup) (target : Migration),
      GetUnappliedSortedMigrations repo isInitModeON currentMigration = .ok unappliedMigrations ∧
      unappliedMigrations ≠ [] ∧
      ¬ (StringVersionDb = "" ∧ isInitModeON = true) ∧
      ¬ (StringVersionDb = "" ∧ StringNameMigration = "") ∧
      determinationLastMigrationToMigrate StringVersionDb StringNameMigration currentMigration
        unappliedMigrations = .ok target ∧
      getMigrationGroupsAndMigrationsBeforeMigration unappliedMigrations target = .ok plan := by
  unfold Run.migrationsToMigrate at h
  rcases hun : GetUnappliedSortedMigrations repo isInitModeON currentMigration with f | un
  · rw [hun] at h
    rcases f with e | e | e <;> cases h
  rw [hun] at h
  simp only [] at h
  split at h
  · cases h
  rename_i hlen
  split at h
  · cases h
  rename_i hguard1
  split at h
  · cases h
  rename_i hguard2
  rcases htarget : determinationLastMigrationToMigrate StringVersionDb StringNameMigration
    currentMigration un with f | target
  · rw [htarget] at h
    cases h
  rw [htarget] at h
  simp only [] at h
  rcases hplan : getMigrationGroupsAndMigrationsBeforeMigration un target with f | p
  · rw [hplan] at h
    cases h
  rw [hplan] at h
  simp only [Except.ok.injEq, Option.some.injEq] at h
  subst h
  exact ⟨un, target, rfl, fun hnil => hlen (by rw [hnil]; rfl), hguard1, hguard2, htarget,
    hplan⟩

/-- A version greater than another one is not equal to it. -/
theorem VersionDb.not_Equal_of_GreaterThan {a b : VersionDb} (h : a.GreaterThan b = true) :
    a.Equal b = false := by
  unfold VersionDb.GreaterThan at h
  unfold VersionDb.Equal
  have hc : a.version.Compare b.version = .gt := by simpa using h
  rw [hc]
  rfl

/-- The group of the current version that the unapplied computation returns on the disk source
holds a suffix of the loaded group, the whole of it in the initialization mode. -/
theorem getUnappliedSortedMigrationsForVersion_suffix (fs : FileSystem) (r : MigrationDiskRepo)
    (isInitMod : Bool) (currentMigration : Migration) (head : MigrationGroup)
    (h : getUnappliedSortedMigrationsForVersion (r.asRepo fs) isInitMod currentMigration
      = .ok head) :
    ∃ (loaded : MigrationGroup) (n : Nat),
      r.GetSortedMigrations fs currentMigration.VersionDb = .ok loaded ∧
      head.VersionDb = currentMigration.VersionDb ∧
      head.Migrations = loaded.Migrations.drop n ∧ (isInitMod = true → n = 0) := by
  unfold getUnappliedSortedMigrationsForVersion at h
  rcases hload : (r.asRepo fs).GetSortedMigrations currentMigration.VersionDb with f | loaded
  · rw [hload] at h
    cases h
  rw [hload] at h
  obtain ⟨hv, -⟩ := GetSortedMigrations_carry fs r currentMigration.VersionDb loaded hload
  cases isInitMod
  · simp only [Bool.false_eq_true, if_false] at h
    split at h
    · cases h
    · simp only [Except.ok.injEq] at h
      subst h
      refine ⟨loaded, (IndexMigration loaded.Migrations currentMigration).toNat + 1, hload, rfl,
        ?_, fun hc => by cases hc⟩
      simp only [NewMigrationGroup, forLoop_collect, List.map_id_fun', id_eq]
      rw [List.take_of_length_le]
      rw [List.length_drop]
  · simp only [if_true] at h
    split at h
    · cases h
    · simp only [Except.ok.injEq] at h
      subst h
      exact ⟨_, 0, hload, hv, rfl, fun _ => rfl⟩

/-- The names of the group of the current version that the unapplied computation returns on
the disk source are not repeated: a name has one position. -/
theorem getUnappliedSortedMigrationsForVersion_names (fs : FileSystem) (r : MigrationDiskRepo)
    (isInitMod : Bool) (currentMigration : Migration) (head : MigrationGroup)
    (h : getUnappliedSortedMigrationsForVersion (r.asRepo fs) isInitMod currentMigration
      = .ok head)
    (j k : Nat) (a b : Migration) (ha : head.Migrations[j]? = some a)
    (hb : head.Migrations[k]? = some b) (hab : a.Name = b.Name) : j = k := by
  obtain ⟨loaded, n, hload, -, hsuffix, -⟩ :=
    getUnappliedSortedMigrationsForVersion_suffix fs r isInitMod currentMigration head h
  obtain ⟨-, hcheck, -⟩ :=
    MigrationDiskRepo.GetSortedMigrations_ok fs r currentMigration.VersionDb loaded hload
  rw [hsuffix, List.getElem?_drop] at ha hb
  have := name_position_unique loaded hcheck (n + j) (n + k) a b ha hb hab
  omega

/-- The unapplied groups of the disk source when the group of the current version is not
empty: that group comes first, and the groups after it have greater versions. -/
theorem GetUnappliedSortedMigrations_head (fs : FileSystem) (r : MigrationDiskRepo)
    (isInitMod : Bool) (currentMigration : Migration) (head : MigrationGroup)
    (unappliedMigrations : List MigrationGroup)
    (hhead : getUnappliedSortedMigrationsForVersion (r.asRepo fs) isInitMod currentMigration
      = .ok head)
    (hne : head.Migrations ≠ [])
    (h : GetUnappliedSortedMigrations (r.asRepo fs) isInitMod currentMigration
      = .ok unappliedMigrations) :
    ∃ later : List MigrationGroup, unappliedMigrations = head :: later ∧
      ∀ g ∈ later, g.VersionDb.GreaterThan currentMigration.VersionDb = true := by
  obtain ⟨head', versions, groups, hhead', -, hgroups, hres⟩ :=
    (GetUnappliedSortedMigrations_ok_iff (r.asRepo fs) isInitMod currentMigration
      unappliedMigrations).mp h
  rw [hhead] at hhead'
  simp only [Except.ok.injEq] at hhead'
  subst hhead'
  have hlen : head.Migrations.length ≠ 0 := fun hz => hne (List.length_eq_zero.mp hz)
  refine ⟨groups.filter (fun g => g.Migrations.length ≠ 0), ?_, ?_⟩
  · rw [hres, if_pos hlen]
    rfl
  · intro g hg
    obtain ⟨v, hv, hload⟩ := forall₂_mem_right hgroups g (List.mem_of_mem_filter hg)
    obtain ⟨hgv, -⟩ := GetSortedMigrations_carry fs r v g hload
    rw [hgv]
    exact (List.mem_filter.mp hv).2

/-- The plan for a target that `IndicesMigrationInMigrationGroups` locates at the group `g`
and the migration `m`, for groups whose versions are built by `NewVersionDb`. -/
theorem getMigrationGroupsAndMigrationsBeforeMigration_of_indices
    (groups : List MigrationGroup) (target : Migration) (g m : Nat) (grp : MigrationGroup)
    (hbuilt : ∀ a ∈ groups, NewVersionDb a.VersionDb.String = .ok a.VersionDb)
    (hloc : IndicesMigrationInMigrationGroups groups target = ((g : Int), (m : Int)))
    (hg : groups[g]? = some grp) :
    getMigrationGroupsAndMigrationsBeforeMigration groups target
      = .ok (groups.take g
        ++ [{ VersionDb := grp.VersionDb, Migrations := grp.Migrations.take (m + 1) }]) := by
  unfold getMigrationGroupsAndMigrationsBeforeMigration
  rw [hloc]
  have hne : ¬ (((g : Int), (m : Int)).1 = -1 ∨ ((g : Int), (m : Int)).2 = -1) := by
    simp only
    omega
  rw [if_neg hne]
  simp only [Int.toNat_ofNat, hg]
  have hcopy : forLoop 0 g (appendElem groups MigrationGroup.Copy) [] = groups.take g := by
    rw [forLoop_collect]
    simp only [List.drop_zero, Nat.sub_zero]
    have hid : ∀ a ∈ groups.take g, a.Copy = id a := fun a ha =>
      MigrationGroup.Copy_of_built a (hbuilt a (List.mem_of_mem_take ha))
    rw [List.map_congr_left hid, List.map_id]
  have hgrp_mem : grp ∈ groups := List.mem_iff_getElem?.mpr ⟨g, hg⟩
  rw [hcopy]
  by_cases hlast : (m : Int) = (grp.Migrations.length : Int) - 1
  · rw [if_pos hlast, MigrationGroup.Copy_of_built grp (hbuilt grp hgrp_mem)]
    have hall : grp.Migrations.take (m + 1) = grp.Migrations :=
      List.take_of_length_le (by omega)
    rw [hall]
  · rw [if_neg hlast]
    have hcollect := forLoop_collect grp.Migrations (fun a => a) 0 (m + 1)
    simp only [List.map_id_fun', id_eq, List.drop_zero, Nat.sub_zero] at hcollect
    rw [hcollect]
    rfl

/-- A target of the version of the first group, when no later group has an equal version, is
located in the first group, at the position `IndexMigration` gives. -/
theorem IndicesMigrationInMigrationGroups_head (head : MigrationGroup)
    (later : List MigrationGroup) (target : Migration)
    (hhead : head.VersionDb.Equal target.VersionDb = true)
    (hlater : ∀ g ∈ later, g.VersionDb.Equal target.VersionDb = false) :
    IndicesMigrationInMigrationGroups (head :: later) target
      = (0, IndexMigration head.Migrations target) := by
  rcases IndicesMigrationInMigrationGroups_spec (head :: later) target with
    ⟨hnone, -⟩ | ⟨j, grp, hj, hgrp, -, hres⟩
  · rw [hnone head (List.mem_cons_self _ _)] at hhead
    cases hhead
  · cases j with
    | zero =>
      simp only [List.getElem?_cons_zero, Option.some.injEq] at hj
      subst hj
      rw [hres]
      rfl
    | succ j =>
      simp only [List.getElem?_cons_succ] at hj
      rw [hlater grp (List.mem_iff_getElem?.mpr ⟨j, hj⟩)] at hgrp
      cases hgrp

/-- C12: `isInitMode` returns false, without any call to the database, whenever the probe file
does not exist. When the file exists and is read without error, `isInitMode` returns true if
and only if the probe (`HasCurrentMigration` on the text of the file) returned false or failed
with an error, it returns false if and only if the probe returned true, and after a probe that
failed with an error it returns true: the error does not end the run. -/
theorem isInitMode_probe {ω : Type} (o : Outside ω) (ucFileReader : FileReaderUseCase)
    (ucMigrationCurrent : MigrationCurrentUseCase (State ω)) (s : State ω) :
    (ucFileReader.IsExistHasCurrentMigrationFile o s = false →
      isInitMode o ucFileReader ucMigrationCurrent s = (.ok false, s)) ∧
    (∀ sql : String, ucFileReader.IsExistHasCurrentMigrationFile o s = true →
      ucFileReader.GetSqlFromHasCurrentMigrationFile o s = .ok sql →
      ((isInitMode o ucFileReader ucMigrationCurrent s).1 = .ok true ↔
        (ucMigrationCurrent.repo.HasCurrentMigration sql s).1 = .ok false ∨
        ∃ e, (ucMigrationCurrent.repo.HasCurrentMigration sql s).1 = .error (.error e)) ∧
      ((isInitMode o ucFileReader ucMigrationCurrent s).1 = .ok false ↔
        (ucMigrationCurrent.repo.HasCurrentMigration sql s).1 = .ok true) ∧
      (∀ e, (ucMigrationCurrent.repo.HasCurrentMigration sql s).1 = .error (.error e) →
        isInitMode o ucFileReader ucMigrationCurrent s
          = (.ok true, (ucMigrationCurrent.repo.HasCurrentMigration sql s).2))) := by
  refine ⟨fun hno => ?_, fun sql hexists hread => ?_⟩
  · unfold isInitMode
    simp [hno]
  · have hrun : isInitMode o ucFileReader ucMigrationCurrent s
        = match ucMigrationCurrent.repo.HasCurrentMigration sql s with
          | (.ok true, s1) => (.ok false, s1)
          | (.ok false, s1) => (.ok true, s1)
          | (.error (.error _), s1) => (.ok true, s1)
          | (.error f, s1) => (.error f, s1) := by
      unfold isInitMode MigrationCurrentUseCase.HasCurrentMigration
      simp only [hexists, hread, Bool.not_true, Bool.false_eq_true, if_false]
      rcases hprobe : ucMigrationCurrent.repo.HasCurrentMigration sql s with ⟨r, s1⟩
      rcases r with (_ | _ | _) | (_ | _) <;> rfl
    rw [hrun]
    rcases hprobe : ucMigrationCurrent.repo.HasCurrentMigration sql s with ⟨r, s1⟩
    rcases r with (e | e | e) | (_ | _) <;> simp

/-- Witness of C12 on the scenario *Init-mode bootstrap*: the probe file exists and is read,
the probe fails on the missing table, and `isInitMode` returns true. -/
theorem isInitMode_probe_witness :
    (NewFileReaderUseCase "migrations").IsExistHasCurrentMigrationFile exampleOutside
        (start bootstrapWorld) = true ∧
    (NewFileReaderUseCase "migrations").GetSqlFromHasCurrentMigrationFile exampleOutside
        (start bootstrapWorld) = .ok "SELECT COUNT(*)<>0 FROM lastMigration" ∧
    ((MigrationPostgresRepo.asRepo exampleOutside).HasCurrentMigration
        "SELECT COUNT(*)<>0 FROM lastMigration" (start bootstrapWorld)).1
      = .error (.error "ERROR: relation lastmigration does not exist (SQLSTATE 42P01)") ∧
    isInitMode exampleOutside (NewFileReaderUseCase "migrations")
        { repo := MigrationPostgresRepo.asRepo exampleOutside } (start bootstrapWorld)
      = (.ok true, ((MigrationPostgresRepo.asRepo exampleOutside).HasCurrentMigration
          "SELECT COUNT(*)<>0 FROM lastMigration" (start bootstrapWorld)).2) :=
  ⟨by decide, by decide, by decide,
    ((isInitMode_probe exampleOutside (NewFileReaderUseCase "migrations")
      { repo := MigrationPostgresRepo.asRepo exampleOutside } (start bootstrapWorld)).2
      "SELECT COUNT(*)<>0 FROM lastMigration" (by decide) (by decide)).2.2
      "ERROR: relation lastmigration does not exist (SQLSTATE 42P01)" (by decide)⟩

/-- The record that `NewInitMigrationUseCase` builds is `(v0.0.0, 0000.InitMod)`. -/
theorem NewInitMigrationUseCase_eq :
    NewInitMigrationUseCase = .ok { initMigration := initCurrent } := by
  decide

/-- C13: in the initialization mode the current record is the one `NewInitMigrationUseCase`
builds, `(v0.0.0, 0000.InitMod)`. With the group `head` loaded for its version, the unapplied
computation for that version fails with `in initialization mode there should be migrations
with version v0.0.0` if and only if `head` has no migration, and then the whole computation
fails with the same error; otherwise it returns `head` itself, and the whole computation
returns exactly `head` followed by the non-empty groups of the versions greater than `v0.0.0`,
in the order of the sorted versions. -/
theorem getUnappliedSortedMigrationsForVersion_init_mode (repo : MigrationRepoForMigrations)
    (ucInitMigration : InitMigrationUseCase) (head : MigrationGroup)
    (hinit : NewInitMigrationUseCase = .ok ucInitMigration)
    (hload : repo.GetSortedMigrations ucInitMigration.GetInitMigration.VersionDb = .ok head) :
    ucInitMigration.GetInitMigration.VersionDb.String = "v0.0.0" ∧
    ucInitMigration.GetInitMigration.Name = "0000.InitMod" ∧
    (getUnappliedSortedMigrationsForVersion repo true ucInitMigration.GetInitMigration
        = .error (.error "in initialization mode there should be migrations with version v0.0.0")
      ↔ head.Migrations = []) ∧
    (head.Migrations = [] →
      GetUnappliedSortedMigrations repo true ucInitMigration.GetInitMigration
        = .error (.error
            "in initialization mode there should be migrations with version v0.0.0")) ∧
    (head.Migrations ≠ [] →
      getUnappliedSortedMigrationsForVersion repo true ucInitMigration.GetInitMigration
        = .ok head ∧
      ∀ res : List MigrationGroup,
        GetUnappliedSortedMigrations repo true ucInitMigration.GetInitMigration = .ok res ↔
          ∃ (versions : List VersionDb) (groups : List MigrationGroup),
            repo.GetSortedVersions = .ok versions ∧
            List.Forall₂ (fun v g => repo.GetSortedMigrations v = .ok g)
              (versions.filter
                (fun v => v.GreaterThan ucInitMigration.GetInitMigration.VersionDb)) groups ∧
            res = head :: groups.filter (fun g => g.Migrations.length ≠ 0)) := by
  rw [NewInitMigrationUseCase_eq] at hinit
  injection hinit with hinit
  subst hinit
  have hfor : getUnappliedSortedMigrationsForVersion repo true initCurrent
      = if head.Migrations.length = 0 then
          .error (.error
            "in initialization mode there should be migrations with version v0.0.0")
        else .ok head := by
    unfold getUnappliedSortedMigrationsForVersion
    have hload' : repo.GetSortedMigrations initCurrent.VersionDb = .ok head := hload
    rw [hload']
    rfl
  refine ⟨rfl, rfl, ?_, ?_, ?_⟩
  · show getUnappliedSortedMigrationsForVersion repo true initCurrent = _ ↔ _
    rw [hfor]
    by_cases hempty : head.Migrations = []
    · simp [hempty]
    · have hlen : head.Migrations.length ≠ 0 := fun h => hempty (List.length_eq_zero.mp h)
      simp [hempty, hlen]
  · intro hempty
    show GetUnappliedSortedMigrations repo true initCurrent = _
    unfold GetUnappliedSortedMigrations
    rw [hfor]
    simp [hempty]
  · intro hne
    have hlen : head.Migrations.length ≠ 0 := fun h => hne (List.length_eq_zero.mp h)
    have hok : getUnappliedSortedMigrationsForVersion repo true initCurrent = .ok head := by
      rw [hfor, if_neg hlen]
    refine ⟨hok, fun res => ?_⟩
    show GetUnappliedSortedMigrations repo true initCurrent = .ok res ↔ _
    rw [GetUnappliedSortedMigrations_ok_iff]
    constructor
    · rintro ⟨head', versions, groups, hhead, hversions, hgroups, hres⟩
      rw [hok] at hhead
      injection hhead with hhead
      subst hhead
      refine ⟨versions, groups, hversions, hgroups, ?_⟩
      rw [hres, if_pos hlen]
      rfl
    · rintro ⟨versions, groups, hversions, hgroups, hres⟩
      refine ⟨head, versions, groups, hok, hversions, hgroups, ?_⟩
      rw [hres, if_pos hlen]
      rfl

/-- Witness of C13 on the scenario *Init-mode bootstrap*: the group `v0.0.0` is loaded with
its two scripts and comes first, whole, before the group `v0.0.3`. -/
theorem getUnappliedSortedMigrationsForVersion_init_mode_witness :
    NewInitMigrationUseCase = .ok { initMigration := initCurrent } ∧
    (exampleRepo.asRepo initTree).GetSortedMigrations initCurrent.VersionDb = .ok initHead ∧
    initHead.Migrations ≠ [] ∧
    getUnappliedSortedMigrationsForVersion (exampleRepo.asRepo initTree) true initCurrent
      = .ok initHead ∧
    GetUnappliedSortedMigrations (exampleRepo.asRepo initTree) true initCurrent
      = .ok [initHead, initLater] :=
  ⟨by decide, by decide, by decide,
    ((getUnappliedSortedMigrationsForVersion_init_mode (exampleRepo.asRepo initTree)
      { initMigration := initCurrent } initHead (by decide) (by decide)).2.2.2.2
      (by decide)).1,
    by decide⟩

/-- Applying a concatenation is applying its parts one after the other. -/
theorem Migrate.applied_append {σ : Type} (uc : MigrateUseCase σ) :
    ∀ (a b : List Migration) (s s'' : σ),
      Migrate.applied uc (a ++ b) s s'' ↔
        ∃ s', Migrate.applied uc a s s' ∧ Migrate.applied uc b s' s''
  | [], b, s, s'' => by
    simp [Migrate.applied]
  | m :: a, b, s, s'' => by
    show (∃ s1, Migrate.body uc m s = (.ok (), s1) ∧ Migrate.applied uc (a ++ b) s1 s'') ↔
      ∃ s', (∃ s1, Migrate.body uc m s = (.ok (), s1) ∧ Migrate.applied uc a s1 s') ∧
        Migrate.applied uc b s' s''
    constructor
    · rintro ⟨s1, h1, h2⟩
      obtain ⟨s', h3, h4⟩ := (Migrate.applied_append uc a b s1 s'').mp h2
      exact ⟨s', ⟨s1, h1, h3⟩, h4⟩
    · rintro ⟨s', ⟨s1, h1, h2⟩, h3⟩
      exact ⟨s1, h1, (Migrate.applied_append uc a b s1 s'').mpr ⟨s', h2, h3⟩⟩

/-- The result of the body of the loop is an error or `.ok ()`. -/
theorem Migrate.body_cases {σ : Type} (uc : MigrateUseCase σ) (migration : Migration) (s : σ) :
    (∃ s1, Migrate.body uc migration s = (.ok (), s1)) ∨
    (∃ f s1, Migrate.body uc migration s = (.error f, s1)) := by
  rcases h : Migrate.body uc migration s with ⟨r, s1⟩
  rcases r with f | u
  · exact Or.inr ⟨f, s1, rfl⟩
  · exact Or.inl ⟨s1, rfl⟩

/-- The inner loop of `Migrate` stops at the first error. -/
theorem Migrate.migrations_stops {σ : Type} (uc : MigrateUseCase σ) :
    ∀ (ms : List Migration) (s : σ),
      Migrate.stopsAtFirstError uc ms s (Migrate.migrations uc ms s)
  | [], s => ⟨[], [], s, rfl, rfl, Or.inl ⟨rfl, rfl⟩⟩
  | m :: ms, s => by
    rcases Migrate.body_cases uc m s with ⟨s1, h1⟩ | ⟨f, s1, h1⟩
    · have hstep : Migrate.migrations uc (m :: ms) s = Migrate.migrations uc ms s1 := by
        rw [Migrate.migrations, h1]
      rw [hstep]
      obtain ⟨done, rest, s', hsplit, happlied, hend⟩ := Migrate.migrations_stops uc ms s1
      refine ⟨m :: done, rest, s', ?_, ⟨s1, h1, happlied⟩, hend⟩
      rw [hsplit]
      rfl
    · have hstep : Migrate.migrations uc (m :: ms) s = (.error f, s1) := by
        rw [Migrate.migrations, h1]
      rw [hstep]
      exact ⟨[], m :: ms, s, rfl, rfl, Or.inr ⟨m, ms, f, s1, rfl, h1, rfl⟩⟩

/-- The outer loop of `Migrate` stops at the first error of the flattened plan. -/
theorem Migrate.groups_stops {σ : Type} (uc : MigrateUseCase σ) :
    ∀ (plan : List MigrationGroup) (s : σ),
      Migrate.stopsAtFirstError uc (flattenedPlan plan) s (Migrate.groups uc plan s)
  | [], s => ⟨[], [], s, rfl, rfl, Or.inl ⟨rfl, rfl⟩⟩
  | mg :: plan, s => by
    have hflat : flattenedPlan (mg :: plan) = mg.Migrations ++ flattenedPlan plan := rfl
    obtain ⟨done, rest, s', hsplit, happlied, hend⟩ := Migrate.migrations_stops uc mg.Migrations s
    rcases hend with ⟨hrest, hres⟩ | ⟨m, later, f, s'', hrest, hfail, hres⟩
    · have hstep : Migrate.groups uc (mg :: plan) s = Migrate.groups uc plan s' := by
        rw [Migrate.groups, hres]
      rw [hstep]
      obtain ⟨done2, rest2, s2, hsplit2, happlied2, hend2⟩ := Migrate.groups_stops uc plan s'
      refine ⟨mg.Migrations ++ done2, rest2, s2, ?_, ?_, hend2⟩
      · rw [hflat, hsplit2, List.append_assoc]
      · rw [Migrate.applied_append]
        refine ⟨s', ?_, happlied2⟩
        rw [hsplit, hrest, List.append_nil]
        exact happlied
    · have hstep : Migrate.groups uc (mg :: plan) s = (.error f, s'') := by
        rw [Migrate.groups, hres]
      rw [hstep]
      refine ⟨done, rest ++ flattenedPlan plan, s', ?_, happlied,
        Or.inr ⟨m, later ++ flattenedPlan plan, f, s'', ?_, hfail, rfl⟩⟩
      · rw [hflat, hsplit, List.append_assoc]
      · rw [hrest]
        rfl

/-- The state that applying a list of migrations leads to is determined. -/
theorem Migrate.applied_unique {σ : Type} (uc : MigrateUseCase σ) :
    ∀ (ms : List Migration) (s t t' : σ),
      Migrate.applied uc ms s t → Migrate.applied uc ms s t' → t = t'
  | [], _, _, _, h, h' => by
    have e : _ = _ := h
    have e' : _ = _ := h'
    rw [e, e']
  | m :: ms, s, t, t', h, h' => by
    obtain ⟨s1, h1, h2⟩ : ∃ s1, Migrate.body uc m s = (.ok (), s1) ∧ Migrate.applied uc ms s1 t := h
    obtain ⟨s1', h1', h2'⟩ :
      ∃ s1, Migrate.body uc m s = (.ok (), s1) ∧ Migrate.applied uc ms s1 t' := h'
    rw [h1] at h1'
    injection h1' with _ hs
    subst hs
    exact Migrate.applied_unique uc ms s1 t t' h2 h2'

/-- C15: for every plan, every script-loading function and every script-executing function
(the two repositories of `uc`) and every initial state: each migration is loaded and then
executed, an error of the loading is returned without the execution, and otherwise the result
of the execution is the result for the migration; `Migrate` goes through the flattened plan
(groups in order, migrations in order within each group) and stops at the first error: a
prefix of the flattened plan is applied without error, and either nothing is left and `Migrate`
returns no error, or the next migration fails and `Migrate` returns that error in the state that
failure left, so no later migration is attempted. `Migrate` returns no error if and only if
every migration of the flattened plan was applied without error. -/
theorem Migrate_stops_at_first_error {σ : Type} (uc : MigrateUseCase σ)
    (plan : List MigrationGroup) (s : σ) :
    (∀ (migration : Migration) (s0 : σ),
      (∀ f s1, uc.getRepo.GetSqlFromMigration migration s0 = (.error f, s1) →
        Migrate.body uc migration s0 = (.error f, s1)) ∧
      (∀ sql s1, uc.getRepo.GetSqlFromMigration migration s0 = (.ok sql, s1) →
        Migrate.body uc migration s0 = uc.execRepo.ExecSql sql s1)) ∧
    Migrate.stopsAtFirstError uc (flattenedPlan plan) s (uc.Migrate plan s) ∧
    ((uc.Migrate plan s).1 = .ok () ↔
      ∃ s', Migrate.applied uc (flattenedPlan plan) s s') := by
  have hstops := Migrate.groups_stops uc plan s
  refine ⟨fun migration s0 => ⟨fun f s1 hload => ?_, fun sql s1 hload => ?_⟩, hstops, ?_⟩
  · rw [Migrate.body, hload]
  · rw [Migrate.body, hload]
    simp only []
    split <;> rename_i hexec <;> rw [hexec]
  · show (Migrate.groups uc plan s).1 = .ok () ↔ _
    obtain ⟨done, rest, s', hsplit, happlied, hend⟩ := hstops
    rcases hend with ⟨hrest, hres⟩ | ⟨m, later, f, s'', hrest, hfail, hres⟩
    · rw [hres]
      refine ⟨fun _ => ⟨s', ?_⟩, fun _ => rfl⟩
      rw [hsplit, hrest, List.append_nil]
      exact happlied
    · rw [hres]
      refine ⟨?_, ?_⟩
      · intro h
        cases h
      · rintro ⟨t, hall⟩
        rw [hsplit, hrest, Migrate.applied_append] at hall
        obtain ⟨t', hdone, htail⟩ := hall
        have ht : s' = t' := Migrate.applied_unique uc done s s' t' happlied hdone
        subst ht
        obtain ⟨s1, h1, -⟩ :
          ∃ s1, Migrate.body uc m s' = (.ok (), s1) ∧ Migrate.applied uc later s1 t := htail
        rw [hfail] at h1
        cases h1

/-- Witness of C15 on the scenario *Error rollback*: with the script `0002.jjj` failing,
`Migrate` returns its error after executing `0003.Hqwerty` and `0001.hhh` and trying
`0002.jjj`; `0003.kkk` is not tried. -/
theorem Migrate_stops_at_first_error_witness :
    ((NewMigrateUseCase exampleOutside exampleRepo).Migrate exampleUnapplied
        (start failingWorld)).1
      = .error (.error "ERROR: syntax error at or near CREATE TABLE jjj ()") ∧
    ((NewMigrateUseCase exampleOutside exampleRepo).Migrate exampleUnapplied
        (start failingWorld)).2.calls
      = [.Exec "CREATE TABLE hqwerty ()" [], .Exec "CREATE TABLE hhh ()" [],
         .Exec "CREATE TABLE jjj ()" []] ∧
    ((NewMigrateUseCase exampleOutside exampleRepo).Migrate exampleUnapplied
        (start failingWorld)).2.outside.executed
      = [("CREATE TABLE hqwerty ()", []), ("CREATE TABLE hhh ()", [])] ∧
    Migrate.stopsAtFirstError (NewMigrateUseCase exampleOutside exampleRepo)
      (flattenedPlan exampleUnapplied) (start failingWorld)
      ((NewMigrateUseCase exampleOutside exampleRepo).Migrate exampleUnapplied
        (start failingWorld)) :=
  ⟨by decide, by decide, by decide,
    (Migrate_stops_at_first_error (NewMigrateUseCase exampleOutside exampleRepo)
      exampleUnapplied (start failingWorld)).2.1⟩

/-! ## The runs of the examples -/

/-- The run of the scenario *Error rollback* on `failingWorld` finds the normal mode and the
record `(v0.0.3, 0002.Clear)` and comes to apply the two unapplied groups. -/
theorem failingRun_plansFrom :
    Run.plansFrom exampleOutside exampleTree (exampleConfig "v0.0.4" "") (start failingWorld)
      false exampleCurrent exampleUnapplied (afterSetup failingWorld) :=
  ⟨⟨by decide, by decide, { initMigration := initCurrent },
    { outside := failingWorld, calls := (afterSetup failingWorld).calls.take 1 },
    { outside := failingWorld, calls := (afterSetup failingWorld).calls.take 2 },
    by decide, by decide, by decide, by decide⟩, by decide⟩

/-- The run of the scenario *Error rollback* on `failingWorld` creates the dump. -/
theorem failingRun_createDump :
    Run.createDump exampleOutside (exampleConfig "v0.0.4" "")
        (NewFileReaderUseCase (exampleConfig "v0.0.4" "").PathToMigrations)
        (afterSetup failingWorld)
      = (.ok ("UPDATE lastMigration SET version = $1, name = $2", exampleDumpUseCase,
          exampleDump), afterDump failingWorld) := by
  rfl

/-- The run of the scenario *Normal update* on `exampleWorld` finds the normal mode and the
record `(v0.0.3, 0002.Clear)` and comes to apply the two unapplied groups. -/
theorem exampleRun_plansFrom :
    Run.plansFrom exampleOutside exampleTree (exampleConfig "v0.0.4" "") (start exampleWorld)
      false exampleCurrent exampleUnapplied (afterSetup exampleWorld) :=
  ⟨⟨by decide, by decide, { initMigration := initCurrent },
    { outside := exampleWorld, calls := (afterSetup exampleWorld).calls.take 1 },
    { outside := exampleWorld, calls := (afterSetup exampleWorld).calls.take 2 },
    by decide, by decide, by decide, by decide⟩, by decide⟩

/-- The run of the scenario *Normal update* on `exampleWorld` creates the dump. -/
theorem exampleRun_createDump :
    Run.createDump exampleOutside (exampleConfig "v0.0.4" "")
        (NewFileReaderUseCase (exampleConfig "v0.0.4" "").PathToMigrations)
        (afterSetup exampleWorld)
      = (.ok ("UPDATE lastMigration SET version = $1, name = $2", exampleDumpUseCase,
          exampleDump), afterDump exampleWorld) := by
  rfl

/-- The run of the scenario *Error rollback* on `brokenRestoreWorld` finds the normal mode and
the record `(v0.0.3, 0002.Clear)` and comes to apply the two unapplied groups. -/
theorem brokenRun_plansFrom :
    Run.plansFrom exampleOutside exampleTree (exampleConfig "v0.0.4" "")
      (start brokenRestoreWorld) false exampleCurrent exampleUnapplied
      (afterSetup brokenRestoreWorld) :=
  ⟨⟨by decide, by decide, { initMigration := initCurrent },
    { outside := brokenRestoreWorld, calls := (afterSetup brokenRestoreWorld).calls.take 1 },
    { outside := brokenRestoreWorld, calls := (afterSetup brokenRestoreWorld).calls.take 2 },
    by decide, by decide, by decide, by decide⟩, by decide⟩

/-- The run of the scenario *Error rollback* on `brokenRestoreWorld` creates the dump. -/
theorem brokenRun_createDump :
    Run.createDump exampleOutside (exampleConfig "v0.0.4" "")
        (NewFileReaderUseCase (exampleConfig "v0.0.4" "").PathToMigrations)
        (afterSetup brokenRestoreWorld)
      = (.ok ("UPDATE lastMigration SET version = $1, name = $2", exampleDumpUseCase,
          exampleDump), afterDump brokenRestoreWorld) := by
  rfl

/-! ## The calls of a run -/

/-- A run that comes to apply a plan is the applying of that plan followed by the deferred
`conn.Close`. -/
theorem Run_of_plans {ω : Type} (o : Outside ω) (fs : FileSystem) (cfg : Config)
    (s s' : State ω) (plan : List MigrationGroup) (h : Run.plans o fs cfg s plan s') :
    Run o fs cfg s
      = Run.deferredClose o
          (Run.apply o cfg (NewFileReaderUseCase cfg.PathToMigrations)
            { repo := MigrationPostgresRepo.asRepo o }
            { IsVerbose := cfg.IsVerbose, PathToMigrations := cfg.PathToMigrations } plan s') := by
  obtain ⟨isInitModeON, currentMigration, ⟨hversion, hrequired, uc, s1, s2, hinit, hconnect,
    hmode, hcurrent⟩, hplan⟩ := h
  have hconnected : Run.connected o fs cfg s1
      = Run.apply o cfg (NewFileReaderUseCase cfg.PathToMigrations)
          { repo := MigrationPostgresRepo.asRepo o }
          { IsVerbose := cfg.IsVerbose, PathToMigrations := cfg.PathToMigrations } plan s' := by
    unfold Run.connected
    simp only [hinit, hmode, hcurrent]
    unfold MigrationDiskRepo.asRepo at hplan ⊢
    simp only [hplan]
  unfold Run
  simp only [hversion, hrequired, hconnect, hconnected, Bool.false_eq_true, if_false]

/-- The calls since a state, when the later calls are known. -/
theorem State.since_of_calls {ω : Type} (s s' : State ω) (added : List Call)
    (h : s'.calls = s.calls ++ added) : State.since s s' = added := by
  unfold State.since
  rw [h, List.drop_left]

/-- The body of the loop of `Migrate` on the repositories of `core.Run` makes at most one
call, the `Exec` of the script without arguments. -/
theorem Migrate.body_calls {ω : Type} (o : Outside ω) (repo : MigrationDiskRepo)
    (m : Migration) (s : State ω) :
    ∃ added, (Migrate.body (NewMigrateUseCase o repo) m s).2.calls = s.calls ++ added ∧
      ∀ c ∈ added, ∃ sql, c = .Exec sql [] := by
  unfold Migrate.body NewMigrateUseCase MigrationDiskRepo.GetSqlFromMigration
  simp only []
  rcases hread : ReadFile o (repo.PathToMigrations ++ "/" ++ m.VersionDb.String ++ "/" ++ m.Name
      ++ "." ++ "sql") s with f | sql
  · exact ⟨[], by simp, by simp⟩
  · refine ⟨[.Exec sql []], ?_, ?_⟩
    · simp only [MigrationPostgresRepo.ExecSql, State.call]
      rcases o.Exec sql [] s.outside with ⟨r, w⟩
      cases r <;> rfl
    · intro c hc
      exact ⟨sql, List.mem_singleton.mp hc⟩

/-- The inner loop of `Migrate` on the repositories of `core.Run` only makes calls `Exec`
without arguments. -/
theorem Migrate.migrations_calls {ω : Type} (o : Outside ω) (repo : MigrationDiskRepo) :
    ∀ (ms : List Migration) (s : State ω),
      ∃ added, (Migrate.migrations (NewMigrateUseCase o repo) ms s).2.calls = s.calls ++ added ∧
        ∀ c ∈ added, ∃ sql, c = .Exec sql []
  | [], s => ⟨[], by simp [Migrate.migrations], by simp⟩
  | m :: ms, s => by
    obtain ⟨a1, h1, h1'⟩ := Migrate.body_calls o repo m s
    rcases hbody : Migrate.body (NewMigrateUseCase o repo) m s with ⟨r, s1⟩
    rw [hbody] at h1
    rcases r with f | u
    · refine ⟨a1, ?_, h1'⟩
      rw [Migrate.migrations, hbody]
      exact h1
    · obtain ⟨a2, h2, h2'⟩ := Migrate.migrations_calls o repo ms s1
      refine ⟨a1 ++ a2, ?_, ?_⟩
      · rw [Migrate.migrations, hbody]
        simp only []
        rw [h2, h1, List.append_assoc]
      · intro c hc
        rcases List.mem_append.mp hc with hc | hc
        · exact h1' c hc
        · exact h2' c hc

/-- The calls of `Migrate` on the repositories of `core.Run` are calls `Exec` without
arguments. -/
theorem Migrate.groups_calls {ω : Type} (o : Outside ω) (repo : MigrationDiskRepo) :
    ∀ (plan : List MigrationGroup) (s : State ω),
      ∃ added, (Migrate.groups (NewMigrateUseCase o repo) plan s).2.calls = s.calls ++ added ∧
        ∀ c ∈ added, ∃ sql, c = .Exec sql []
  | [], s => ⟨[], by simp [Migrate.groups], by simp⟩
  | mg :: plan, s => by
    obtain ⟨a1, h1, h1'⟩ := Migrate.migrations_calls o repo mg.Migrations s
    rcases hinner : Migrate.migrations (NewMigrateUseCase o repo) mg.Migrations s with ⟨r, s1⟩
    rw [hinner] at h1
    rcases r with f | u
    · refine ⟨a1, ?_, h1'⟩
      rw [Migrate.groups, hinner]
      exact h1
    · obtain ⟨a2, h2, h2'⟩ := Migrate.groups_calls o repo plan s1
      refine ⟨a1 ++ a2, ?_, ?_⟩
      · rw [Migrate.groups, hinner]
        simp only []
        rw [h2, h1, List.append_assoc]
      · intro c hc
        rcases List.mem_append.mp hc with hc | hc
        · exact h1' c hc
        · exact h2' c hc

/-- What a successful `NewDumpUseCase` on the infrastructure of the outside returns: the
directory `dumps` next to the executable was made, which is the one call. -/
theorem NewDumpUseCase_ok {ω : Type} (o : Outside ω) (infra : DumpInfrastructure (State ω))
    (s s1 : State ω) (ucDump : DumpUseCase (State ω))
    (h : NewDumpUseCase o infra s = (.ok ucDump, s1)) :
    ucDump.infrastructure = infra ∧
    s1.calls = s.calls ++ [.MkdirAll ucDump.pathForSaveDumps] := by
  unfold NewDumpUseCase getPathForSaveDumps at h
  rcases hexe : o.Executable s.outside with e | pathToExecutable
  · rw [hexe] at h
    simp at h
  · rw [hexe] at h
    simp only [State.call] at h
    rcases hmk : o.MkdirAll (o.Dir pathToExecutable ++ "/" ++ "dumps") s.outside with ⟨r, w⟩
    rw [hmk] at h
    rcases r with e | u
    · simp [asError] at h
    · simp only [asError, Prod.mk.injEq, Except.ok.injEq] at h
      obtain ⟨huc, hs1⟩ := h
      subst huc
      subst hs1
      exact ⟨rfl, rfl⟩

/-- What a successful `Run.createDump` returns: the text of the update template, the dump use
case on the infrastructure of the outside, and the dump that the outside created; the two
calls are `MkdirAll` and `Create`. -/
theorem Run.createDump_ok {ω : Type} (o : Outside ω) (cfg : Config)
    (ucFileReader : FileReaderUseCase) (s s2 : State ω) (sqlU : String)
    (ucDump : DumpUseCase (State ω)) (newDump : Dump)
    (h : Run.createDump o cfg ucFileReader s = (.ok (sqlU, ucDump, newDump), s2)) :
    ucFileReader.GetSqlFromUpdateCurrentMigrationFile o s = .ok sqlU ∧
    ucDump.infrastructure = o.DumpInfrastructure ∧
    s2.calls = s.calls
      ++ [.MkdirAll ucDump.pathForSaveDumps, .Create ucDump.pathForSaveDumps] := by
  unfold Run.createDump at h
  rcases hsql : ucFileReader.GetSqlFromUpdateCurrentMigrationFile o s with f | sql
  · rw [hsql] at h
    rcases f with e | e | e <;> simp at h
  rw [hsql] at h
  simp only [] at h
  rcases hinfra : NewDumpPostgres o cfg.DbEntry s with f | infra
  · rw [hinfra] at h
    rcases f with e | e | e <;> simp at h
  rw [hinfra] at h
  simp only [] at h
  have hinfra' : infra = o.DumpInfrastructure := by
    unfold NewDumpPostgres at hinfra
    rcases hexe : o.Executable s.outside with e | p
    · rw [hexe] at hinfra
      simp at hinfra
    · rw [hexe] at hinfra
      simp only [Except.ok.injEq] at hinfra
      exact hinfra.symm
  rcases huc : NewDumpUseCase o infra s with ⟨r, s1⟩
  rw [huc] at h
  rcases r with f | uc
  · rcases f with e | e | e <;> simp at h
  simp only [] at h
  obtain ⟨hucinfra, hs1⟩ := NewDumpUseCase_ok o infra s s1 uc huc
  have hcreate : uc.Create s1
      = (asError (o.Create uc.pathForSaveDumps s1.outside).1,
          { outside := (o.Create uc.pathForSaveDumps s1.outside).2,
            calls := s1.calls ++ [.Create uc.pathForSaveDumps] }) := by
    unfold DumpUseCase.Create
    rw [hucinfra, hinfra']
    simp only [Outside.DumpInfrastructure, State.call]
    rcases o.Create uc.pathForSaveDumps s1.outside with ⟨r, w⟩
    cases r <;> rfl
  rw [hcreate] at h
  rcases hdump : o.Create uc.pathForSaveDumps s1.outside with ⟨r, w⟩
  rw [hdump] at h
  rcases r with e | d
  · simp [asError] at h
  · simp only [asError, Prod.mk.injEq, Except.ok.injEq] at h
    obtain ⟨⟨h1, h2, h3⟩, h4⟩ := h
    subst h1 h2 h3 h4
    refine ⟨rfl, ?_, ?_⟩
    · rw [hucinfra, hinfra']
    · simp only [hs1, List.append_assoc, List.singleton_append]

/-- The block `Run.restore` on the infrastructure of the outside: the connection is closed and
the restore utility is run; when it succeeds the dump file is removed and the block returns,
when it fails the dump file is left and the process ends with `log.Fatalf`. -/
theorem Run.restore_spec {ω : Type} (o : Outside ω) (ucDump : DumpUseCase (State ω))
    (newDump : Dump) (s : State ω) (hinfra : ucDump.infrastructure = o.DumpInfrastructure) :
    ((o.Restore newDump (o.Close s.outside)).1 = .ok () →
      (Run.restore o ucDump newDump s).1 = .ok () ∧
      (Run.restore o ucDump newDump s).2.calls
        = s.calls ++ [.Close, .Restore newDump, .Remove newDump.Path]) ∧
    (∀ e, (o.Restore newDump (o.Close s.outside)).1 = .error e →
      (Run.restore o ucDump newDump s).1
        = .error (.fatal ("Error when restoring database from dump: " ++ e ++ ": "
            ++ ucDump.GetErrorForBadRestore newDump)) ∧
      (Run.restore o ucDump newDump s).2.calls = s.calls ++ [.Close, .Restore newDump]) := by
  unfold Run.restore DumpUseCase.RestoreDatabaseFromDumpAndDeleteDump
  rw [hinfra]
  simp only [Outside.DumpInfrastructure, State.call, connClose, osRemove]
  rcases o.Restore newDump (o.Close s.outside) with ⟨r, w⟩
  rcases r with e | u
  · refine ⟨?_, fun e' he => ?_⟩
    · intro h
      cases h
    · simp only [Except.error.injEq] at he
      subst he
      simp [asError]
  · refine ⟨fun _ => ?_, ?_⟩
    · simp only [asError]
      rcases hremove : o.Remove newDump.Path w with ⟨r', w'⟩
      rcases r' with e | u <;> simp
    · intro e' he
      cases he

/-- After an error of `Migrate`, `Run.migrate` is the block `Run.restore` in the state that
`Migrate` left. -/
theorem Run.migrate_of_error {ω : Type} (o : Outside ω)
    (ucMigrationCurrent : MigrationCurrentUseCase (State ω)) (repo : MigrationDiskRepo)
    (sqlU : String) (ucDump : DumpUseCase (State ω)) (newDump : Dump)
    (plan : List MigrationGroup) (s : State ω) (e : String)
    (h : ((NewMigrateUseCase o repo).Migrate plan s).1 = .error (.error e)) :
    Run.migrate o ucMigrationCurrent repo sqlU ucDump newDump plan s
      = Run.restore o ucDump newDump ((NewMigrateUseCase o repo).Migrate plan s).2 := by
  unfold Run.migrate
  rcases hm : (NewMigrateUseCase o repo).Migrate plan s with ⟨r, s3⟩
  rw [hm] at h
  simp only at h
  subst h
  rfl

/-- The state after the call of `UpdateCurrentMigration` of `core.Run` in the state `s`. -/
theorem UpdateCurrentMigration_call {ω : Type} (o : Outside ω) (sqlU : String)
    (last : Migration) (s : State ω) :
    MigrationCurrentUseCase.UpdateCurrentMigration { repo := MigrationPostgresRepo.asRepo o }
        sqlU last s
      = (asError (o.Exec sqlU [last.VersionDb.String, last.Name] s.outside).1,
          { outside := (o.Exec sqlU [last.VersionDb.String, last.Name] s.outside).2,
            calls := s.calls ++ [.Exec sqlU [last.VersionDb.String, last.Name]] }) := by
  unfold MigrationCurrentUseCase.UpdateCurrentMigration
  simp only [MigrationPostgresRepo.asRepo, MigrationPostgresRepo.UpdateCurrentMigration,
    migrationDomainToRepo, State.call]
  rcases o.Exec sqlU [last.VersionDb.String, last.Name] s.outside with ⟨r, w⟩
  cases r <;> rfl

/-- After `Migrate` without error and a failed `UpdateCurrentMigration`, `Run.migrate` is the
block `Run.restore` in the state that the update left. -/
theorem Run.migrate_of_update_error {ω : Type} (o : Outside ω) (repo : MigrationDiskRepo)
    (sqlU : String) (ucDump : DumpUseCase (State ω)) (newDump : Dump)
    (plan : List MigrationGroup) (s : State ω) (last : Migration) (e : String)
    (h : ((NewMigrateUseCase o repo).Migrate plan s).1 = .ok ())
    (hlast : Run.lastAppliedMigration plan = .ok last)
    (hupdate : (o.Exec sqlU [last.VersionDb.String, last.Name]
      ((NewMigrateUseCase o repo).Migrate plan s).2.outside).1 = .error e) :
    Run.migrate o { repo := MigrationPostgresRepo.asRepo o } repo sqlU ucDump newDump plan s
      = Run.restore o ucDump newDump
          { outside := (o.Exec sqlU [last.VersionDb.String, last.Name]
              ((NewMigrateUseCase o repo).Migrate plan s).2.outside).2,
            calls := ((NewMigrateUseCase o repo).Migrate plan s).2.calls
              ++ [.Exec sqlU [last.VersionDb.String, last.Name]] } := by
  unfold Run.migrate
  rcases hm : (NewMigrateUseCase o repo).Migrate plan s with ⟨r, s3⟩
  rw [hm] at h hupdate
  simp only at h hupdate
  subst h
  simp only [hlast, UpdateCurrentMigration_call, hupdate, asError]

/-- After `Migrate` and `UpdateCurrentMigration` without error, `Run.migrate` removes the dump
file and returns; the connection is closed when the removal succeeded. -/
theorem Run.migrate_of_update_ok {ω : Type} (o : Outside ω) (repo : MigrationDiskRepo)
    (sqlU : String) (ucDump : DumpUseCase (State ω)) (newDump : Dump)
    (plan : List MigrationGroup) (s : State ω) (last : Migration)
    (h : ((NewMigrateUseCase o repo).Migrate plan s).1 = .ok ())
    (hlast : Run.lastAppliedMigration plan = .ok last)
    (hupdate : (o.Exec sqlU [last.VersionDb.String, last.Name]
      ((NewMigrateUseCase o repo).Migrate plan s).2.outside).1 = .ok ()) :
    (Run.migrate o { repo := MigrationPostgresRepo.asRepo o } repo sqlU ucDump newDump
      plan s).1 = .ok () ∧
    ∃ closing : List Call, (closing = [] ∨ closing = [.Close]) ∧
      (Run.migrate o { repo := MigrationPostgresRepo.asRepo o } repo sqlU ucDump newDump
        plan s).2.calls
        = ((NewMigrateUseCase o repo).Migrate plan s).2.calls
          ++ [.Exec sqlU [last.VersionDb.String, last.Name], .Remove newDump.Path]
          ++ closing := by
  unfold Run.migrate
  rcases hm : (NewMigrateUseCase o repo).Migrate plan s with ⟨r, s3⟩
  rw [hm] at h hupdate
  simp only at h hupdate
  subst h
  simp only [hlast, UpdateCurrentMigration_call, hupdate, asError, osRemove, State.call]
  rcases hremove : o.Remove newDump.Path
    (o.Exec sqlU [last.VersionDb.String, last.Name] s3.outside).2 with ⟨r', w'⟩
  rcases r' with e | u
  · exact ⟨rfl, [], Or.inl rfl, by simp⟩
  · exact ⟨rfl, [.Close], Or.inr rfl, by simp [connClose]⟩

/-- The calls of `isInitMode` on the repository of `core.Run`: at most the probe. -/
theorem isInitMode_calls {ω : Type} (o : Outside ω) (ucFileReader : FileReaderUseCase)
    (s : State ω) :
    ∃ added, (isInitMode o ucFileReader { repo := MigrationPostgresRepo.asRepo o } s).2.calls
        = s.calls ++ added ∧ ∀ c ∈ added, c.isSetup = true := by
  unfold isInitMode
  by_cases hexists : ucFileReader.IsExistHasCurrentMigrationFile o s = true
  · simp only [hexists, Bool.not_true, Bool.false_eq_true, if_false]
    rcases hread : ucFileReader.GetSqlFromHasCurrentMigrationFile o s with f | sql
    · refine ⟨[], ?_, by simp⟩
      rcases f with e | e | e <;> simp
    · refine ⟨[.QueryRowScan sql], ?_, by simp [Call.isSetup]⟩
      simp only [MigrationCurrentUseCase.HasCurrentMigration, MigrationPostgresRepo.asRepo,
        MigrationPostgresRepo.HasCurrentMigration, State.call, asError]
      rcases hprobe : o.QueryRowScan sql s.outside with ⟨r, w⟩
      rcases r with e | b
      · simp
      · cases b <;> simp
  · simp only [Bool.not_eq_true] at hexists
    exact ⟨[], by simp [hexists], by simp⟩

/-- The calls of `determinationCurrentMigration` on the repository of `core.Run`: at most the
query of the current record. -/
theorem determinationCurrentMigration_calls {ω : Type} (o : Outside ω) (isInitMod : Bool)
    (ucInitMigration : InitMigrationUseCase) (ucFileReader : FileReaderUseCase) (s : State ω) :
    ∃ added, (determinationCurrentMigration o isInitMod ucInitMigration ucFileReader
        { repo := MigrationPostgresRepo.asRepo o } s).2.calls
        = s.calls ++ added ∧ ∀ c ∈ added, c.isSetup = true := by
  unfold determinationCurrentMigration
  cases isInitMod
  · simp only [Bool.false_eq_true, if_false]
    rcases hread : ucFileReader.GetSqlFromGetCurrentMigrationFile o s with f | sql
    · refine ⟨[], ?_, by simp⟩
      rcases f with e | e | e <;> simp
    · refine ⟨[.QueryCollectOneRow sql], ?_, by simp [Call.isSetup]⟩
      simp only [MigrationCurrentUseCase.GetCurrentMigration, MigrationPostgresRepo.asRepo,
        MigrationPostgresRepo.GetCurrentMigration, State.call, asError]
      rcases hquery : o.QueryCollectOneRow sql s.outside with ⟨r, w⟩
      rcases r with e | row
      · simp
      · simp only []
        rcases migrationRepoToDomain row with f | m
        · rcases f with e | e | e <;> simp
        · simp
  · exact ⟨[], by simp, by simp⟩

/-- The calls of a run up to the plan: the connecting, and at most the probe and the query of
the current record. -/
theorem Run.plans_calls {ω : Type} (o : Outside ω) (fs : FileSystem) (cfg : Config)
    (s s' : State ω) (plan : List MigrationGroup) (h : Run.plans o fs cfg s plan s') :
    ∃ added, s'.calls = s.calls ++ added ∧ ∀ c ∈ added, c.isSetup = true := by
  obtain ⟨isInitModeON, currentMigration, ⟨-, -, uc, s1, s2, -, hconnect, hmode, hcurrent⟩, -⟩ := h
  have h1 : ∃ connString, s1.calls = s.calls ++ [.Connect connString] := by
    unfold OpenConnect at hconnect
    simp only [State.call, Prod.mk.injEq] at hconnect
    exact ⟨_, by rw [← hconnect.2]⟩
  obtain ⟨connString, h1⟩ := h1
  obtain ⟨a2, h2, h2'⟩ := isInitMode_calls o (NewFileReaderUseCase cfg.PathToMigrations) s1
  rw [hmode] at h2
  obtain ⟨a3, h3, h3'⟩ := determinationCurrentMigration_calls o isInitModeON uc
    (NewFileReaderUseCase cfg.PathToMigrations) s2
  rw [hcurrent] at h3
  refine ⟨[.Connect connString] ++ a2 ++ a3, ?_, ?_⟩
  · simp only [] at h2 h3
    rw [h3, h2, h1]
    simp only [List.append_assoc]
  · intro c hc
    simp only [List.append_assoc, List.mem_append, List.mem_singleton] at hc
    rcases hc with hc | hc | hc
    · rw [hc]
      rfl
    · exact h2' c hc
    · exact h3' c hc

/-- A failure of the body of the loop of `Migrate` on the repositories of `core.Run` is a Go
error value. -/
theorem Migrate.body_failure {ω : Type} (o : Outside ω) (repo : MigrationDiskRepo)
    (m : Migration) (s s1 : State ω) (f : Failure)
    (h : Migrate.body (NewMigrateUseCase o repo) m s = (.error f, s1)) : ∃ e, f = .error e := by
  unfold Migrate.body NewMigrateUseCase MigrationDiskRepo.GetSqlFromMigration at h
  simp only [ReadFile, MigrationPostgresRepo.ExecSql, State.call, asError] at h
  rcases hread : o.ReadFile (repo.PathToMigrations ++ "/" ++ m.VersionDb.String ++ "/" ++ m.Name
      ++ "." ++ "sql") s.outside with e | sql
  · rw [hread] at h
    simp only [Prod.mk.injEq, Except.error.injEq] at h
    exact ⟨e, h.1.symm⟩
  · rw [hread] at h
    simp only [] at h
    rcases hexec : o.Exec sql [] s.outside with ⟨r, w⟩
    rw [hexec] at h
    rcases r with e | u
    · simp only [Prod.mk.injEq, Except.error.injEq] at h
      exact ⟨e, h.1.symm⟩
    · simp at h

/-- A failure of `Migrate` on the repositories of `core.Run` is a Go error value. -/
theorem Migrate.failure {ω : Type} (o : Outside ω) (repo : MigrationDiskRepo)
    (plan : List MigrationGroup) (s : State ω) (f : Failure)
    (h : ((NewMigrateUseCase o repo).Migrate plan s).1 = .error f) : ∃ e, f = .error e := by
  obtain ⟨done, rest, s', -, -, hend⟩ := Migrate.groups_stops (NewMigrateUseCase o repo) plan s
  have h' : (Migrate.groups (NewMigrateUseCase o repo) plan s).1 = .error f := h
  rcases hend with ⟨-, hres⟩ | ⟨m, later, f', s'', -, hfail, hres⟩
  · rw [hres] at h'
    cases h'
  · rw [hres] at h'
    simp only [Except.error.injEq] at h'
    subst h'
    exact Migrate.body_failure o repo m s' s'' f' hfail

/-- The six ways in which `Run.migrate` ends on the repositories and the dump infrastructure of
`core.Run`, with the result `r` and the calls made after `Migrate` returned `rm`: a failed
`Migrate` followed by a restore that succeeds or fails; an empty plan; a failed
`UpdateCurrentMigration` followed by a restore that succeeds or fails; and the success of
both, followed by the removal of the dump file. -/
theorem Run.migrate_outcomes {ω : Type} (o : Outside ω) (repo : MigrationDiskRepo)
    (sqlU : String) (ucDump : DumpUseCase (State ω)) (newDump : Dump)
    (plan : List MigrationGroup) (s : State ω) (rm r : Result Unit × State ω)
    (hinfra : ucDump.infrastructure = o.DumpInfrastructure)
    (hrm : (NewMigrateUseCase o repo).Migrate plan s = rm)
    (hr : Run.migrate o { repo := MigrationPostgresRepo.asRepo o } repo sqlU ucDump newDump
      plan s = r) :
    (∃ e, rm.1 = .error (.error e) ∧
      (o.Restore newDump (o.Close rm.2.outside)).1 = .ok () ∧ r.1 = .ok () ∧
      r.2.calls = rm.2.calls ++ [.Close, .Restore newDump, .Remove newDump.Path]) ∨
    (∃ e e', rm.1 = .error (.error e) ∧
      (o.Restore newDump (o.Close rm.2.outside)).1 = .error e' ∧
      r.1 = .error (.fatal ("Error when restoring database from dump: " ++ e' ++ ": "
        ++ ucDump.GetErrorForBadRestore newDump)) ∧
      r.2.calls = rm.2.calls ++ [.Close, .Restore newDump]) ∨
    (∃ f, rm.1 = .ok () ∧ Run.lastAppliedMigration plan = .error f ∧ r = (.error f, rm.2)) ∨
    (∃ last e, rm.1 = .ok () ∧ Run.lastAppliedMigration plan = .ok last ∧
      (o.Exec sqlU [last.VersionDb.String, last.Name] rm.2.outside).1 = .error e ∧
      (o.Restore newDump (o.Close
        (o.Exec sqlU [last.VersionDb.String, last.Name] rm.2.outside).2)).1 = .ok () ∧
      r.1 = .ok () ∧
      r.2.calls = rm.2.calls ++ [.Exec sqlU [last.VersionDb.String, last.Name], .Close,
        .Restore newDump, .Remove newDump.Path]) ∨
    (∃ last e e', rm.1 = .ok () ∧ Run.lastAppliedMigration plan = .ok last ∧
      (o.Exec sqlU [last.VersionDb.String, last.Name] rm.2.outside).1 = .error e ∧
      (o.Restore newDump (o.Close
        (o.Exec sqlU [last.VersionDb.String, last.Name] rm.2.outside).2)).1 = .error e' ∧
      r.1 = .error (.fatal ("Error when restoring database from dump: " ++ e' ++ ": "
        ++ ucDump.GetErrorForBadRestore newDump)) ∧
      r.2.calls = rm.2.calls ++ [.Exec sqlU [last.VersionDb.String, last.Name], .Close,
        .Restore newDump]) ∨
    (∃ last closing, rm.1 = .ok () ∧ Run.lastAppliedMigration plan = .ok last ∧
      (o.Exec sqlU [last.VersionDb.String, last.Name] rm.2.outside).1 = .ok () ∧
      r.1 = .ok () ∧ (closing = [] ∨ closing = [.Close]) ∧
      r.2.calls = rm.2.calls ++ [.Exec sqlU [last.VersionDb.String, last.Name],
        .Remove newDump.Path] ++ closing) := by
  subst hrm hr
  rcases hm : ((NewMigrateUseCase o repo).Migrate plan s).1 with f | u
  · obtain ⟨e, he⟩ := Migrate.failure o repo plan s f hm
    subst he
    rw [Run.migrate_of_error o _ repo sqlU ucDump newDump plan s e hm]
    have hspec := Run.restore_spec o ucDump newDump
      ((NewMigrateUseCase o repo).Migrate plan s).2 hinfra
    rcases hrestore : (o.Restore newDump
      (o.Close ((NewMigrateUseCase o repo).Migrate plan s).2.outside)).1 with e' | u
    · obtain ⟨h1, h2⟩ := hspec.2 e' hrestore
      exact Or.inr (Or.inl ⟨e, e', rfl, rfl, h1, h2⟩)
    · obtain ⟨h1, h2⟩ := hspec.1 hrestore
      exact Or.inl ⟨e, rfl, rfl, h1, h2⟩
  · rcases hlast : Run.lastAppliedMigration plan with f | last
    · refine Or.inr (Or.inr (Or.inl ⟨f, rfl, rfl, ?_⟩))
      unfold Run.migrate
      rcases hm' : (NewMigrateUseCase o repo).Migrate plan s with ⟨r, s3⟩
      rw [hm'] at hm
      simp only at hm
      subst hm
      simp only [hlast]
    · rcases hupdate : (o.Exec sqlU [last.VersionDb.String, last.Name]
        ((NewMigrateUseCase o repo).Migrate plan s).2.outside).1 with e | u
      · rw [Run.migrate_of_update_error o repo sqlU ucDump newDump plan s last e hm hlast hupdate]
        have hspec := Run.restore_spec o ucDump newDump
          { outside := (o.Exec sqlU [last.VersionDb.String, last.Name]
              ((NewMigrateUseCase o repo).Migrate plan s).2.outside).2,
            calls := ((NewMigrateUseCase o repo).Migrate plan s).2.calls
              ++ [.Exec sqlU [last.VersionDb.String, last.Name]] } hinfra
        simp only [List.append_assoc, List.singleton_append] at hspec
        rcases hrestore : (o.Restore newDump (o.Close
          (o.Exec sqlU [last.VersionDb.String, last.Name]
            ((NewMigrateUseCase o repo).Migrate plan s).2.outside).2)).1 with e' | u
        · obtain ⟨h1, h2⟩ := hspec.2 e' hrestore
          exact Or.inr (Or.inr (Or.inr (Or.inr (Or.inl
            ⟨last, e, e', rfl, rfl, hupdate, hrestore, h1, h2⟩))))
        · obtain ⟨h1, h2⟩ := hspec.1 hrestore
          exact Or.inr (Or.inr (Or.inr (Or.inl ⟨last, e, rfl, rfl, hupdate, hrestore, h1, h2⟩)))
      · obtain ⟨h1, closing, hclosing, h2⟩ :=
          Run.migrate_of_update_ok o repo sqlU ucDump newDump plan s last hm hlast hupdate
        exact Or.inr (Or.inr (Or.inr (Or.inr (Or.inr
          ⟨last, closing, rfl, rfl, hupdate, h1, hclosing, h2⟩))))

/-- The deferred `conn.Close` keeps the result and adds at most the call `Close`. -/
theorem Run.deferredClose_spec {ω : Type} (o : Outside ω) (r : Result Unit × State ω) :
    (Run.deferredClose o r).1 = r.1 ∧
    ∃ closing : List Call, (closing = [] ∨ closing = [.Close]) ∧
      (Run.deferredClose o r).2.calls = r.2.calls ++ closing := by
  rcases r with ⟨r, s⟩
  rcases r with (e | e | e) | u
  · exact ⟨rfl, [.Close], Or.inr rfl, rfl⟩
  · exact ⟨rfl, [], Or.inl rfl, by simp [Run.deferredClose]⟩
  · exact ⟨rfl, [.Close], Or.inr rfl, rfl⟩
  · exact ⟨rfl, [.Close], Or.inr rfl, rfl⟩

/-- A run that comes to apply a plan and creates the dump is `Run.migrate` followed by the
deferred `conn.Close`; the dump use case works on the infrastructure of the outside and the
calls made up to there are calls of the setup. -/
theorem Run_of_dump {ω : Type} (o : Outside ω) (fs : FileSystem) (cfg : Config)
    (s s0 s2 : State ω) (plan : List MigrationGroup) (sqlU : String)
    (ucDump : DumpUseCase (State ω)) (newDump : Dump)
    (hplans : Run.plans o fs cfg s plan s0)
    (hdump : Run.createDump o cfg (NewFileReaderUseCase cfg.PathToMigrations) s0
      = (.ok (sqlU, ucDump, newDump), s2)) :
    Run o fs cfg s
      = Run.deferredClose o
          (Run.migrate o { repo := MigrationPostgresRepo.asRepo o }
            { IsVerbose := cfg.IsVerbose, PathToMigrations := cfg.PathToMigrations }
            sqlU ucDump newDump plan s2) ∧
    ucDump.infrastructure = o.DumpInfrastructure ∧
    ∃ setup, s2.calls = s.calls ++ setup ∧ ∀ c ∈ setup, c.isSetup = true := by
  obtain ⟨-, hinfra, hcalls⟩ := Run.createDump_ok o cfg _ s0 s2 sqlU ucDump newDump hdump
  obtain ⟨pre, hpre, hpre'⟩ := Run.plans_calls o fs cfg s s0 plan hplans
  refine ⟨?_, hinfra, pre ++ [.MkdirAll ucDump.pathForSaveDumps,
    .Create ucDump.pathForSaveDumps], ?_, ?_⟩
  · rw [Run_of_plans o fs cfg s s0 plan hplans]
    unfold Run.apply
    rw [hdump]
  · rw [hcalls, hpre, List.append_assoc]
  · intro c hc
    simp only [List.mem_append, List.mem_cons, List.mem_singleton, List.not_mem_nil,
      or_false] at hc
    rcases hc with hc | hc | hc
    · exact hpre' c hc
    · rw [hc]
      rfl
    · rw [hc]
      rfl

/-- After a return without error the deferred `conn.Close` runs. -/
theorem Run.deferredClose_of_ok {ω : Type} (o : Outside ω) (r : Result Unit × State ω)
    (h : r.1 = .ok ()) :
    (Run.deferredClose o r).1 = .ok () ∧
    (Run.deferredClose o r).2.calls = r.2.calls ++ [.Close] := by
  rcases r with ⟨r, s⟩
  simp only at h
  subst h
  exact ⟨rfl, rfl⟩

/-- After a `log.Fatalf` the deferred `conn.Close` does not run. -/
theorem Run.deferredClose_of_fatal {ω : Type} (o : Outside ω) (r : Result Unit × State ω)
    (m : String) (h : r.1 = .error (.fatal m)) : Run.deferredClose o r = r := by
  rcases r with ⟨r, s⟩
  simp only at h
  subst h
  rfl

/-- The calls of a whole run that comes to apply a plan and creates the dump: the calls of the
setup, the calls of `Migrate`, which are calls `Exec` without arguments, and then one of the
six endings of `Run.migrate`, followed by the deferred `conn.Close` unless the process ended
with `log.Fatalf`. -/
theorem Run_trace {ω : Type} (o : Outside ω) (fs : FileSystem) (cfg : Config)
    (s s0 s2 : State ω) (plan : List MigrationGroup) (sqlU : String)
    (ucDump : DumpUseCase (State ω)) (newDump : Dump) (rm r : Result Unit × State ω)
    (hplans : Run.plans o fs cfg s plan s0)
    (hdump : Run.createDump o cfg (NewFileReaderUseCase cfg.PathToMigrations) s0
      = (.ok (sqlU, ucDump, newDump), s2))
    (hrm : (NewMigrateUseCase o
      { IsVerbose := cfg.IsVerbose, PathToMigrations := cfg.PathToMigrations }).Migrate plan s2
      = rm)
    (hr : Run o fs cfg s = r) :
    ∃ setup migrated tail : List Call,
      s2.calls = s.calls ++ setup ∧ (∀ c ∈ setup, c.isSetup = true) ∧
      rm.2.calls = s2.calls ++ migrated ∧ (∀ c ∈ migrated, ∃ sql, c = .Exec sql []) ∧
      r.2.calls = rm.2.calls ++ tail ∧
      ((∃ e, rm.1 = .error (.error e) ∧
          (o.Restore newDump (o.Close rm.2.outside)).1 = .ok () ∧ r.1 = .ok () ∧
          tail = [.Close, .Restore newDump, .Remove newDump.Path, .Close]) ∨
        (∃ e e', rm.1 = .error (.error e) ∧
          (o.Restore newDump (o.Close rm.2.outside)).1 = .error e' ∧
          r.1 = .error (.fatal ("Error when restoring database from dump: " ++ e' ++ ": "
            ++ ucDump.GetErrorForBadRestore newDump)) ∧
          tail = [.Close, .Restore newDump]) ∨
        (∃ f, rm.1 = .ok () ∧ Run.lastAppliedMigration plan = .error f ∧ r.1 = .error f ∧
          (tail = [] ∨ tail = [.Close])) ∨
        (∃ last e, rm.1 = .ok () ∧ Run.lastAppliedMigration plan = .ok last ∧
          (o.Exec sqlU [last.VersionDb.String, last.Name] rm.2.outside).1 = .error e ∧
          (o.Restore newDump (o.Close
            (o.Exec sqlU [last.VersionDb.String, last.Name] rm.2.outside).2)).1 = .ok () ∧
          r.1 = .ok () ∧
          tail = [.Exec sqlU [last.VersionDb.String, last.Name], .Close, .Restore newDump,
            .Remove newDump.Path, .Close]) ∨
        (∃ last e e', rm.1 = .ok () ∧ Run.lastAppliedMigration plan = .ok last ∧
          (o.Exec sqlU [last.VersionDb.String, last.Name] rm.2.outside).1 = .error e ∧
          (o.Restore newDump (o.Close
            (o.Exec sqlU [last.VersionDb.String, last.Name] rm.2.outside).2)).1 = .error e' ∧
          r.1 = .error (.fatal ("Error when restoring database from dump: " ++ e' ++ ": "
            ++ ucDump.GetErrorForBadRestore newDump)) ∧
          tail = [.Exec sqlU [last.VersionDb.String, last.Name], .Close, .Restore newDump]) ∨
        (∃ last, rm.1 = .ok () ∧ Run.lastAppliedMigration plan = .ok last ∧
          (o.Exec sqlU [last.VersionDb.String, last.Name] rm.2.outside).1 = .ok () ∧
          r.1 = .ok () ∧
          (tail = [.Exec sqlU [last.VersionDb.String, last.Name], .Remove newDump.Path, .Close] ∨
            tail = [.Exec sqlU [last.VersionDb.String, last.Name], .Remove newDump.Path,
              .Close, .Close]))) := by
  obtain ⟨hrun, hinfra, setup, hsetup, hsetup'⟩ :=
    Run_of_dump o fs cfg s s0 s2 plan sqlU ucDump newDump hplans hdump
  obtain ⟨migrated, hmigrated, hmigrated'⟩ := Migrate.groups_calls o
    { IsVerbose := cfg.IsVerbose, PathToMigrations := cfg.PathToMigrations } plan s2
  have hmigrated2 : rm.2.calls = s2.calls ++ migrated := by
    rw [← hrm]
    exact hmigrated
  rw [hrun] at hr
  subst hr
  have hout := Run.migrate_outcomes o
    { IsVerbose := cfg.IsVerbose, PathToMigrations := cfg.PathToMigrations } sqlU ucDump newDump
    plan s2 rm _ hinfra hrm rfl
  rcases hout with ⟨e, h1, h2, h3, h4⟩ | ⟨e, e', h1, h2, h3, h4⟩ | ⟨f, h1, h2, h3⟩ |
    ⟨last, e, h1, h2, h3, h4, h5, h6⟩ | ⟨last, e, e', h1, h2, h3, h4, h5, h6⟩ |
    ⟨last, closing, h1, h2, h3, h4, h5, h6⟩
  · obtain ⟨hc1, hc2⟩ := Run.deferredClose_of_ok o _ h3
    refine ⟨setup, migrated, [.Close, .Restore newDump, .Remove newDump.Path, .Close], hsetup,
      hsetup', hmigrated2, hmigrated', ?_, Or.inl ⟨e, h1, h2, hc1, rfl⟩⟩
    rw [hc2, h4, List.append_assoc]
    rfl
  · rw [Run.deferredClose_of_fatal o _ _ h3]
    exact ⟨setup, migrated, [.Close, .Restore newDump], hsetup, hsetup', hmigrated2,
      hmigrated', h4, Or.inr (Or.inl ⟨e, e', h1, h2, h3, rfl⟩)⟩
  · obtain ⟨hd1, closing, hclosing, hd2⟩ := Run.deferredClose_spec o
      (Run.migrate o { repo := MigrationPostgresRepo.asRepo o }
        { IsVerbose := cfg.IsVerbose, PathToMigrations := cfg.PathToMigrations }
        sqlU ucDump newDump plan s2)
    refine ⟨setup, migrated, closing, hsetup, hsetup', hmigrated2, hmigrated', ?_,
      Or.inr (Or.inr (Or.inl ⟨f, h1, h2, ?_, hclosing⟩))⟩
    · rw [hd2, h3]
    · rw [hd1, h3]
  · obtain ⟨hc1, hc2⟩ := Run.deferredClose_of_ok o _ h5
    refine ⟨setup, migrated, [.Exec sqlU [last.VersionDb.String, last.Name], .Close,
      .Restore newDump, .Remove newDump.Path, .Close], hsetup, hsetup', hmigrated2,
      hmigrated', ?_, Or.inr (Or.inr (Or.inr (Or.inl ⟨last, e, h1, h2, h3, h4, hc1, rfl⟩)))⟩
    rw [hc2, h6, List.append_assoc]
    rfl
  · rw [Run.deferredClose_of_fatal o _ _ h5]
    exact ⟨setup, migrated, [.Exec sqlU [last.VersionDb.String, last.Name], .Close,
      .Restore newDump], hsetup, hsetup', hmigrated2, hmigrated', h6,
      Or.inr (Or.inr (Or.inr (Or.inr (Or.inl ⟨last, e, e', h1, h2, h3, h4, h5, rfl⟩))))⟩
  · obtain ⟨hc1, hc2⟩ := Run.deferredClose_of_ok o _ h4
    refine ⟨setup, migrated, [.Exec sqlU [last.VersionDb.String, last.Name],
      .Remove newDump.Path] ++ closing ++ [.Close], hsetup, hsetup', hmigrated2,
      hmigrated', ?_, Or.inr (Or.inr (Or.inr (Or.inr (Or.inr ⟨last, h1, h2, h3, hc1, ?_⟩))))⟩
    · rw [hc2, h6]
      simp only [List.append_assoc]
    · rcases h5 with h5 | h5
      · left
        rw [h5]
        rfl
      · right
        rw [h5]
        rfl

/-- When `Migrate` returns no error, every migration of the flattened plan was applied and the
state it returns is the one they lead to. -/
theorem Migrate.applied_of_ok {σ : Type} (uc : MigrateUseCase σ) (plan : List MigrationGroup)
    (s : σ) (h : (uc.Migrate plan s).1 = .ok ()) :
    Migrate.applied uc (flattenedPlan plan) s (uc.Migrate plan s).2 := by
  obtain ⟨done, rest, s', hsplit, happlied, hend⟩ := Migrate.groups_stops uc plan s
  have h' : (Migrate.groups uc plan s).1 = .ok () := h
  show Migrate.applied uc (flattenedPlan plan) s (Migrate.groups uc plan s).2
  rcases hend with ⟨hrest, hres⟩ | ⟨m, later, f, s'', -, -, hres⟩
  · rw [hres, hsplit, hrest, List.append_nil]
    exact happlied
  · rw [hres] at h'
    cases h'

/-- A call of the setup does not write the record. -/
theorem Call.isUpdate_of_isSetup (c : Call) (h : c.isSetup = true) : c.isUpdate = false := by
  cases c <;> first | rfl | cases h

/-- The version of the current migration that `determinationCurrentMigration` returns on the
repository of `core.Run` is built by `NewVersionDb`. -/
theorem determinationCurrentMigration_built {ω : Type} (o : Outside ω) (isInitMod : Bool)
    (ucInitMigration : InitMigrationUseCase) (ucFileReader : FileReaderUseCase)
    (s s' : State ω) (currentMigration : Migration)
    (hinit : NewInitMigrationUseCase = .ok ucInitMigration)
    (h : determinationCurrentMigration o isInitMod ucInitMigration ucFileReader
      { repo := MigrationPostgresRepo.asRepo o } s = (.ok currentMigration, s')) :
    NewVersionDb currentMigration.VersionDb.String = .ok currentMigration.VersionDb := by
  unfold determinationCurrentMigration at h
  cases isInitMod
  · simp only [Bool.false_eq_true, if_false] at h
    rcases hread : ucFileReader.GetSqlFromGetCurrentMigrationFile o s with f | sql
    · rw [hread] at h
      rcases f with e | e | e <;> simp at h
    rw [hread] at h
    simp only [MigrationCurrentUseCase.GetCurrentMigration, MigrationPostgresRepo.asRepo,
      MigrationPostgresRepo.GetCurrentMigration, State.call, asError] at h
    rcases hquery : o.QueryCollectOneRow sql s.outside with ⟨r, w⟩
    rw [hquery] at h
    rcases r with e | row
    · simp at h
    simp only [] at h
    rcases hdomain : migrationRepoToDomain row with f | m
    · rw [hdomain] at h
      rcases f with e | e | e <;> simp at h
    rw [hdomain] at h
    simp only [Prod.mk.injEq, Except.ok.injEq] at h
    obtain ⟨hm, -⟩ := h
    subst hm
    unfold migrationRepoToDomain at hdomain
    rcases hparse : NewVersionDb row.VersionDb with f | v
    · rw [hparse] at hdomain
      cases hdomain
    rw [hparse] at hdomain
    simp only [NewMigration] at hdomain
    split at hdomain
    · cases hdomain
    · simp only [Except.ok.injEq] at hdomain
      subst hdomain
      exact NewVersionDb_built row.VersionDb v hparse
  · simp only [if_true, Prod.mk.injEq, Except.ok.injEq] at h
    obtain ⟨hm, -⟩ := h
    subst hm
    rw [NewInitMigrationUseCase_eq] at hinit
    simp only [Except.ok.injEq] at hinit
    subst hinit
    decide

/-- A target given by the name of a migration has that name. -/
theorem determinationLastMigrationToMigrate_name (stringVersionDb stringNameMigration : String)
    (currentMigration : Migration) (groups : List MigrationGroup) (target : Migration)
    (hname : stringNameMigration ≠ "")
    (h : determinationLastMigrationToMigrate stringVersionDb stringNameMigration
      currentMigration groups = .ok target) : target.Name = stringNameMigration := by
  unfold determinationLastMigrationToMigrate at h
  simp only [] at h
  split at h
  · cases h
  rename_i versiondb _
  rw [if_neg hname] at h
  rcases hnew : NewMigration stringNameMigration versiondb with f | candidate
  · rw [hnew] at h
    rcases f with e | e | e <;> simp at h
  rw [hnew] at h
  simp only [] at h
  split at h
  · cases h
  · simp only [Except.ok.injEq] at h
    subst h
    unfold NewMigration at hnew
    split at hnew
    · cases hnew
    · simp only [Except.ok.injEq] at hnew
      rw [← hnew]

/-- The plan of a run: it was cut from the unapplied groups of the disk source at a migration
equal to the selected target, which is the last migration of its last group and carries the
version of that group. -/
theorem Run.plansFrom_shape {ω : Type} (o : Outside ω) (fs : FileSystem) (cfg : Config)
    (s s' : State ω) (isInitModeON : Bool) (currentMigration : Migration)
    (plan : List MigrationGroup)
    (h : Run.plansFrom o fs cfg s isInitModeON currentMigration plan s') :
    ∃ (unappliedMigrations : List MigrationGroup) (target : Migration) (g m : Nat)
        (grp : MigrationGroup) (x : Migration),
      GetUnappliedSortedMigrations
        (MigrationDiskRepo.asRepo fs
          { IsVerbose := cfg.IsVerbose, PathToMigrations := cfg.PathToMigrations })
        isInitModeON currentMigration = .ok unappliedMigrations ∧
      determinationLastMigrationToMigrate cfg.StringVersionDb cfg.StringNameMigration
        currentMigration unappliedMigrations = .ok target ∧
      unappliedMigrations[g]? = some grp ∧ grp.Migrations[m]? = some x ∧
      target.IsEqual x = true ∧ x.VersionDb = grp.VersionDb ∧
      plan = unappliedMigrations.take g
        ++ [{ VersionDb := grp.VersionDb, Migrations := grp.Migrations.take (m + 1) }] ∧
      Run.lastAppliedMigration plan = .ok x := by
  obtain ⟨⟨-, -, uc, s1, s2, hinit, -, -, hcurrent⟩, hplan⟩ := h
  have hbuilt := determinationCurrentMigration_built o isInitModeON uc _ s2 s' currentMigration
    hinit hcurrent
  obtain ⟨un, target, hun, -, -, -, htarget, hcut⟩ :=
    Run.migrationsToMigrate_some _ isInitModeON currentMigration cfg.StringVersionDb
      cfg.StringNameMigration plan hplan
  have hcarry := GetUnappliedSortedMigrations_carry fs
    { IsVerbose := cfg.IsVerbose, PathToMigrations := cfg.PathToMigrations }
    isInitModeON currentMigration un hbuilt hun
  obtain ⟨g, m, grp, x, -, hg, hm, -, hx, -, hshape⟩ :=
    getMigrationGroupsAndMigrationsBeforeMigration_shape un target plan
      (fun a ha => (hcarry a ha).1) hcut
  have hgrp : grp ∈ un := List.mem_iff_getElem?.mpr ⟨g, hg⟩
  have hxmem : x ∈ grp.Migrations := List.mem_iff_getElem?.mpr ⟨m, hm⟩
  refine ⟨un, target, g, m, grp, x, hun, htarget, hg, hm, hx, (hcarry grp hgrp).2.2 x hxmem,
    hshape, ?_⟩
  rw [hshape]
  exact Run.lastAppliedMigration_of_shape _ grp m x hm

/-- C16: for every run of `core.Run` that comes to apply a plan and creates the dump, with `rm`
what `Migrate` returns and `r` what the run returns: no call of `Migrate` writes the record of
the current migration; when `Migrate` returns an error (some planned migration failed), no
call of the whole run writes the record; and a call of the run that writes the record is made
only after `Migrate` returned without error, every migration of the flattened plan applied: it
is the first call after the return of `Migrate`, no call before it and no call after it writes
the record. -/
theorem Run_update_only_after_migrate {ω : Type} (o : Outside ω) (fs : FileSystem)
    (cfg : Config) (s s0 s2 : State ω) (plan : List MigrationGroup) (sqlU : String)
    (ucDump : DumpUseCase (State ω)) (newDump : Dump) (rm r : Result Unit × State ω)
    (hplans : Run.plans o fs cfg s plan s0)
    (hdump : Run.createDump o cfg (NewFileReaderUseCase cfg.PathToMigrations) s0
      = (.ok (sqlU, ucDump, newDump), s2))
    (hrm : (NewMigrateUseCase o
      { IsVerbose := cfg.IsVerbose, PathToMigrations := cfg.PathToMigrations }).Migrate plan s2
      = rm)
    (hr : Run o fs cfg s = r) :
    (∀ c ∈ State.since s2 rm.2, c.isUpdate = false) ∧
    ((∃ f, rm.1 = .error f) → ∀ c ∈ State.since s r.2, c.isUpdate = false) ∧
    (∀ c ∈ State.since s r.2, c.isUpdate = true →
      rm.1 = .ok () ∧
      Migrate.applied (NewMigrateUseCase o
        { IsVerbose := cfg.IsVerbose, PathToMigrations := cfg.PathToMigrations })
        (flattenedPlan plan) s2 rm.2 ∧
      (∀ c' ∈ State.since s rm.2, c'.isUpdate = false) ∧
      ∃ rest, State.since rm.2 r.2 = c :: rest ∧ ∀ c' ∈ rest, c'.isUpdate = false) := by
  obtain ⟨setup, migrated, tail, hsetup, hsetup', hmigrated, hmigrated', htail, hcases⟩ :=
    Run_trace o fs cfg s s0 s2 plan sqlU ucDump newDump rm r hplans hdump hrm hr
  have hsince1 : State.since s2 rm.2 = migrated := State.since_of_calls s2 rm.2 migrated hmigrated
  have hsince2 : State.since s rm.2 = setup ++ migrated :=
    State.since_of_calls s rm.2 _ (by rw [hmigrated, hsetup, List.append_assoc])
  have hsince3 : State.since s r.2 = setup ++ migrated ++ tail :=
    State.since_of_calls s r.2 _ (by
      rw [htail, hmigrated, hsetup]
      simp only [List.append_assoc])
  have hsince4 : State.since rm.2 r.2 = tail := State.since_of_calls rm.2 r.2 tail htail
  have hquiet1 : ∀ c ∈ migrated, c.isUpdate = false := by
    intro c hc
    obtain ⟨sql, hsql⟩ := hmigrated' c hc
    rw [hsql]
    rfl
  have hquiet2 : ∀ c ∈ setup ++ migrated, c.isUpdate = false := by
    intro c hc
    rcases List.mem_append.mp hc with hc | hc
    · exact Call.isUpdate_of_isSetup c (hsetup' c hc)
    · exact hquiet1 c hc
  have happlied : rm.1 = .ok () → Migrate.applied (NewMigrateUseCase o
      { IsVerbose := cfg.IsVerbose, PathToMigrations := cfg.PathToMigrations })
      (flattenedPlan plan) s2 rm.2 := by
    intro hok
    rw [← hrm] at hok ⊢
    exact Migrate.applied_of_ok _ plan s2 hok
  rw [hsince1, hsince2, hsince3, hsince4]
  refine ⟨hquiet1, ?_, ?_⟩
  · rintro ⟨f, hf⟩ c hc
    rcases List.mem_append.mp hc with hc | hc
    · exact hquiet2 c hc
    · rcases hcases with ⟨e, -, -, -, h⟩ | ⟨e, e', -, -, -, h⟩ | ⟨f', h, -⟩ |
        ⟨last, e, h, -⟩ | ⟨last, e, e', h, -⟩ | ⟨last, h, -⟩
      · rw [h] at hc
        simp only [List.mem_cons, List.mem_singleton, List.not_mem_nil, or_false] at hc
        rcases hc with hc | hc | hc | hc <;> rw [hc] <;> rfl
      · rw [h] at hc
        simp only [List.mem_cons, List.mem_singleton, List.not_mem_nil, or_false] at hc
        rcases hc with hc | hc <;> rw [hc] <;> rfl
      all_goals
        rw [h] at hf
        cases hf
  · intro c hc hupdate
    have hctail : c ∈ tail := by
      rcases List.mem_append.mp hc with hc | hc
      · rw [hquiet2 c hc] at hupdate
        cases hupdate
      · exact hc
    rcases hcases with ⟨e, -, -, -, h⟩ | ⟨e, e', -, -, -, h⟩ | ⟨f', -, -, -, h⟩ |
      ⟨last, e, hok, -, -, -, -, h⟩ | ⟨last, e, e', hok, -, -, -, -, h⟩ | ⟨last, hok, -, -, -, h⟩
    · rw [h] at hctail
      simp only [List.mem_cons, List.mem_singleton, List.not_mem_nil, or_false] at hctail
      rcases hctail with hc' | hc' | hc' | hc' <;> rw [hc'] at hupdate <;> cases hupdate
    · rw [h] at hctail
      simp only [List.mem_cons, List.mem_singleton, List.not_mem_nil, or_false] at hctail
      rcases hctail with hc' | hc' <;> rw [hc'] at hupdate <;> cases hupdate
    · rcases h with h | h
      · rw [h] at hctail
        cases hctail
      · rw [h] at hctail
        simp only [List.mem_singleton] at hctail
        rw [hctail] at hupdate
        cases hupdate
    · rw [h] at hctail ⊢
      simp only [List.mem_cons, List.mem_singleton, List.not_mem_nil, or_false] at hctail
      rcases hctail with hc' | hc' | hc' | hc' | hc'
      · refine ⟨hok, happlied hok, hquiet2, _, by rw [hc'], ?_⟩
        intro c' hc''
        simp only [List.mem_cons, List.mem_singleton, List.not_mem_nil, or_false] at hc''
        rcases hc'' with h' | h' | h' | h' <;> rw [h'] <;> rfl
      all_goals
        rw [hc'] at hupdate
        cases hupdate
    · rw [h] at hctail ⊢
      simp only [List.mem_cons, List.mem_singleton, List.not_mem_nil, or_false] at hctail
      rcases hctail with hc' | hc' | hc'
      · refine ⟨hok, happlied hok, hquiet2, _, by rw [hc'], ?_⟩
        intro c' hc''
        simp only [List.mem_cons, List.mem_singleton, List.not_mem_nil, or_false] at hc''
        rcases hc'' with h' | h' <;> rw [h'] <;> rfl
      all_goals
        rw [hc'] at hupdate
        cases hupdate
    · rcases h with h | h
      · rw [h] at hctail ⊢
        simp only [List.mem_cons, List.mem_singleton, List.not_mem_nil, or_false] at hctail
        rcases hctail with hc' | hc' | hc'
        · refine ⟨hok, happlied hok, hquiet2, _, by rw [hc'], ?_⟩
          intro c' hc''
          simp only [List.mem_cons, List.mem_singleton, List.not_mem_nil, or_false] at hc''
          rcases hc'' with h' | h' <;> rw [h'] <;> rfl
        all_goals
          rw [hc'] at hupdate
          cases hupdate
      · rw [h] at hctail ⊢
        simp only [List.mem_cons, List.mem_singleton, List.not_mem_nil, or_false] at hctail
        rcases hctail with hc' | hc' | hc' | hc'
        · refine ⟨hok, happlied hok, hquiet2, _, by rw [hc'], ?_⟩
          intro c' hc''
          simp only [List.mem_cons, List.mem_singleton, List.not_mem_nil, or_false] at hc''
          rcases hc'' with h' | h' | h' <;> rw [h'] <;> rfl
        all_goals
          rw [hc'] at hupdate
          cases hupdate

/-- Witness of C16 on the scenario *Error rollback*: the run comes to apply the plan and
creates the dump, `Migrate` returns the error of `0002.jjj`, and none of the calls of the run
writes the record. -/
theorem Run_update_only_after_migrate_witness :
    Run.plans exampleOutside exampleTree (exampleConfig "v0.0.4" "") (start failingWorld)
      exampleUnapplied (afterSetup failingWorld) ∧
    Run.createDump exampleOutside (exampleConfig "v0.0.4" "")
        (NewFileReaderUseCase (exampleConfig "v0.0.4" "").PathToMigrations)
        (afterSetup failingWorld)
      = (.ok ("UPDATE lastMigration SET version = $1, name = $2", exampleDumpUseCase,
          exampleDump), afterDump failingWorld) ∧
    ((NewMigrateUseCase exampleOutside exampleRepo).Migrate exampleUnapplied
        (afterDump failingWorld)).1
      = .error (.error "ERROR: syntax error at or near CREATE TABLE jjj ()") ∧
    ∀ c ∈ State.since (start failingWorld)
        (Run exampleOutside exampleTree (exampleConfig "v0.0.4" "") (start failingWorld)).2,
      c.isUpdate = false :=
  ⟨⟨false, exampleCurrent, failingRun_plansFrom⟩, failingRun_createDump, by decide,
    (Run_update_only_after_migrate exampleOutside exampleTree (exampleConfig "v0.0.4" "")
      (start failingWorld) (afterSetup failingWorld) (afterDump failingWorld) exampleUnapplied
      "UPDATE lastMigration SET version = $1, name = $2" exampleDumpUseCase exampleDump
      ((NewMigrateUseCase exampleOutside exampleRepo).Migrate exampleUnapplied
        (afterDump failingWorld))
      (Run exampleOutside exampleTree (exampleConfig "v0.0.4" "") (start failingWorld))
      ⟨false, exampleCurrent, failingRun_plansFrom⟩ failingRun_createDump rfl rfl).2.1
      ⟨.error "ERROR: syntax error at or near CREATE TABLE jjj ()", by decide⟩⟩

/-- C17: for every run of `core.Run` that comes to apply a plan and creates the dump and in
which `Migrate` returns without error (`rm`): the first call after `Migrate` is the execution
of the update statement, the text of `utils/UpdateCurrentVersion.sql`, with exactly two
arguments, the version string of the last group of the plan and the name of the last migration
of that group; no other call of the run writes the record. That migration is equal to the
target that `determinationLastMigrationToMigrate` selected (same name, equal version), and
with `-migration` its name is the given one. -/
theorem Run_update_arguments {ω : Type} (o : Outside ω) (fs : FileSystem) (cfg : Config)
    (s s0 s2 : State ω) (isInitModeON : Bool) (currentMigration : Migration)
    (plan : List MigrationGroup) (sqlU : String) (ucDump : DumpUseCase (State ω))
    (newDump : Dump) (rm r : Result Unit × State ω)
    (hplans : Run.plansFrom o fs cfg s isInitModeON currentMigration plan s0)
    (hdump : Run.createDump o cfg (NewFileReaderUseCase cfg.PathToMigrations) s0
      = (.ok (sqlU, ucDump, newDump), s2))
    (hrm : (NewMigrateUseCase o
      { IsVerbose := cfg.IsVerbose, PathToMigrations := cfg.PathToMigrations }).Migrate plan s2
      = rm)
    (hr : Run o fs cfg s = r) (hok : rm.1 = .ok ()) :
    ∃ (unappliedMigrations : List MigrationGroup) (target : Migration)
        (lastGroup : MigrationGroup) (last : Migration) (rest : List Call),
      GetUnappliedSortedMigrations
        (MigrationDiskRepo.asRepo fs
          { IsVerbose := cfg.IsVerbose, PathToMigrations := cfg.PathToMigrations })
        isInitModeON currentMigration = .ok unappliedMigrations ∧
      determinationLastMigrationToMigrate cfg.StringVersionDb cfg.StringNameMigration
        currentMigration unappliedMigrations = .ok target ∧
      plan.getLast? = some lastGroup ∧ lastGroup.Migrations.getLast? = some last ∧
      target.IsEqual last = true ∧ last.Name = target.Name ∧
      (cfg.StringNameMigration ≠ "" → last.Name = cfg.StringNameMigration) ∧
      (NewFileReaderUseCase cfg.PathToMigrations).GetSqlFromUpdateCurrentMigrationFile o s0
        = .ok sqlU ∧
      (∀ c ∈ State.since s rm.2, c.isUpdate = false) ∧
      State.since rm.2 r.2 = .Exec sqlU [lastGroup.VersionDb.String, last.Name] :: rest ∧
      ∀ c ∈ rest, c.isUpdate = false := by
  obtain ⟨un, target, g, m, grp, x, hun, htarget, hg, hm, hx, hxv, hshape, hlastx⟩ :=
    Run.plansFrom_shape o fs cfg s s0 isInitModeON currentMigration plan hplans
  obtain ⟨hsql, -, -⟩ := Run.createDump_ok o cfg _ s0 s2 sqlU ucDump newDump hdump
  obtain ⟨setup, migrated, tail, hsetup, hsetup', hmigrated, hmigrated', htail, hcases⟩ :=
    Run_trace o fs cfg s s0 s2 plan sqlU ucDump newDump rm r
      ⟨isInitModeON, currentMigration, hplans⟩ hdump hrm hr
  have hsince2 : State.since s rm.2 = setup ++ migrated :=
    State.since_of_calls s rm.2 _ (by rw [hmigrated, hsetup, List.append_assoc])
  have hsince4 : State.since rm.2 r.2 = tail := State.since_of_calls rm.2 r.2 tail htail
  have hquiet : ∀ c ∈ setup ++ migrated, c.isUpdate = false := by
    intro c hc
    rcases List.mem_append.mp hc with hc | hc
    · exact Call.isUpdate_of_isSetup c (hsetup' c hc)
    · obtain ⟨sql, hsql⟩ := hmigrated' c hc
      rw [hsql]
      rfl
  have hlt : m < grp.Migrations.length := (List.getElem?_eq_some_iff.mp hm).1
  have hgetlast : (grp.Migrations.take (m + 1)).getLast? = some x := by
    rw [List.getLast?_eq_getElem?, List.length_take, List.getElem?_take]
    have e : min (m + 1) grp.Migrations.length - 1 = m := by omega
    rw [e, if_pos (by omega)]
    exact hm
  have hname : x.Name = target.Name := (Migration.IsEqual_name hx).symm
  have hfinish : ∀ rest : List Call,
      tail = .Exec sqlU [x.VersionDb.String, x.Name] :: rest →
      (∀ c ∈ rest, c.isUpdate = false) →
      ∃ (unappliedMigrations : List MigrationGroup) (target : Migration)
          (lastGroup : MigrationGroup) (last : Migration) (rest : List Call),
        GetUnappliedSortedMigrations
          (MigrationDiskRepo.asRepo fs
            { IsVerbose := cfg.IsVerbose, PathToMigrations := cfg.PathToMigrations })
          isInitModeON currentMigration = .ok unappliedMigrations ∧
        determinationLastMigrationToMigrate cfg.StringVersionDb cfg.StringNameMigration
          currentMigration unappliedMigrations = .ok target ∧
        plan.getLast? = some lastGroup ∧ lastGroup.Migrations.getLast? = some last ∧
        target.IsEqual last = true ∧ last.Name = target.Name ∧
        (cfg.StringNameMigration ≠ "" → last.Name = cfg.StringNameMigration) ∧
        (NewFileReaderUseCase cfg.PathToMigrations).GetSqlFromUpdateCurrentMigrationFile o s0
          = .ok sqlU ∧
        (∀ c ∈ State.since s rm.2, c.isUpdate = false) ∧
        State.since rm.2 r.2 = .Exec sqlU [lastGroup.VersionDb.String, last.Name] :: rest ∧
        ∀ c ∈ rest, c.isUpdate = false := by
    intro rest hrest hrest'
    refine ⟨un, target, { VersionDb := grp.VersionDb, Migrations := grp.Migrations.take (m + 1) },
      x, rest, hun, htarget, ?_, hgetlast, hx, hname, ?_, hsql, ?_, ?_, hrest'⟩
    · rw [hshape, List.getLast?_append, List.getLast?_singleton]
      rfl
    · intro hgiven
      rw [hname]
      exact determinationLastMigrationToMigrate_name _ _ _ _ target hgiven htarget
    · rw [hsince2]
      exact hquiet
    · rw [hsince4, hrest, hxv]
  rcases hcases with ⟨e, h, -⟩ | ⟨e, e', h, -⟩ | ⟨f, -, h, -⟩ |
    ⟨last, e, -, hlast, -, -, -, h⟩ | ⟨last, e, e', -, hlast, -, -, -, h⟩ |
    ⟨last, -, hlast, -, -, h⟩
  · rw [h] at hok
    cases hok
  · rw [h] at hok
    cases hok
  · rw [h] at hlastx
    cases hlastx
  · rw [hlast] at hlastx
    simp only [Except.ok.injEq] at hlastx
    subst hlastx
    refine hfinish _ h ?_
    intro c hc
    simp only [List.mem_cons, List.mem_singleton, List.not_mem_nil, or_false] at hc
    rcases hc with h' | h' | h' | h' <;> rw [h'] <;> rfl
  · rw [hlast] at hlastx
    simp only [Except.ok.injEq] at hlastx
    subst hlastx
    refine hfinish _ h ?_
    intro c hc
    simp only [List.mem_cons, List.mem_singleton, List.not_mem_nil, or_false] at hc
    rcases hc with h' | h' <;> rw [h'] <;> rfl
  · rw [hlast] at hlastx
    simp only [Except.ok.injEq] at hlastx
    subst hlastx
    rcases h with h | h
    · refine hfinish _ h ?_
      intro c hc
      simp only [List.mem_cons, List.mem_singleton, List.not_mem_nil, or_false] at hc
      rcases hc with h' | h' <;> rw [h'] <;> rfl
    · refine hfinish _ h ?_
      intro c hc
      simp only [List.mem_cons, List.mem_singleton, List.not_mem_nil, or_false] at hc
      rcases hc with h' | h' | h' <;> rw [h'] <;> rfl

/-- Witness of C17 on the scenario *Normal update* with `-versiondb v0.0.4`: every script
runs, and the call after `Migrate` executes the update statement with the arguments `v0.0.4`
and `0003.kkk`, the version of the last group of the plan and the name of its last
migration. -/
theorem Run_update_arguments_witness :
    Run.plansFrom exampleOutside exampleTree (exampleConfig "v0.0.4" "") (start exampleWorld)
      false exampleCurrent exampleUnapplied (afterSetup exampleWorld) ∧
    Run.createDump exampleOutside (exampleConfig "v0.0.4" "")
        (NewFileReaderUseCase (exampleConfig "v0.0.4" "").PathToMigrations)
        (afterSetup exampleWorld)
      = (.ok ("UPDATE lastMigration SET version = $1, name = $2", exampleDumpUseCase,
          exampleDump), afterDump exampleWorld) ∧
    ((NewMigrateUseCase exampleOutside exampleRepo).Migrate exampleUnapplied
        (afterDump exampleWorld)).1 = .ok () ∧
    State.since
        ((NewMigrateUseCase exampleOutside exampleRepo).Migrate exampleUnapplied
          (afterDump exampleWorld)).2
        (Run exampleOutside exampleTree (exampleConfig "v0.0.4" "") (start exampleWorld)).2
      = [.Exec "UPDATE lastMigration SET version = $1, name = $2" ["v0.0.4", "0003.kkk"],
         .Remove "/opt/dbupdater/dumps/db.dump", .Close, .Close] ∧
    ∃ (unappliedMigrations : List MigrationGroup) (target : Migration)
        (lastGroup : MigrationGroup) (last : Migration) (rest : List Call),
      GetUnappliedSortedMigrations (MigrationDiskRepo.asRepo exampleTree exampleRepo) false
        exampleCurrent = .ok unappliedMigrations ∧
      determinationLastMigrationToMigrate "v0.0.4" "" exampleCurrent unappliedMigrations
        = .ok target ∧
      exampleUnapplied.getLast? = some lastGroup ∧
      lastGroup.Migrations.getLast? = some last ∧
      target.IsEqual last = true ∧ last.Name = target.Name ∧
      (("" : String) ≠ "" → last.Name = "") ∧
      (NewFileReaderUseCase "migrations").GetSqlFromUpdateCurrentMigrationFile exampleOutside
        (afterSetup exampleWorld) = .ok "UPDATE lastMigration SET version = $1, name = $2" ∧
      (∀ c ∈ State.since (start exampleWorld)
          ((NewMigrateUseCase exampleOutside exampleRepo).Migrate exampleUnapplied
            (afterDump exampleWorld)).2, c.isUpdate = false) ∧
      State.since
          ((NewMigrateUseCase exampleOutside exampleRepo).Migrate exampleUnapplied
            (afterDump exampleWorld)).2
          (Run exampleOutside exampleTree (exampleConfig "v0.0.4" "") (start exampleWorld)).2
        = .Exec "UPDATE lastMigration SET version = $1, name = $2"
            [lastGroup.VersionDb.String, last.Name] :: rest ∧
      ∀ c ∈ rest, c.isUpdate = false :=
  ⟨exampleRun_plansFrom, exampleRun_createDump, by decide, by decide,
    Run_update_arguments exampleOutside exampleTree (exampleConfig "v0.0.4" "")
      (start exampleWorld) (afterSetup exampleWorld) (afterDump exampleWorld) false
      exampleCurrent exampleUnapplied "UPDATE lastMigration SET version = $1, name = $2"
      exampleDumpUseCase exampleDump
      ((NewMigrateUseCase exampleOutside exampleRepo).Migrate exampleUnapplied
        (afterDump exampleWorld))
      (Run exampleOutside exampleTree (exampleConfig "v0.0.4" "") (start exampleWorld))
      exampleRun_plansFrom exampleRun_createDump rfl rfl (by decide)⟩

/-- The exit code after a return of `core.Run` is `0`. -/
theorem main_of_ok {ω : Type} (o : Outside ω) (fs : FileSystem) (cfg : Config) (s : State ω)
    (h : (Run o fs cfg s).1 = .ok ()) : (main o fs cfg s).1 = 0 := by
  unfold main
  rcases hrun : Run o fs cfg s with ⟨r, s'⟩
  rw [hrun] at h
  simp only at h
  subst h
  rfl

/-- The exit code after a `log.Fatalf` in `core.Run` is `1`. -/
theorem main_of_fatal {ω : Type} (o : Outside ω) (fs : FileSystem) (cfg : Config) (s : State ω)
    (m : String) (h : (Run o fs cfg s).1 = .error (.fatal m)) : (main o fs cfg s).1 = 1 := by
  unfold main
  rcases hrun : Run o fs cfg s with ⟨r, s'⟩
  rw [hrun] at h
  simp only at h
  subst h
  rfl

/-- C18, the code at the failing input, the scenario *Error rollback*: the run comes to apply
the plan and creates the dump, `Migrate` returns the error of `0002.jjj`, the restore from
the dump succeeds, `core.Run` returns, and the exit code of the process is `0`, not a non-zero
one. On the same run with a restore utility that fails, the sibling branch ends the process
with `log.Fatalf` and the exit code is `1`. -/
theorem main_exit_zero_after_restore :
    ((NewMigrateUseCase exampleOutside exampleRepo).Migrate exampleUnapplied
        (afterDump failingWorld)).1
      = .error (.error "ERROR: syntax error at or near CREATE TABLE jjj ()") ∧
    (exampleOutside.Restore exampleDump
        (exampleOutside.Close
          ((NewMigrateUseCase exampleOutside exampleRepo).Migrate exampleUnapplied
            (afterDump failingWorld)).2.outside)).1 = .ok () ∧
    State.since (afterDump failingWorld)
        (Run exampleOutside exampleTree (exampleConfig "v0.0.4" "") (start failingWorld)).2
      = [.Exec "CREATE TABLE hqwerty ()" [], .Exec "CREATE TABLE hhh ()" [],
         .Exec "CREATE TABLE jjj ()" [], .Close, .Restore exampleDump,
         .Remove "/opt/dbupdater/dumps/db.dump", .Close] ∧
    (Run exampleOutside exampleTree (exampleConfig "v0.0.4" "") (start failingWorld)).1
      = .ok () ∧
    (main exampleOutside exampleTree (exampleConfig "v0.0.4" "") (start failingWorld)).1 = 0 ∧
    ¬ ((main exampleOutside exampleTree (exampleConfig "v0.0.4" "") (start failingWorld)).1
      ≠ 0) ∧
    (∃ message, (Run exampleOutside exampleTree (exampleConfig "v0.0.4" "")
      (start brokenRestoreWorld)).1 = .error (.fatal message)) ∧
    (main exampleOutside exampleTree (exampleConfig "v0.0.4" "")
      (start brokenRestoreWorld)).1 = 1 := by
  refine ⟨by decide, by decide, by decide, by decide, by decide, by decide, ⟨_, rfl⟩,
    by decide⟩

/-- The exit code of a run in which `Migrate` fails, on every outside: the exit code of the
process is `0` exactly when `core.Run` returns, since `main` ends in `os.Exit(0)`. For every
run that comes to apply a plan and creates the dump and in which `Migrate` returns an error:
when the restore from the dump succeeds, `core.Run` returns and the exit code is `0`; when the
restore fails, the process ends with `log.Fatalf` and the exit code is `1`. -/
theorem main_exit_code {ω : Type} (o : Outside ω) (fs : FileSystem) (cfg : Config)
    (s s0 s2 : State ω) (plan : List MigrationGroup) (sqlU : String)
    (ucDump : DumpUseCase (State ω)) (newDump : Dump) (rm : Result Unit × State ω)
    (hplans : Run.plans o fs cfg s plan s0)
    (hdump : Run.createDump o cfg (NewFileReaderUseCase cfg.PathToMigrations) s0
      = (.ok (sqlU, ucDump, newDump), s2))
    (hrm : (NewMigrateUseCase o
      { IsVerbose := cfg.IsVerbose, PathToMigrations := cfg.PathToMigrations }).Migrate plan s2
      = rm) :
    ((main o fs cfg s).1 = 0 ↔ (Run o fs cfg s).1 = .ok ()) ∧
    (∀ e, rm.1 = .error (.error e) →
      (o.Restore newDump (o.Close rm.2.outside)).1 = .ok () →
      (Run o fs cfg s).1 = .ok () ∧ (main o fs cfg s).1 = 0) ∧
    (∀ e e', rm.1 = .error (.error e) →
      (o.Restore newDump (o.Close rm.2.outside)).1 = .error e' →
      (Run o fs cfg s).1
        = .error (.fatal ("Error when restoring database from dump: " ++ e' ++ ": "
            ++ ucDump.GetErrorForBadRestore newDump)) ∧
      (main o fs cfg s).1 = 1) := by
  obtain ⟨setup, migrated, tail, -, -, -, -, -, hcases⟩ :=
    Run_trace o fs cfg s s0 s2 plan sqlU ucDump newDump rm (Run o fs cfg s) hplans hdump hrm rfl
  refine ⟨⟨fun hexit => ?_, main_of_ok o fs cfg s⟩, fun e hfail hrestore => ?_,
    fun e e' hfail hrestore => ?_⟩
  · unfold main at hexit
    rcases hrun : Run o fs cfg s with ⟨r, s'⟩
    rw [hrun] at hexit
    rcases r with (m | m | m) | u
    · cases hexit
    · cases hexit
    · cases hexit
    · rfl
  · rcases hcases with ⟨e1, -, -, h, -⟩ | ⟨e1, e2, -, h, -⟩ | ⟨f, h, -⟩ |
      ⟨last, e1, h, -⟩ | ⟨last, e1, e2, h, -⟩ | ⟨last, h, -⟩
    · exact ⟨h, main_of_ok o fs cfg s h⟩
    · rw [hrestore] at h
      cases h
    all_goals
      rw [hfail] at h
      cases h
  · rcases hcases with ⟨e1, -, h, -⟩ | ⟨e1, e2, -, h, hfatal, -⟩ | ⟨f, h, -⟩ |
      ⟨last, e1, h, -⟩ | ⟨last, e1, e2, h, -⟩ | ⟨last, h, -⟩
    · rw [hrestore] at h
      cases h
    · rw [hrestore] at h
      simp only [Except.error.injEq] at h
      subst h
      exact ⟨hfatal, main_of_fatal o fs cfg s _ hfatal⟩
    all_goals
      rw [hfail] at h
      cases h

/-- The scenario *Error rollback* as an instance of `main_exit_code`: with a restore that
succeeds the exit code is `0`, with a restore that fails it is `1`. -/
theorem main_exit_code_witness :
    Run.plans exampleOutside exampleTree (exampleConfig "v0.0.4" "") (start failingWorld)
      exampleUnapplied (afterSetup failingWorld) ∧
    Run.createDump exampleOutside (exampleConfig "v0.0.4" "")
        (NewFileReaderUseCase (exampleConfig "v0.0.4" "").PathToMigrations)
        (afterSetup failingWorld)
      = (.ok ("UPDATE lastMigration SET version = $1, name = $2", exampleDumpUseCase,
          exampleDump), afterDump failingWorld) ∧
    (main exampleOutside exampleTree (exampleConfig "v0.0.4" "") (start failingWorld)).1 = 0 ∧
    Run.plans exampleOutside exampleTree (exampleConfig "v0.0.4" "") (start brokenRestoreWorld)
      exampleUnapplied (afterSetup brokenRestoreWorld) ∧
    (main exampleOutside exampleTree (exampleConfig "v0.0.4" "")
      (start brokenRestoreWorld)).1 = 1 :=
  ⟨⟨false, exampleCurrent, failingRun_plansFrom⟩, failingRun_createDump,
    ((main_exit_code exampleOutside exampleTree (exampleConfig "v0.0.4" "")
      (start failingWorld) (afterSetup failingWorld) (afterDump failingWorld) exampleUnapplied
      "UPDATE lastMigration SET version = $1, name = $2" exampleDumpUseCase exampleDump
      ((NewMigrateUseCase exampleOutside exampleRepo).Migrate exampleUnapplied
        (afterDump failingWorld))
      ⟨false, exampleCurrent, failingRun_plansFrom⟩ failingRun_createDump rfl).2.1
      "ERROR: syntax error at or near CREATE TABLE jjj ()" (by decide) (by decide)).2,
    ⟨false, exampleCurrent, brokenRun_plansFrom⟩,
    ((main_exit_code exampleOutside exampleTree (exampleConfig "v0.0.4" "")
      (start brokenRestoreWorld) (afterSetup brokenRestoreWorld)
      (afterDump brokenRestoreWorld) exampleUnapplied
      "UPDATE lastMigration SET version = $1, name = $2" exampleDumpUseCase exampleDump
      ((NewMigrateUseCase exampleOutside exampleRepo).Migrate exampleUnapplied
        (afterDump brokenRestoreWorld))
      ⟨false, exampleCurrent, brokenRun_plansFrom⟩ brokenRun_createDump rfl).2.2
      "ERROR: syntax error at or near CREATE TABLE jjj ()"
      "pg_restore: error: connection to server failed" (by decide) (by decide)).2⟩

/-- Counterexample to C11 as stated, on the scenario *Init-mode bootstrap* with `-migration
0001.CreateLastMigrationTable` and no `-versiondb`: the run finds the initialization mode and
the record `(v0.0.0, 0000.InitMod)`, the migration of that name is among the unapplied
migrations of `v0.0.0`, and yet the planner stops before the selection of the target: no plan
is made and the run returns after the connecting and the probe, nothing being applied. -/
theorem Run_init_mode_migration_target_stops :
    Run.finds exampleOutside (exampleConfig "" "0001.CreateLastMigrationTable")
      (start bootstrapWorld) true initCurrent
      { outside := bootstrapWorld, calls := (afterSetup bootstrapWorld).calls.take 2 } ∧
    GetUnappliedSortedMigrations (exampleRepo.asRepo initTree) true initCurrent
      = .ok [initHead, initLater] ∧
    "0001.CreateLastMigrationTable" ∈ initHead.Migrations.map (fun m => m.Name) ∧
    Run.migrationsToMigrate (exampleRepo.asRepo initTree) true initCurrent ""
      "0001.CreateLastMigrationTable" = .ok none ∧
    (Run exampleOutside initTree (exampleConfig "" "0001.CreateLastMigrationTable")
      (start bootstrapWorld)).1 = .ok () ∧
    State.since (start bootstrapWorld)
      (Run exampleOutside initTree (exampleConfig "" "0001.CreateLastMigrationTable")
        (start bootstrapWorld)).2
      = (afterSetup bootstrapWorld).calls.take 2 ++ [.Close] :=
  ⟨⟨by decide, by decide, { initMigration := initCurrent },
    { outside := bootstrapWorld, calls := (afterSetup bootstrapWorld).calls.take 1 },
    { outside := bootstrapWorld, calls := (afterSetup bootstrapWorld).calls.take 2 },
    by decide, by decide, by decide, by decide⟩,
    by decide, by decide, by decide, by decide, by decide⟩

/-- C11, amended: for every run that finds the normal mode, with a migration target and no
version target, the target is resolved against the version of the current migration: if a
migration of that name is among the unapplied migrations of the current version (at position
`k` of the group `head`) and the unapplied groups are computed, then the selected target is
the migration of that name and version, the plan is the one group of the current version cut
after that migration, and the run goes on to apply this plan. In the initialization mode a run
without version target never comes to a plan, whatever the migration target. -/
theorem Run_migration_target_without_version {ω : Type} (o : Outside ω) (fs : FileSystem)
    (cfg : Config) (s s0 : State ω) (currentMigration : Migration) (head : MigrationGroup)
    (unappliedMigrations : List MigrationGroup) (k : Nat) (x : Migration)
    (hfinds : Run.finds o cfg s false currentMigration s0)
    (hversion : cfg.StringVersionDb = "") (hname : cfg.StringNameMigration ≠ "")
    (hhead : getUnappliedSortedMigrationsForVersion
      (MigrationDiskRepo.asRepo fs
        { IsVerbose := cfg.IsVerbose, PathToMigrations := cfg.PathToMigrations })
      false currentMigration = .ok head)
    (hun : GetUnappliedSortedMigrations
      (MigrationDiskRepo.asRepo fs
        { IsVerbose := cfg.IsVerbose, PathToMigrations := cfg.PathToMigrations })
      false currentMigration = .ok unappliedMigrations)
    (hk : head.Migrations[k]? = some x) (hx : x.Name = cfg.StringNameMigration) :
    determinationLastMigrationToMigrate cfg.StringVersionDb cfg.StringNameMigration
        currentMigration unappliedMigrations
      = .ok { VersionDb := currentMigration.VersionDb, Name := cfg.StringNameMigration } ∧
    Run.plansFrom o fs cfg s false currentMigration
      [{ VersionDb := currentMigration.VersionDb, Migrations := head.Migrations.take (k + 1) }]
      s0 ∧
    Run o fs cfg s
      = Run.deferredClose o
          (Run.apply o cfg (NewFileReaderUseCase cfg.PathToMigrations)
            { repo := MigrationPostgresRepo.asRepo o }
            { IsVerbose := cfg.IsVerbose, PathToMigrations := cfg.PathToMigrations }
            [{ VersionDb := currentMigration.VersionDb,
               Migrations := head.Migrations.take (k + 1) }] s0) ∧
    (∀ (repo : MigrationRepoForMigrations) (current : Migration) (name : String)
        (plan : List MigrationGroup),
      Run.migrationsToMigrate repo true current "" name ≠ .ok (some plan)) := by
  have hbuilt : NewVersionDb currentMigration.VersionDb.String
      = .ok currentMigration.VersionDb := by
    obtain ⟨-, -, uc, s1, s2, hinit, -, -, hcurrent⟩ := hfinds
    exact determinationCurrentMigration_built o false uc _ s2 s0 currentMigration hinit hcurrent
  have hxmem : x ∈ head.Migrations := List.mem_iff_getElem?.mpr ⟨k, hk⟩
  have hne : head.Migrations ≠ [] := List.ne_nil_of_mem hxmem
  obtain ⟨later, hsplit, hlater⟩ := GetUnappliedSortedMigrations_head fs _ false
    currentMigration head unappliedMigrations hhead hne hun
  obtain ⟨hheadv, hheadm⟩ := getUnappliedSortedMigrationsForVersion_carry fs _ false
    currentMigration head hhead
  obtain ⟨loaded, n, hload, -, hsuffix, -⟩ :=
    getUnappliedSortedMigrationsForVersion_suffix fs _ false currentMigration head hhead
  obtain ⟨-, -, files, -, hloaded⟩ :=
    MigrationDiskRepo.GetSortedMigrations_ok fs _ currentMigration.VersionDb loaded hload
  have hcorrect : isCorrectMigrationName cfg.StringNameMigration = true := by
    rw [← hx]
    have hxl : x ∈ loaded.Migrations := by
      rw [hsuffix] at hxmem
      exact List.mem_of_mem_drop hxmem
    rw [hloaded] at hxl
    exact (GetSortedMigrations_loop_accepted currentMigration.VersionDb files x hxl).1
  have hnew : NewMigration cfg.StringNameMigration currentMigration.VersionDb
      = .ok { VersionDb := currentMigration.VersionDb, Name := cfg.StringNameMigration } := by
    unfold NewMigration
    simp [hcorrect]
  have hequal : Migration.IsEqual
      { VersionDb := currentMigration.VersionDb, Name := cfg.StringNameMigration } x = true := by
    unfold Migration.IsEqual
    simp only [hheadm x hxmem, hx, VersionDb.Equal_refl, beq_self_eq_true, Bool.and_self]
  have hindex : IndexMigration head.Migrations
      { VersionDb := currentMigration.VersionDb, Name := cfg.StringNameMigration }
      = (k : Int) := by
    rcases IndexMigration_spec head.Migrations
      { VersionDb := currentMigration.VersionDb, Name := cfg.StringNameMigration } with
      ⟨-, hnone⟩ | ⟨k', x', hk', hx', hres⟩
    · rw [hnone x hxmem] at hequal
      cases hequal
    · have hsame : x'.Name = x.Name := by
        rw [← Migration.IsEqual_name hx', hx]
      have := getUnappliedSortedMigrationsForVersion_names fs _ false currentMigration head
        hhead k' k x' x hk' hk hsame
      rw [hres, this]
  have hindices : IndicesMigrationInMigrationGroups unappliedMigrations
      { VersionDb := currentMigration.VersionDb, Name := cfg.StringNameMigration }
      = (((0 : Nat) : Int), (k : Int)) := by
    rw [hsplit, IndicesMigrationInMigrationGroups_head head later _ ?_ ?_, hindex]
    · rfl
    · rw [hheadv]
      exact VersionDb.Equal_refl _
    · intro g hg
      exact VersionDb.not_Equal_of_GreaterThan (hlater g hg)
  have htarget : determinationLastMigrationToMigrate cfg.StringVersionDb
      cfg.StringNameMigration currentMigration unappliedMigrations
      = .ok { VersionDb := currentMigration.VersionDb, Name := cfg.StringNameMigration } := by
    unfold determinationLastMigrationToMigrate
    simp only [hversion, if_true, if_neg hname, hnew, hindices]
    have hfound : ¬ ((((0 : Nat) : Int) = -1) ∨ ((k : Int) = -1)) := by omega
    exact if_neg hfound
  have hcarry := GetUnappliedSortedMigrations_carry fs _ false currentMigration
    unappliedMigrations hbuilt hun
  have hcut : getMigrationGroupsAndMigrationsBeforeMigration unappliedMigrations
      { VersionDb := currentMigration.VersionDb, Name := cfg.StringNameMigration }
      = .ok [{ VersionDb := currentMigration.VersionDb,
               Migrations := head.Migrations.take (k + 1) }] := by
    rw [getMigrationGroupsAndMigrationsBeforeMigration_of_indices unappliedMigrations _ 0 k head
      (fun a ha => (hcarry a ha).1) hindices (by simp [hsplit]), hheadv]
    rfl
  have hplan : Run.migrationsToMigrate
      (MigrationDiskRepo.asRepo fs
        { IsVerbose := cfg.IsVerbose, PathToMigrations := cfg.PathToMigrations })
      false currentMigration cfg.StringVersionDb cfg.StringNameMigration
      = .ok (some [{ VersionDb := currentMigration.VersionDb,
                     Migrations := head.Migrations.take (k + 1) }]) := by
    unfold Run.migrationsToMigrate
    rw [hun]
    simp only [htarget, hcut]
    rw [if_neg (by rw [hsplit]; simp), if_neg (by simp), if_neg (by simp [hname])]
  have hplansFrom : Run.plansFrom o fs cfg s false currentMigration
      [{ VersionDb := currentMigration.VersionDb,
         Migrations := head.Migrations.take (k + 1) }] s0 := ⟨hfinds, hplan⟩
  refine ⟨htarget, hplansFrom, Run_of_plans o fs cfg s s0 _ ⟨false, currentMigration, hplansFrom⟩,
    ?_⟩
  intro repo current name plan hsome
  unfold Run.migrationsToMigrate at hsome
  rcases hun' : GetUnappliedSortedMigrations repo true current with f | un
  · rw [hun'] at hsome
    rcases f with e | e | e <;> cases hsome
  · rw [hun'] at hsome
    simp only [] at hsome
    split at hsome
    · cases hsome
    · simp at hsome

/-- Witness of C11, amended, on the test `SpecifiedOnlyNameMigration`: in the normal mode with
the record `(v0.0.3, 0002.Clear)`, `-migration 0003.Hqwerty` and no `-versiondb`, the target
is `(v0.0.3, 0003.Hqwerty)` and the run comes to apply the plan of that one migration. -/
theorem Run_migration_target_without_version_witness :
    Run.finds exampleOutside (exampleConfig "" "0003.Hqwerty") (start exampleWorld) false
      exampleCurrent (afterSetup exampleWorld) ∧
    getUnappliedSortedMigrationsForVersion (MigrationDiskRepo.asRepo exampleTree exampleRepo)
        false exampleCurrent
      = .ok { VersionDb := v003, Migrations := [{ VersionDb := v003, Name := "0003.Hqwerty" }] } ∧
    GetUnappliedSortedMigrations (MigrationDiskRepo.asRepo exampleTree exampleRepo) false
      exampleCurrent = .ok exampleUnapplied ∧
    determinationLastMigrationToMigrate "" "0003.Hqwerty" exampleCurrent exampleUnapplied
      = .ok { VersionDb := v003, Name := "0003.Hqwerty" } ∧
    Run.plansFrom exampleOutside exampleTree (exampleConfig "" "0003.Hqwerty")
      (start exampleWorld) false exampleCurrent
      [{ VersionDb := v003, Migrations := [{ VersionDb := v003, Name := "0003.Hqwerty" }] }]
      (afterSetup exampleWorld) :=
  ⟨⟨by decide, by decide, { initMigration := initCurrent },
    { outside := exampleWorld, calls := (afterSetup exampleWorld).calls.take 1 },
    { outside := exampleWorld, calls := (afterSetup exampleWorld).calls.take 2 },
    by decide, by decide, by decide, by decide⟩,
    by decide, by decide, by decide,
    (Run_migration_target_without_version exampleOutside exampleTree
      (exampleConfig "" "0003.Hqwerty") (start exampleWorld) (afterSetup exampleWorld)
      exampleCurrent
      { VersionDb := v003, Migrations := [{ VersionDb := v003, Name := "0003.Hqwerty" }] }
      exampleUnapplied 0 { VersionDb := v003, Name := "0003.Hqwerty" }
      ⟨by decide, by decide, { initMigration := initCurrent },
        { outside := exampleWorld, calls := (afterSetup exampleWorld).calls.take 1 },
        { outside := exampleWorld, calls := (afterSetup exampleWorld).calls.take 2 },
        by decide, by decide, by decide, by decide⟩
      (by decide) (by decide) (by decide) (by decide) (by decide) (by decide)).2.1⟩

/-- Counterexample to C14 as stated, on the scenario *Init-mode bootstrap* with `-versiondb
v0.0.0 -migration 0001.CreateLastMigrationTable`: the group `v0.0.0` holds two migrations, the
target is accepted, and the plan is the group `v0.0.0` cut after the first migration, not the
full group. -/
theorem Run_init_mode_plan_cuts_first_group :
    getUnappliedSortedMigrationsForVersion (exampleRepo.asRepo initTree) true initCurrent
      = .ok initHead ∧
    initHead.Migrations.length = 2 ∧
    Run.migrationsToMigrate (exampleRepo.asRepo initTree) true initCurrent "v0.0.0"
        "0001.CreateLastMigrationTable"
      = .ok (some [{ VersionDb := v000,
                     Migrations := [{ VersionDb := v000,
                                      Name := "0001.CreateLastMigrationTable" }] }]) ∧
    [{ VersionDb := v000,
       Migrations := [{ VersionDb := v000, Name := "0001.CreateLastMigrationTable" }] }].head?
      ≠ some initHead := by
  refine ⟨?_, ?_, ?_, ?_⟩ <;> decide

/-- In the initialization mode the group of the current version that the unapplied computation
returns is not empty. -/
theorem getUnappliedSortedMigrationsForVersion_init_nonempty (repo : MigrationRepoForMigrations)
    (currentMigration : Migration) (head : MigrationGroup)
    (h : getUnappliedSortedMigrationsForVersion repo true currentMigration = .ok head) :
    head.Migrations ≠ [] := by
  unfold getUnappliedSortedMigrationsForVersion at h
  rcases hload : repo.GetSortedMigrations currentMigration.VersionDb with f | loaded
  · rw [hload] at h
    cases h
  · rw [hload] at h
    simp only [if_true] at h
    split at h
    · cases h
    · rename_i hlen
      simp only [Except.ok.injEq] at h
      subst h
      intro hnil
      exact hlen (by rw [hnil]; rfl)

/-- A target that the version-only search returns is the last migration of one of the groups. -/
theorem determinationLastMigrationToMigrate_loop_mem (versiondb : VersionDb) (target : Migration) :
    ∀ groups : List MigrationGroup,
      determinationLastMigrationToMigrate.loop versiondb groups = .ok target →
      ∃ g ∈ groups, g.Migrations.getLast? = some target
  | [], h => by
    simp [determinationLastMigrationToMigrate.loop] at h
  | mg :: rest, h => by
    rw [determinationLastMigrationToMigrate.loop] at h
    by_cases heq : mg.VersionDb.Equal versiondb = true
    · rw [if_pos heq] at h
      rcases hl : mg.Migrations.getLast? with _ | last
      · rw [hl] at h
        cases h
      · rw [hl] at h
        simp only [Except.ok.injEq] at h
        subst h
        exact ⟨mg, List.mem_cons_self _ _, hl⟩
    · rw [if_neg heq] at h
      obtain ⟨g, hg, hlast⟩ := determinationLastMigrationToMigrate_loop_mem versiondb target rest h
      exact ⟨g, List.mem_cons_of_mem _ hg, hlast⟩

/-- C14, amended: in the initialization mode, with the current record that
`NewInitMigrationUseCase` builds and `head` the non-empty group `v0.0.0` of the disk source,
for every target that the planner accepts (any `-versiondb`, with or without `-migration`) the
first element of the plan is the group `v0.0.0`, and the plan ends with the target that
`determinationLastMigrationToMigrate` selected: when the plan has further groups its first
element is the full group `head`; when the plan is that one group, the target is a migration
of `head`, at the only position of `head` that has its name, and the first element is `head`
cut after that position, so that its last migration is the target; a target given by the
version only is the last migration of `head`, and the first element is the full group. -/
theorem Run_init_mode_first_group (fs : FileSystem) (r : MigrationDiskRepo)
    (ucInitMigration : InitMigrationUseCase) (head : MigrationGroup)
    (StringVersionDb StringNameMigration : String) (plan : List MigrationGroup)
    (hinit : NewInitMigrationUseCase = .ok ucInitMigration)
    (hhead : getUnappliedSortedMigrationsForVersion (r.asRepo fs) true
      ucInitMigration.GetInitMigration = .ok head)
    (hplan : Run.migrationsToMigrate (r.asRepo fs) true ucInitMigration.GetInitMigration
      StringVersionDb StringNameMigration = .ok (some plan)) :
    head.Migrations ≠ [] ∧ head.VersionDb.String = "v0.0.0" ∧
    r.GetSortedMigrations fs ucInitMigration.GetInitMigration.VersionDb = .ok head ∧
    ∃ (unappliedMigrations : List MigrationGroup) (target : Migration)
      (first : MigrationGroup) (rest : List MigrationGroup),
      GetUnappliedSortedMigrations (r.asRepo fs) true ucInitMigration.GetInitMigration
        = .ok unappliedMigrations ∧
      determinationLastMigrationToMigrate StringVersionDb StringNameMigration
        ucInitMigration.GetInitMigration unappliedMigrations = .ok target ∧
      (StringNameMigration ≠ "" → target.Name = StringNameMigration) ∧
      plan = first :: rest ∧ first.VersionDb = head.VersionDb ∧
      (∃ last, Run.lastAppliedMigration plan = .ok last ∧ target.IsEqual last = true) ∧
      (rest ≠ [] → first = head) ∧
      (rest = [] → ∃ (m : Nat) (x : Migration), m < head.Migrations.length ∧
        head.Migrations[m]? = some x ∧ target.IsEqual x = true ∧
        (∀ (k : Nat) (y : Migration), head.Migrations[k]? = some y →
          y.Name = target.Name → k = m) ∧
        first.Migrations = head.Migrations.take (m + 1) ∧
        first.Migrations.getLast? = some x ∧
        (StringNameMigration = "" → first = head)) := by
  rw [NewInitMigrationUseCase_eq] at hinit
  simp only [Except.ok.injEq] at hinit
  subst hinit
  have hbuilt : NewVersionDb initCurrent.VersionDb.String = .ok initCurrent.VersionDb := by
    decide
  have hne := getUnappliedSortedMigrationsForVersion_init_nonempty _ _ head hhead
  obtain ⟨loaded, n, hload, hheadv, hsuffix, hn⟩ :=
    getUnappliedSortedMigrationsForVersion_suffix fs r true initCurrent head hhead
  have hwhole : loaded = head := by
    obtain ⟨hlv, -⟩ := GetSortedMigrations_carry fs r initCurrent.VersionDb loaded hload
    rw [hn rfl, List.drop_zero] at hsuffix
    rcases loaded with ⟨lv, lm⟩
    rcases head with ⟨hv, hm⟩
    simp only at hlv hheadv hsuffix
    rw [hlv, hheadv, hsuffix]
  have hcheck : migrationsStructureCheck head = .ok () := by
    rw [← hwhole]
    exact (MigrationDiskRepo.GetSortedMigrations_ok fs r initCurrent.VersionDb loaded hload).2.1
  obtain ⟨un, target, hun, -, hsv, -, hdet, hcut⟩ :=
    Run.migrationsToMigrate_some _ true initCurrent StringVersionDb StringNameMigration plan hplan
  obtain ⟨later, hsplit, hlater⟩ := GetUnappliedSortedMigrations_head fs r true initCurrent head
    un hhead hne hun
  have hcarry := GetUnappliedSortedMigrations_carry fs r true initCurrent un hbuilt hun
  obtain ⟨g, m, grp, x, -, hg, hm, hgrpv, hx, -, hshape⟩ :=
    getMigrationGroupsAndMigrationsBeforeMigration_shape un target plan
      (fun a ha => (hcarry a ha).1) hcut
  have hlast : Run.lastAppliedMigration plan = .ok x := by
    rw [hshape]
    exact Run.lastAppliedMigration_of_shape _ grp m x hm
  refine ⟨hne, ?_, ?_, un, target, ?_⟩
  · rw [hheadv]
    rfl
  · rw [← hwhole]
    exact hload
  · rw [hsplit] at hg hshape
    cases g with
    | zero =>
      simp only [List.getElem?_cons_zero, Option.some.injEq] at hg
      subst hg
      have hmlt : m < head.Migrations.length := (List.getElem?_eq_some_iff.mp hm).1
      have huniq : ∀ (k : Nat) (y : Migration), head.Migrations[k]? = some y →
          y.Name = target.Name → k = m := fun k y hy hname =>
        name_position_unique head hcheck k m y x hy hm
          (hname.trans (Migration.IsEqual_name hx))
      have hgetLast : (head.Migrations.take (m + 1)).getLast? = some x := by
        rw [List.getLast?_eq_getElem?, List.length_take, List.getElem?_take]
        have e : min (m + 1) head.Migrations.length - 1 = m := by omega
        rw [e, if_pos (by omega)]
        exact hm
      refine ⟨_, [], hun, hdet,
        fun hname => determinationLastMigrationToMigrate_name _ _ _ _ _ hname hdet,
        hshape, rfl, ⟨x, hlast, hx⟩, fun hc => absurd rfl hc, fun _ =>
        ⟨m, x, hmlt, hm, hx, huniq, rfl, hgetLast, fun hname => ?_⟩⟩
      subst hname
      have hsvne : StringVersionDb ≠ "" := fun h0 => hsv ⟨h0, rfl⟩
      rcases hp : NewVersionDb StringVersionDb with f | v
      · unfold determinationLastMigrationToMigrate at hdet
        rw [if_neg hsvne, hp] at hdet
        rcases f with e | e | e <;> simp at hdet
      rw [determinationLastMigrationToMigrate_version_only_eq StringVersionDb v initCurrent un hp]
        at hdet
      obtain ⟨G, hG, hGlast⟩ := determinationLastMigrationToMigrate_loop_mem v target un hdet
      have htG : target.VersionDb = G.VersionDb :=
        (hcarry G hG).2.2 target (List.mem_of_mem_getLast? hGlast)
      rw [hsplit] at hG
      rcases List.mem_cons.mp hG with hGhead | hGlater
      · subst hGhead
        have hlastpos : G.Migrations[G.Migrations.length - 1]? = some target := by
          rw [← List.getLast?_eq_getElem?]
          exact hGlast
        have hmeq : G.Migrations.length - 1 = m := huniq _ target hlastpos rfl
        have htake : G.Migrations.take (m + 1) = G.Migrations :=
          List.take_of_length_le (by omega)
        rw [htake]
      · exfalso
        have hgt := hlater G hGlater
        have hneq := VersionDb.not_Equal_of_GreaterThan hgt
        rw [htG, hheadv] at hgrpv
        rw [VersionDb.Equal_symm hgrpv] at hneq
        cases hneq
    | succ g =>
      refine ⟨head, later.take g
        ++ [{ VersionDb := grp.VersionDb, Migrations := grp.Migrations.take (m + 1) }],
        hun, hdet, fun hname => determinationLastMigrationToMigrate_name _ _ _ _ _ hname hdet,
        ?_, rfl, ⟨x, ?_, hx⟩, fun _ => rfl, fun hc => ?_⟩
      · rw [hshape, List.take_succ_cons, List.cons_append]
      · exact hlast
      · simp at hc

/-- Witness of C14, amended, on the scenario *Init-mode bootstrap*: with `-versiondb v0.0.3`
the plan is the full group `v0.0.0` followed by the group `v0.0.3`; with `-versiondb v0.0.0
-migration 0001.CreateLastMigrationTable` the plan is the group `v0.0.0` cut after that
migration; with `-versiondb v0.0.0` alone it is the full group `v0.0.0`. -/
theorem Run_init_mode_first_group_witness :
    NewInitMigrationUseCase = .ok { initMigration := initCurrent } ∧
    getUnappliedSortedMigrationsForVersion (exampleRepo.asRepo initTree) true initCurrent
      = .ok initHead ∧
    Run.migrationsToMigrate (exampleRepo.asRepo initTree) true initCurrent "v0.0.3" ""
      = .ok (some [initHead, initLater]) ∧
    Run.migrationsToMigrate (exampleRepo.asRepo initTree) true initCurrent "v0.0.0"
        "0001.CreateLastMigrationTable"
      = .ok (some [{ VersionDb := v000,
                     Migrations := [{ VersionDb := v000,
                                      Name := "0001.CreateLastMigrationTable" }] }]) ∧
    Run.migrationsToMigrate (exampleRepo.asRepo initTree) true initCurrent "v0.0.0" ""
      = .ok (some [initHead]) ∧
    (∃ (unappliedMigrations : List MigrationGroup) (target : Migration)
      (first : MigrationGroup) (rest : List MigrationGroup),
      GetUnappliedSortedMigrations (exampleRepo.asRepo initTree) true initCurrent
        = .ok unappliedMigrations ∧
      determinationLastMigrationToMigrate "v0.0.3" "" initCurrent unappliedMigrations
        = .ok target ∧
      (("" : String) ≠ "" → target.Name = "") ∧
      [initHead, initLater] = first :: rest ∧ first.VersionDb = initHead.VersionDb ∧
      (∃ last, Run.lastAppliedMigration [initHead, initLater] = .ok last ∧
        target.IsEqual last = true) ∧
      (rest ≠ [] → first = initHead) ∧
      (rest = [] → ∃ (m : Nat) (x : Migration), m < initHead.Migrations.length ∧
        initHead.Migrations[m]? = some x ∧ target.IsEqual x = true ∧
        (∀ (k : Nat) (y : Migration), initHead.Migrations[k]? = some y →
          y.Name = target.Name → k = m) ∧
        first.Migrations = initHead.Migrations.take (m + 1) ∧
        first.Migrations.getLast? = some x ∧
        (("" : String) = "" → first = initHead))) ∧
    (∃ (unappliedMigrations : List MigrationGroup) (target : Migration)
      (first : MigrationGroup) (rest : List MigrationGroup),
      GetUnappliedSortedMigrations (exampleRepo.asRepo initTree) true initCurrent
        = .ok unappliedMigrations ∧
      determinationLastMigrationToMigrate "v0.0.0" "0001.CreateLastMigrationTable" initCurrent
        unappliedMigrations = .ok target ∧
      ("0001.CreateLastMigrationTable" ≠ "" → target.Name = "0001.CreateLastMigrationTable") ∧
      [({ VersionDb := v000,
          Migrations := [{ VersionDb := v000, Name := "0001.CreateLastMigrationTable" }] } :
        MigrationGroup)] = first :: rest ∧
      first.VersionDb = initHead.VersionDb ∧
      (∃ last, Run.lastAppliedMigration
          [{ VersionDb := v000,
             Migrations := [{ VersionDb := v000, Name := "0001.CreateLastMigrationTable" }] }]
          = .ok last ∧
        target.IsEqual last = true) ∧
      (rest ≠ [] → first = initHead) ∧
      (rest = [] → ∃ (m : Nat) (x : Migration), m < initHead.Migrations.length ∧
        initHead.Migrations[m]? = some x ∧ target.IsEqual x = true ∧
        (∀ (k : Nat) (y : Migration), initHead.Migrations[k]? = some y →
          y.Name = target.Name → k = m) ∧
        first.Migrations = initHead.Migrations.take (m + 1) ∧
        first.Migrations.getLast? = some x ∧
        ("0001.CreateLastMigrationTable" = "" → first = initHead))) :=
  ⟨by decide, by decide, by decide, by decide, by decide,
    (Run_init_mode_first_group initTree exampleRepo { initMigration := initCurrent } initHead
      "v0.0.3" "" [initHead, initLater] (by decide) (by decide) (by decide)).2.2.2,
    (Run_init_mode_first_group initTree exampleRepo { initMigration := initCurrent } initHead
      "v0.0.0" "0001.CreateLastMigrationTable"
      [{ VersionDb := v000,
         Migrations := [{ VersionDb := v000, Name := "0001.CreateLastMigrationTable" }] }]
      (by decide) (by decide) (by decide)).2.2.2⟩

/-- C20, the code at the failing inputs: `strconv.Atoi` accepts a sign, so `NewMigration`
succeeds on `+123.First` and on `-001.abc`, whose parts before the dot have four bytes but are
not four decimal digits; the disk source then loads the file `+001.First.sql` as the first
migration of its version. A name of four digits and a label is accepted and one of two digits
is refused, as the claim says. -/
theorem NewMigration_signed_number :
    NewMigration "+123.First" v003 = .ok { VersionDb := v003, Name := "+123.First" } ∧
    NewMigration "-001.abc" v003 = .ok { VersionDb := v003, Name := "-001.abc" } ∧
    "+123".toList.all Char.isDigit = false ∧ "-001".toList.all Char.isDigit = false ∧
    Atoi "+123" = .ok 123 ∧ Atoi "-001" = .ok (-1) ∧
    exampleRepo.GetSortedMigrations signedNameTree v003
      = .ok { VersionDb := v003, Migrations := [{ VersionDb := v003, Name := "+001.First" }] } ∧
    NewMigration "0001.First" v003 = .ok { VersionDb := v003, Name := "0001.First" } ∧
    NewMigration "02.Clear" v003 = .error (.error "incorrect migration name") := by
  refine ⟨?_, ?_, ?_, ?_, ?_, ?_, ?_, ?_, ?_⟩ <;> decide

/-! ## Versions -/

/-- The comparison of the library is `lt` exactly on the triples in strict lexicographic
order. -/
theorem Version.Compare_lt_iff (v o : Version) :
    v.Compare o = .lt ↔ tripleLess v.major v.minor v.patch o.major o.minor o.patch := by
  unfold Version.Compare tripleLess
  rcases Nat.lt_trichotomy v.major o.major with h1 | h1 | h1
  · rw [compare_lt_iff_lt.mpr h1]
    simp [Ordering.then]
    omega
  · rw [compare_eq_iff_eq.mpr h1]
    rcases Nat.lt_trichotomy v.minor o.minor with h2 | h2 | h2
    · rw [compare_lt_iff_lt.mpr h2]
      simp [Ordering.then]
      omega
    · rw [compare_eq_iff_eq.mpr h2]
      simp only [Ordering.then]
      rw [compare_lt_iff_lt]
      omega
    · rw [compare_gt_iff_gt.mpr h2]
      simp [Ordering.then]
      omega
  · rw [compare_gt_iff_gt.mpr h1]
    simp [Ordering.then]
    omega

/-- The comparison of the library is `gt` exactly when the triples are in strict lexicographic
order the other way round. -/
theorem Version.Compare_gt_iff (v o : Version) :
    v.Compare o = .gt ↔ tripleLess o.major o.minor o.patch v.major v.minor v.patch := by
  unfold Version.Compare tripleLess
  rcases Nat.lt_trichotomy v.major o.major with h1 | h1 | h1
  · rw [compare_lt_iff_lt.mpr h1]
    simp [Ordering.then]
    omega
  · rw [compare_eq_iff_eq.mpr h1]
    rcases Nat.lt_trichotomy v.minor o.minor with h2 | h2 | h2
    · rw [compare_lt_iff_lt.mpr h2]
      simp [Ordering.then]
      omega
    · rw [compare_eq_iff_eq.mpr h2]
      simp only [Ordering.then]
      rw [compare_gt_iff_gt]
      omega
    · rw [compare_gt_iff_gt.mpr h2]
      simp [Ordering.then]
      omega
  · rw [compare_gt_iff_gt.mpr h1]
    simp [Ordering.then]
    omega

/-- `LessThan` is the strict lexicographic order of the triples. -/
theorem VersionDb.LessThan_iff (a b : VersionDb) :
    a.LessThan b = true ↔ tripleLess a.version.major a.version.minor a.version.patch
      b.version.major b.version.minor b.version.patch := by
  unfold VersionDb.LessThan
  rw [decide_eq_true_iff, Version.Compare_lt_iff]

/-- `GreaterThan` is the strict lexicographic order of the triples the other way round. -/
theorem VersionDb.GreaterThan_iff (a b : VersionDb) :
    a.GreaterThan b = true ↔ tripleLess b.version.major b.version.minor b.version.patch
      a.version.major a.version.minor a.version.patch := by
  unfold VersionDb.GreaterThan
  rw [decide_eq_true_iff, Version.Compare_gt_iff]

/-- A piece that holds no separator ends at the first separator. -/
theorem Split.pieces_append (sep : Char) :
    ∀ (a rest : List Char), sep ∉ a →
      Split.pieces sep (a ++ sep :: rest) = a :: Split.pieces sep rest
  | [], rest, _ => by
    simp [Split.pieces]
  | c :: a, rest, h => by
    have hc : c ≠ sep := fun e => h (by rw [e]; exact List.mem_cons_self _ _)
    have ha : sep ∉ a := fun e => h (List.mem_cons_of_mem _ e)
    rw [List.cons_append, Split.pieces, if_neg hc, Split.pieces_append sep a rest ha]

/-- A text that holds no separator is one piece. -/
theorem Split.pieces_single (sep : Char) :
    ∀ (a : List Char), sep ∉ a → Split.pieces sep a = [a]
  | [], _ => rfl
  | c :: a, h => by
    have hc : c ≠ sep := fun e => h (by rw [e]; exact List.mem_cons_self _ _)
    have ha : sep ∉ a := fun e => h (List.mem_cons_of_mem _ e)
    rw [Split.pieces, if_neg hc, Split.pieces_single sep a ha]

/-- A run of decimal digits has a value. -/
theorem Atoi.digits_of_all_digits :
    ∀ (cs : List Char) (acc : Nat), cs.all Char.isDigit = true →
      ∃ n, Atoi.digits cs acc = some n
  | [], acc, _ => ⟨acc, rfl⟩
  | c :: cs, acc, h => by
    simp only [List.all_cons, Bool.and_eq_true] at h
    rw [Atoi.digits, if_pos h.1]
    exact Atoi.digits_of_all_digits cs _ h.2

/-- A component as the specification writes it has a value and holds no dot. -/
theorem Version.component_of_isDecimal (cs : List Char) (h : Version.isDecimal cs = true) :
    '.' ∉ cs ∧ ∃ n, Version.component cs = some n ∧ Atoi.digits cs 0 = some n := by
  unfold Version.isDecimal at h
  simp only [Bool.and_eq_true, Bool.not_eq_true', List.isEmpty_eq_false] at h
  obtain ⟨hne, hall⟩ := h
  refine ⟨?_, ?_⟩
  · intro hmem
    have := List.all_eq_true.mp hall '.' hmem
    revert this
    decide
  · obtain ⟨n, hn⟩ := Atoi.digits_of_all_digits cs 0 hall
    refine ⟨n, ?_, hn⟩
    cases cs with
    | nil => exact absurd rfl hne
    | cons d ds => exact hn

/-- A version string of three decimal components is parsed to their values. -/
theorem NewVersionDb_text (a b c : List Char) (ha : Version.isDecimal a = true)
    (hb : Version.isDecimal b = true) (hc : Version.isDecimal c = true) :
    ∃ x y z, Atoi.digits a 0 = some x ∧ Atoi.digits b 0 = some y ∧ Atoi.digits c 0 = some z ∧
      NewVersionDb (Version.text a b c)
        = .ok { version := { major := x, minor := y, patch := z,
                             original := Version.text a b c } } := by
  obtain ⟨hda, x, hx, hx'⟩ := Version.component_of_isDecimal a ha
  obtain ⟨hdb, y, hy, hy'⟩ := Version.component_of_isDecimal b hb
  obtain ⟨hdc, z, hz, hz'⟩ := Version.component_of_isDecimal c hc
  refine ⟨x, y, z, hx', hy', hz', ?_⟩
  have hsplit : Split.pieces '.' (a ++ '.' :: b ++ '.' :: c) = [a, b, c] := by
    have e : a ++ '.' :: b ++ '.' :: c = a ++ '.' :: (b ++ '.' :: c) := by simp
    rw [e, Split.pieces_append '.' a _ hda, Split.pieces_append '.' b _ hdb,
      Split.pieces_single '.' c hdc]
  unfold NewVersionDb IsFirstV NewVersion Version.text
  simp only [String.toList, List.cons_append, decide_True, hsplit, hx, hy, hz]

/-- C21: for all version strings `v<a>.<b>.<c>` and `v<a'>.<b'>.<c'>` whose components are
non-empty runs of decimal digits, `NewVersionDb` builds two versions whose components are the
numeric values of the digit runs; exactly one of `LessThan`, `Equal` and `GreaterThan` holds
between them, and each agrees with the lexicographic comparison of the triples of values:
`LessThan` with the strict order, `Equal` with equality, `GreaterThan` with the strict order
the other way round. -/
theorem VersionDb_order_numeric (a b c a' b' c' : List Char)
    (ha : Version.isDecimal a = true) (hb : Version.isDecimal b = true)
    (hc : Version.isDecimal c = true) (ha' : Version.isDecimal a' = true)
    (hb' : Version.isDecimal b' = true) (hc' : Version.isDecimal c' = true) :
    ∃ (v v' : VersionDb) (x y z x' y' z' : Nat),
      NewVersionDb (Version.text a b c) = .ok v ∧
      NewVersionDb (Version.text a' b' c') = .ok v' ∧
      Atoi.digits a 0 = some x ∧ Atoi.digits b 0 = some y ∧ Atoi.digits c 0 = some z ∧
      Atoi.digits a' 0 = some x' ∧ Atoi.digits b' 0 = some y' ∧ Atoi.digits c' 0 = some z' ∧
      ((v.LessThan v' = true ∧ v.Equal v' = false ∧ v.GreaterThan v' = false) ∨
        (v.LessThan v' = false ∧ v.Equal v' = true ∧ v.GreaterThan v' = false) ∨
        (v.LessThan v' = false ∧ v.Equal v' = false ∧ v.GreaterThan v' = true)) ∧
      (v.LessThan v' = true ↔ tripleLess x y z x' y' z') ∧
      (v.Equal v' = true ↔ x = x' ∧ y = y' ∧ z = z') ∧
      (v.GreaterThan v' = true ↔ tripleLess x' y' z' x y z) := by
  obtain ⟨x, y, z, hx, hy, hz, hv⟩ := NewVersionDb_text a b c ha hb hc
  obtain ⟨x', y', z', hx', hy', hz', hv'⟩ := NewVersionDb_text a' b' c' ha' hb' hc'
  refine ⟨_, _, x, y, z, x', y', z', hv, hv', hx, hy, hz, hx', hy', hz', ?_, ?_, ?_, ?_⟩
  · have hlt := VersionDb.LessThan_iff
      { version := { major := x, minor := y, patch := z, original := Version.text a b c } }
      { version := { major := x', minor := y', patch := z', original := Version.text a' b' c' } }
    have heq := VersionDb.Equal_iff
      { version := { major := x, minor := y, patch := z, original := Version.text a b c } }
      { version := { major := x', minor := y', patch := z', original := Version.text a' b' c' } }
    have hgt := VersionDb.GreaterThan_iff
      { version := { major := x, minor := y, patch := z, original := Version.text a b c } }
      { version := { major := x', minor := y', patch := z', original := Version.text a' b' c' } }
    simp only [tripleLess] at hlt heq hgt
    simp only [← Bool.not_eq_true]
    rw [hlt, heq, hgt]
    omega
  · exact VersionDb.LessThan_iff _ _
  · exact VersionDb.Equal_iff _ _
  · exact VersionDb.GreaterThan_iff _ _

/-- Witness of C21 on the versions of the test `MigrationSortingCheck`: `v0.1.9` is less than
`v0.1.11`, since 9 is less than 11, although its text comes later. -/
theorem VersionDb_order_numeric_witness :
    Version.isDecimal ['0'] = true ∧ Version.isDecimal ['1'] = true ∧
    Version.isDecimal ['9'] = true ∧ Version.isDecimal ['1', '1'] = true ∧
    Version.text ['0'] ['1'] ['9'] = "v0.1.9" ∧ Version.text ['0'] ['1'] ['1', '1'] = "v0.1.11" ∧
    (∃ (v v' : VersionDb), NewVersionDb "v0.1.9" = .ok v ∧ NewVersionDb "v0.1.11" = .ok v' ∧
      v.LessThan v' = true ∧ v.Equal v' = false ∧ v.GreaterThan v' = false) ∧
    (∃ (v v' : VersionDb), NewVersionDb "v0.2.5" = .ok v ∧ NewVersionDb "v0.2.15" = .ok v' ∧
      v.LessThan v' = true) ∧
    ∃ (v v' : VersionDb) (x y z x' y' z' : Nat),
      NewVersionDb (Version.text ['0'] ['1'] ['9']) = .ok v ∧
      NewVersionDb (Version.text ['0'] ['1'] ['1', '1']) = .ok v' ∧
      Atoi.digits ['0'] 0 = some x ∧ Atoi.digits ['1'] 0 = some y ∧
      Atoi.digits ['9'] 0 = some z ∧
      Atoi.digits ['0'] 0 = some x' ∧ Atoi.digits ['1'] 0 = some y' ∧
      Atoi.digits ['1', '1'] 0 = some z' ∧
      ((v.LessThan v' = true ∧ v.Equal v' = false ∧ v.GreaterThan v' = false) ∨
        (v.LessThan v' = false ∧ v.Equal v' = true ∧ v.GreaterThan v' = false) ∨
        (v.LessThan v' = false ∧ v.Equal v' = false ∧ v.GreaterThan v' = true)) ∧
      (v.LessThan v' = true ↔ tripleLess x y z x' y' z') ∧
      (v.Equal v' = true ↔ x = x' ∧ y = y' ∧ z = z') ∧
      (v.GreaterThan v' = true ↔ tripleLess x' y' z' x y z) :=
  ⟨by decide, by decide, by decide, by decide, by decide, by decide,
    ⟨{ version := { major := 0, minor := 1, patch := 9, original := "v0.1.9" } },
      { version := { major := 0, minor := 1, patch := 11, original := "v0.1.11" } },
      by decide, by decide, by decide, by decide, by decide⟩,
    ⟨{ version := { major := 0, minor := 2, patch := 5, original := "v0.2.5" } },
      { version := { major := 0, minor := 2, patch := 15, original := "v0.2.15" } },
      by decide, by decide, by decide⟩,
    VersionDb_order_numeric ['0'] ['1'] ['9'] ['0'] ['1'] ['1', '1'] (by decide) (by decide)
      (by decide) (by decide) (by decide) (by decide)⟩

/-- C22: `NewVersionDb` returns the error `the database version must start with 'v'` for every
non-empty string whose first character is not the lowercase `v`, whatever follows. -/
theorem NewVersionDb_requires_v (str : String) (hne : str ≠ "")
    (hfirst : str.toList.head? ≠ some 'v') :
    NewVersionDb str = .error (.error "the database version must start with \x27v\x27") := by
  unfold NewVersionDb IsFirstV
  rcases hlist : str.toList with _ | ⟨c, cs⟩
  · exact absurd (String.ext hlist) hne
  · rw [hlist] at hfirst
    have hc : c ≠ 'v' := fun e => hfirst (by rw [e]; rfl)
    simp [hc]

/-- Witness of C22: `0.0.1`, a well-formed version without the `v`, and `V0.0.1` are
refused. -/
theorem NewVersionDb_requires_v_witness :
    ("0.0.1" : String) ≠ "" ∧ ("0.0.1" : String).toList.head? ≠ some 'v' ∧
    NewVersion "0.0.1" = .ok { major := 0, minor := 0, patch := 1, original := "0.0.1" } ∧
    NewVersionDb "0.0.1" = .error (.error "the database version must start with \x27v\x27") ∧
    NewVersionDb "V0.0.1" = .error (.error "the database version must start with \x27v\x27") :=
  ⟨by decide, by decide, by decide,
    NewVersionDb_requires_v "0.0.1" (by decide) (by decide),
    NewVersionDb_requires_v "V0.0.1" (by decide) (by decide)⟩

/-- C30, the code at the failing input: `IsFirstV` slices `name[:1]`, so `NewVersionDb` faults
on the empty string, `migrationRepoToDomain` faults on a record whose `version_db` is empty,
and a run that reads such a record ends in that panic, with exit code 2. On every non-empty
string `NewVersionDb` returns a version or an error, as the claim says. -/
theorem NewVersionDb_empty_string_faults :
    IsFirstV "" = .error (.panic "runtime error: slice bounds out of range [:1] with length 0") ∧
    NewVersionDb ""
      = .error (.panic "runtime error: slice bounds out of range [:1] with length 0") ∧
    migrationRepoToDomain { VersionDb := "", Name := "0002.Clear" }
      = .error (.panic "runtime error: slice bounds out of range [:1] with length 0") ∧
    (Run exampleOutside exampleTree (exampleConfig "v0.0.4" "") (start emptyVersionWorld)).1
      = .error (.panic "runtime error: slice bounds out of range [:1] with length 0") ∧
    (main exampleOutside exampleTree (exampleConfig "v0.0.4" "") (start emptyVersionWorld)).1
      = 2 ∧
    ∀ str : String, str ≠ "" →
      (∃ v, NewVersionDb str = .ok v) ∨ ∃ e, NewVersionDb str = .error (.error e) := by
  refine ⟨by decide, by decide, by decide, by decide, by decide, fun str hne => ?_⟩
  unfold NewVersionDb IsFirstV
  rcases hlist : str.toList with _ | ⟨c, cs⟩
  · exact absurd (String.ext hlist) hne
  · simp only []
    by_cases hc : c = 'v'
    · simp only [hc, decide_True]
      rcases NewVersion str with e | v
      · exact Or.inr ⟨e, rfl⟩
      · exact Or.inl ⟨_, rfl⟩
    · simp only [hc, decide_False]
      exact Or.inr ⟨_, rfl⟩

/-- The order in which `sortCollection` puts two versions is total. -/
theorem sortCollection_total (a b : VersionDb) :
    b.LessThan a = false ∨ a.LessThan b = false := by
  have h1 := VersionDb.LessThan_iff a b
  have h2 := VersionDb.LessThan_iff b a
  simp only [tripleLess] at h1 h2
  simp only [← Bool.not_eq_true]
  rw [h1, h2]
  omega

/-- The order in which `sortCollection` puts two versions is transitive. -/
theorem sortCollection_trans (a b c : VersionDb) (hab : b.LessThan a = false)
    (hbc : c.LessThan b = false) : c.LessThan a = false := by
  have h1 := VersionDb.LessThan_iff b a
  have h2 := VersionDb.LessThan_iff c b
  have h3 := VersionDb.LessThan_iff c a
  simp only [tripleLess] at h1 h2 h3
  simp only [← Bool.not_eq_true] at hab hbc ⊢
  rw [h1] at hab
  rw [h2] at hbc
  rw [h3]
  omega

/-- The result of `sortCollection` is in ascending order: no version is less than one before
it. -/
theorem sortCollection_sorted (versions : List VersionDb) :
    (sortCollection versions).Pairwise (fun a b => b.LessThan a = false) := by
  haveI : IsTotal VersionDb (fun a b => b.LessThan a = false) := ⟨sortCollection_total⟩
  haveI : IsTrans VersionDb (fun a b => b.LessThan a = false) := ⟨sortCollection_trans⟩
  exact List.sorted_insertionSort (fun a b : VersionDb => b.LessThan a = false) versions

/-- On a non-empty name `NewVersionDb` does not fault. -/
theorem NewVersionDb_of_ne_empty (str : String) (hne : str ≠ "") :
    (∃ v, NewVersionDb str = .ok v) ∨ ∃ e, NewVersionDb str = .error (.error e) := by
  unfold NewVersionDb IsFirstV
  rcases hlist : str.toList with _ | ⟨c, cs⟩
  · exact absurd (String.ext hlist) hne
  · simp only []
    by_cases hc : c = 'v'
    · simp only [hc, decide_True]
      rcases NewVersion str with e | v
      · exact Or.inr ⟨e, rfl⟩
      · exact Or.inl ⟨_, rfl⟩
    · simp only [hc, decide_False]
      exact Or.inr ⟨_, rfl⟩

/-- The loop of `GetSortedVersions` over entries with non-empty names adds, in the order of
the listing, the versions of the entries that have one. -/
theorem GetSortedVersions_loop_eq :
    ∀ (dirs : List String) (acc : List VersionDb), (∀ d ∈ dirs, d ≠ "") →
      GetSortedVersions.loop dirs acc = .ok (acc ++ dirs.filterMap versionOfEntry)
  | [], acc, _ => by
    simp [GetSortedVersions.loop]
  | d :: dirs, acc, h => by
    have hd : d ≠ "" := h d (List.mem_cons_self _ _)
    have hrest : ∀ d' ∈ dirs, d' ≠ "" := fun d' hd' => h d' (List.mem_cons_of_mem _ hd')
    rw [GetSortedVersions.loop]
    rcases hlist : d.toList with _ | ⟨c, cs⟩
    · exact absurd (String.ext hlist) hd
    have hfirst : IsFirstV d = .ok (decide (c = 'v')) := by
      unfold IsFirstV
      rw [hlist]
    rw [hfirst]
    by_cases hc : c = 'v'
    · simp only [hc, decide_True]
      rcases NewVersionDb_of_ne_empty d hd with ⟨v, hv⟩ | ⟨e, he⟩
      · rw [hv]
        simp only []
        rw [GetSortedVersions_loop_eq dirs (acc ++ [v]) hrest, List.filterMap_cons]
        simp only [versionOfEntry, hv, List.append_assoc, List.singleton_append]
      · rw [he]
        simp only []
        rw [GetSortedVersions_loop_eq dirs acc hrest, List.filterMap_cons]
        simp only [versionOfEntry, he]
    · simp only [hc, decide_False]
      have hnone : versionOfEntry d = none := by
        unfold versionOfEntry NewVersionDb
        rw [hfirst]
        simp only [hc, decide_False]
      rw [GetSortedVersions_loop_eq dirs acc hrest, List.filterMap_cons, hnone]

/-- An entry has a version exactly when its name starts with `v` and the library parses it. -/
theorem versionOfEntry_eq_some_iff (d : String) (v : VersionDb) :
    versionOfEntry d = some v ↔ IsFirstV d = .ok true ∧ NewVersion d = .ok v.version := by
  unfold versionOfEntry NewVersionDb
  rcases IsFirstV d with f | b
  · simp
  · cases b
    · simp
    · rcases NewVersion d with e | w
      · simp
      · rcases v with ⟨vv⟩
        simp

/-- C23: for every listing of the migrations root whose entries have non-empty names,
`GetSortedVersions` returns exactly the versions of the entries whose name starts with `v` and
parses as a version, each once per entry, the other entries being skipped without an error;
the result is in ascending order: no version of the result is less than one before it, in
particular for every adjacent pair `a`, `b` the version `b` is not `LessThan` `a`. -/
theorem GetSortedVersions_sorted (fs : FileSystem) (r : MigrationDiskRepo) (dirs : List String)
    (hdirs : fs r.PathToMigrations = .ok dirs) (hnames : ∀ d ∈ dirs, d ≠ "") :
    ∃ versions : List VersionDb,
      r.GetSortedVersions fs = .ok versions ∧
      versions = sortCollection (dirs.filterMap versionOfEntry) ∧
      versions.Perm (dirs.filterMap versionOfEntry) ∧
      (∀ v, v ∈ versions ↔
        ∃ d ∈ dirs, IsFirstV d = .ok true ∧ NewVersion d = .ok v.version) ∧
      versions.Chain' (fun a b => b.LessThan a = false) ∧
      versions.Pairwise (fun a b => b.LessThan a = false) := by
  have hperm : (sortCollection (dirs.filterMap versionOfEntry)).Perm
      (dirs.filterMap versionOfEntry) := List.perm_insertionSort _ _
  have hsorted := sortCollection_sorted (dirs.filterMap versionOfEntry)
  refine ⟨sortCollection (dirs.filterMap versionOfEntry), ?_, rfl, hperm, ?_,
    List.Pairwise.chain' hsorted, hsorted⟩
  · unfold MigrationDiskRepo.GetSortedVersions GetFilesInDir
    rw [hdirs]
    simp only []
    rw [GetSortedVersions_loop_eq dirs [] hnames]
    rfl
  · intro v
    rw [hperm.mem_iff, List.mem_filterMap]
    constructor
    · rintro ⟨d, hd, hv⟩
      exact ⟨d, hd, (versionOfEntry_eq_some_iff d v).mp hv⟩
    · rintro ⟨d, hd, hv⟩
      exact ⟨d, hd, (versionOfEntry_eq_some_iff d v).mpr hv⟩

theorem GetSortedVersions_sorted_witness :
    sortingTree exampleRepo.PathToMigrations
      = .ok ["utils", "v0.1.2", "v0.2.5", "v0.1.11", "v0.1.9", "v0.0.52", "v0.2.15",
          "vt.0.2.5a"] ∧
    exampleRepo.GetSortedVersions sortingTree = .ok sortingVersions ∧
    versionOfEntry "utils" = none ∧ versionOfEntry "vt.0.2.5a" = none ∧
    ∃ versions : List VersionDb,
      exampleRepo.GetSortedVersions sortingTree = .ok versions ∧
      versions = sortCollection
        (["utils", "v0.1.2", "v0.2.5", "v0.1.11", "v0.1.9", "v0.0.52", "v0.2.15",
          "vt.0.2.5a"].filterMap versionOfEntry) ∧
      versions.Perm
        (["utils", "v0.1.2", "v0.2.5", "v0.1.11", "v0.1.9", "v0.0.52", "v0.2.15",
          "vt.0.2.5a"].filterMap versionOfEntry) ∧
      (∀ v, v ∈ versions ↔
        ∃ d ∈ ["utils", "v0.1.2", "v0.2.5", "v0.1.11", "v0.1.9", "v0.0.52", "v0.2.15",
          "vt.0.2.5a"], IsFirstV d = .ok true ∧ NewVersion d = .ok v.version) ∧
      versions.Chain' (fun a b => b.LessThan a = false) ∧
      versions.Pairwise (fun a b => b.LessThan a = false) :=
  ⟨rfl, by decide, by decide, by decide,
    GetSortedVersions_sorted sortingTree exampleRepo _ rfl (by decide)⟩

/-- C24: for the use case that `NewFileReaderUseCase` builds, on every outside,
`GetSqlFromUpdateCurrentMigrationFile` returns a text exactly when reading
`utils/UpdateCurrentVersion.sql` under the migrations path gives that text and the text
contains both `$1` and `$2`, and the text is returned unchanged; when the file is read and
`$1` or `$2` is missing, the result is the error
`the utils/UpdateCurrentVersion.sql must have arguments $1 and $2`. -/
theorem GetSqlFromUpdateCurrentMigrationFile_arguments {ω : Type} (o : Outside ω)
    (pathToMigrations : String) (s : State ω) (text : String) :
    ((NewFileReaderUseCase pathToMigrations).GetSqlFromUpdateCurrentMigrationFile o s = .ok text ↔
      ReadFile o (pathToMigrations ++ "/" ++ "utils/UpdateCurrentVersion.sql") s = .ok text ∧
      Contains text "$1" = true ∧ Contains text "$2" = true) ∧
    (ReadFile o (pathToMigrations ++ "/" ++ "utils/UpdateCurrentVersion.sql") s = .ok text →
      (Contains text "$1" = false ∨ Contains text "$2" = false) →
      (NewFileReaderUseCase pathToMigrations).GetSqlFromUpdateCurrentMigrationFile o s
        = .error (.error "the utils/UpdateCurrentVersion.sql must have arguments $1 and $2")) := by
  have hlit : "utils" ++ "/UpdateCurrentVersion.sql" = "utils/UpdateCurrentVersion.sql" := by
    decide
  have hpath : (NewFileReaderUseCase pathToMigrations).ShortPathToUpdateCurrentMigrationFile
      = "utils/UpdateCurrentVersion.sql" := hlit
  have hmsg : "the " ++ "utils/UpdateCurrentVersion.sql" ++ " must have arguments $1 and $2"
      = "the utils/UpdateCurrentVersion.sql must have arguments $1 and $2" := by decide
  have hpm : (NewFileReaderUseCase pathToMigrations).pathToMigrations = pathToMigrations := rfl
  unfold FileReaderUseCase.GetSqlFromUpdateCurrentMigrationFile FileReaderUseCase.readSqlFile
  rw [hpath, hmsg, hpm]
  rcases hread : ReadFile o (pathToMigrations ++ "/" ++ "utils/UpdateCurrentVersion.sql") s
    with f | sql
  · rcases f with e | e | e <;> simp
  · simp only []
    rcases h1 : Contains sql "$1" <;> rcases h2 : Contains sql "$2" <;>
      simp [h1, h2] <;> intro h <;> subst h <;> simp [h1, h2]

theorem GetSqlFromUpdateCurrentMigrationFile_arguments_witness :
    ReadFile exampleOutside ("migrations" ++ "/" ++ "utils/UpdateCurrentVersion.sql")
      (start emptyTemplateWorld) = .ok "" ∧
    Contains "" "$1" = false ∧
    (NewFileReaderUseCase "migrations").GetSqlFromUpdateCurrentMigrationFile exampleOutside
      (start emptyTemplateWorld)
      = .error (.error "the utils/UpdateCurrentVersion.sql must have arguments $1 and $2") ∧
    (NewFileReaderUseCase "migrations").GetSqlFromUpdateCurrentMigrationFile exampleOutside
      (start exampleWorld) = .ok "UPDATE lastMigration SET version = $1, name = $2" :=
  ⟨by decide, by decide,
    (GetSqlFromUpdateCurrentMigrationFile_arguments exampleOutside "migrations"
      (start emptyTemplateWorld) "").2 (by decide) (Or.inl (by decide)),
    (GetSqlFromUpdateCurrentMigrationFile_arguments exampleOutside "migrations"
      (start exampleWorld) "UPDATE lastMigration SET version = $1, name = $2").1.mpr
      ⟨by decide, by decide, by decide⟩⟩

/-- C27, the code at the failing input: the root of `repeatedVersionTree` holds the four
distinct entry names `utils`, `v0.0.04`, `v0.0.3` and `v0.0.4`, and `GetSortedVersions` returns
the versions `v0.0.3`, `v0.0.04` and `v0.0.4`, of which the second and the third are `Equal`:
a version is repeated in the result. -/
theorem GetSortedVersions_repeated_version :
    repeatedVersionTree exampleRepo.PathToMigrations
      = .ok ["utils", "v0.0.04", "v0.0.3", "v0.0.4"] ∧
    ["utils", "v0.0.04", "v0.0.3", "v0.0.4"].Nodup ∧
    exampleRepo.GetSortedVersions repeatedVersionTree = .ok [v003, v004', v004] ∧
    v004' ≠ v004 ∧ v004'.String = "v0.0.04" ∧ v004.String = "v0.0.4" ∧
    v004'.Equal v004 = true ∧ v004.Equal v004' = true := by
  decide

/-- No group without migrations makes the loop of the version-only target selection fault. -/
theorem determinationLastMigrationToMigrate_loop_no_fault (versiondb : VersionDb) :
    ∀ groups : List MigrationGroup, (∀ g ∈ groups, g.Migrations ≠ []) →
      ∀ msg, determinationLastMigrationToMigrate.loop versiondb groups ≠ .error (.panic msg)
  | [], _, msg => by
    simp [determinationLastMigrationToMigrate.loop]
  | mg :: rest, h, msg => by
    rw [determinationLastMigrationToMigrate.loop]
    by_cases heq : mg.VersionDb.Equal versiondb = true
    · rw [if_pos heq]
      rcases hl : mg.Migrations.getLast? with _ | last
      · exact absurd (List.getLast?_eq_none_iff.mp hl) (h mg (List.mem_cons_self _ _))
      · simp
    · rw [if_neg heq]
      exact determinationLastMigrationToMigrate_loop_no_fault versiondb rest
        (fun g hg => h g (List.mem_cons_of_mem _ hg)) msg

/-- The last group of a plan cut out of groups that all hold a migration holds one, so the
migration written to the record is there. -/
theorem Run.lastAppliedMigration_of_nonempty (groups : List MigrationGroup) (target : Migration)
    (plan : List MigrationGroup) (hne : ∀ g ∈ groups, g.Migrations ≠ [])
    (h : getMigrationGroupsAndMigrationsBeforeMigration groups target = .ok plan) :
    ∃ m, Run.lastAppliedMigration plan = .ok m := by
  unfold getMigrationGroupsAndMigrationsBeforeMigration at h
  simp only [] at h
  split at h
  · cases h
  · rename_i hidx
    rcases hg : groups[(IndicesMigrationInMigrationGroups groups target).1.toNat]? with _ | grp
    · rw [hg] at h
      cases h
    · rw [hg] at h
      simp only [] at h
      have hgrp : grp.Migrations ≠ [] := hne grp (List.mem_iff_getElem?.mpr ⟨_, hg⟩)
      have key : ∀ (pre : List MigrationGroup) (x : MigrationGroup), x.Migrations ≠ [] →
          ∃ m, Run.lastAppliedMigration (pre ++ [x]) = .ok m := by
        intro pre x hx
        unfold Run.lastAppliedMigration
        rw [List.getLast?_concat]
        simp only []
        rcases hl : x.Migrations.getLast? with _ | last
        · exact absurd (List.getLast?_eq_none_iff.mp hl) hx
        · exact ⟨last, rfl⟩
      split at h
      · cases h
        exact key _ _ hgrp
      · cases h
        refine key _ _ ?_
        rw [NewMigrationGroup, forLoop_collect]
        simpa using hgrp

/-- C28: for every repository (every on-disk tree among them), mode and current record, every
group that `GetUnappliedSortedMigrations` returns holds at least one migration, so it has a
last migration; on those groups the version-only target selection never faults with an index
out of range, whatever the version target, and for every plan the planner cuts out of them the
migration written to the record, the last migration of the last group of the plan, is there. -/
theorem GetUnappliedSortedMigrations_groups_nonempty (repo : MigrationRepoForMigrations)
    (isInitMod : Bool) (currentMigration : Migration) (res : List MigrationGroup)
    (h : GetUnappliedSortedMigrations repo isInitMod currentMigration = .ok res) :
    (∀ g ∈ res, g.Migrations.length ≥ 1 ∧ ∃ last, g.Migrations.getLast? = some last) ∧
    (∀ (stringVersionDb msg : String),
      determinationLastMigrationToMigrate stringVersionDb "" currentMigration res
        ≠ .error (.panic msg)) ∧
    (∀ (target : Migration) (plan : List MigrationGroup),
      getMigrationGroupsAndMigrationsBeforeMigration res target = .ok plan →
      ∃ m, Run.lastAppliedMigration plan = .ok m) ∧
    (∀ (StringVersionDb StringNameMigration : String) (plan : List MigrationGroup),
      Run.migrationsToMigrate repo isInitMod currentMigration StringVersionDb StringNameMigration
        = .ok (some plan) →
      ∃ m, Run.lastAppliedMigration plan = .ok m) := by
  have hne := GetUnappliedSortedMigrations_nonempty repo isInitMod currentMigration res h
  refine ⟨?_, ?_, ?_, ?_⟩
  · intro g hg
    have hg' := hne g hg
    refine ⟨List.length_pos.mpr hg', ?_⟩
    rcases hl : g.Migrations.getLast? with _ | last
    · exact absurd (List.getLast?_eq_none_iff.mp hl) hg'
    · exact ⟨last, rfl⟩
  · intro sv msg
    unfold determinationLastMigrationToMigrate
    by_cases hsv : sv = ""
    · simp only [hsv, if_true]
      exact determinationLastMigrationToMigrate_loop_no_fault _ res hne msg
    · simp only [hsv, if_false]
      rcases NewVersionDb_of_ne_empty sv hsv with ⟨v, hv⟩ | ⟨e, he⟩
      · rw [hv]
        simp only [if_true]
        exact determinationLastMigrationToMigrate_loop_no_fault _ res hne msg
      · rw [he]
        simp
  · intro target plan hplan
    exact Run.lastAppliedMigration_of_nonempty res target plan hne hplan
  · intro sv name plan hplan
    unfold Run.migrationsToMigrate at hplan
    rw [h] at hplan
    simp only [] at hplan
    split at hplan
    · cases hplan
    · split at hplan
      · cases hplan
      · split at hplan
        · cases hplan
        · rcases hlast : determinationLastMigrationToMigrate sv name currentMigration res
            with f | last
          · rw [hlast] at hplan
            cases hplan
          · rw [hlast] at hplan
            simp only [] at hplan
            rcases hp : getMigrationGroupsAndMigrationsBeforeMigration res last with f | p
            · rw [hp] at hplan
              cases hplan
            · rw [hp] at hplan
              simp only [Except.ok.injEq, Option.some.injEq] at hplan
              subst hplan
              exact Run.lastAppliedMigration_of_nonempty res last p hne hp

theorem GetUnappliedSortedMigrations_groups_nonempty_witness :
    GetUnappliedSortedMigrations (exampleRepo.asRepo exampleTree) false exampleCurrent
      = .ok exampleUnapplied ∧
    determinationLastMigrationToMigrate "v0.0.4" "" exampleCurrent exampleUnapplied
      = .ok { VersionDb := v004, Name := "0003.kkk" } ∧
    ∀ g ∈ exampleUnapplied, g.Migrations.length ≥ 1 ∧ ∃ last, g.Migrations.getLast? = some last :=
  ⟨by decide, by decide,
    (GetUnappliedSortedMigrations_groups_nonempty (exampleRepo.asRepo exampleTree) false
      exampleCurrent exampleUnapplied (by decide)).1⟩

/-- C29, the code at the failing input: the migration `(v0.0.3, 0002.Clear)` is in none of the
groups of `singleGroup`, whose only group holds `0001.First` of the same version, and
`IndicesMigrationInMigrationGroups` returns `(0, -1)`, not `(-1, -1)`; on the groups of
`repeatedVersionTree` the migration `(v0.0.04, 0002.jjj)` is found at position 1 of the group 0,
and the indices returned are `(1, -1)`, those of the later group of an equal version. A
migration of a version that no group has gives `(-1, -1)`, and one that is found in the only
group of its version gives its indices. -/
theorem IndicesMigrationInMigrationGroups_version_without_migration :
    (∀ g ∈ singleGroup, ∀ x ∈ g.Migrations,
      Migration.IsEqual { VersionDb := v003, Name := "0002.Clear" } x = false) ∧
    IndicesMigrationInMigrationGroups singleGroup { VersionDb := v003, Name := "0002.Clear" }
      = (0, -1) ∧
    (∃ g x, repeatedVersionUnapplied[0]? = some g ∧ g.Migrations[1]? = some x ∧
      Migration.IsEqual { VersionDb := v004', Name := "0002.jjj" } x = true) ∧
    IndicesMigrationInMigrationGroups repeatedVersionUnapplied
      { VersionDb := v004', Name := "0002.jjj" } = (1, -1) ∧
    IndicesMigrationInMigrationGroups singleGroup { VersionDb := v004, Name := "0001.First" }
      = (-1, -1) ∧
    IndicesMigrationInMigrationGroups exampleUnapplied { VersionDb := v004, Name := "0002.jjj" }
      = (1, 1) := by
  refine ⟨by decide, by decide, ⟨_, _, rfl, rfl, by decide⟩, by decide, by decide, by decide⟩

/-! ## The dump utilities -/

set_option maxRecDepth 4000

/-- The number of bytes of a string is that of its characters. -/
theorem len_mk (cs : List Char) : len (String.mk cs) = String.utf8Len cs := by
  unfold len
  exact String.utf8ByteSize_mk cs

/-- Cutting a string at the end of a prefix gives the prefix. -/
theorem takeBytes_append : ∀ (a b : List Char), takeBytes (a ++ b) (String.utf8Len a) = a
  | [], [] => rfl
  | [], c :: cs => by
    have hpos := Char.utf8Size_pos c
    show takeBytes (c :: cs) 0 = []
    rw [takeBytes, if_neg (by omega)]
  | c :: a, b => by
    show takeBytes (c :: (a ++ b)) (String.utf8Len (c :: a)) = c :: a
    rw [takeBytes, String.utf8Len_cons, if_pos (by omega), Nat.add_sub_cancel,
      takeBytes_append a b]

/-- Cutting a string at position 0 gives the empty string. -/
theorem takeBytes_zero : ∀ cs : List Char, takeBytes cs 0 = []
  | [] => rfl
  | c :: cs => by
    have hpos := Char.utf8Size_pos c
    rw [takeBytes, if_neg (by omega)]

/-- Dropping a prefix by its number of bytes leaves the rest. -/
theorem dropBytes_append : ∀ (a b : List Char), dropBytes (a ++ b) (String.utf8Len a) = b
  | [], [] => rfl
  | [], c :: cs => by
    show dropBytes (c :: cs) 0 = c :: cs
    rw [dropBytes, if_pos rfl]
  | c :: a, b => by
    have hpos := Char.utf8Size_pos c
    show dropBytes (c :: (a ++ b)) (String.utf8Len (c :: a)) = b
    rw [dropBytes, String.utf8Len_cons, if_neg (by omega), Nat.add_sub_cancel,
      dropBytes_append a b]

/-- A string that does not hold `substr` has the index `-1`. -/
theorem Index_loop_absent (substr : List Char) (hne : substr ≠ []) :
    ∀ (s : List Char) (n : Nat), ¬ substr <:+: s → Index.loop substr s n = -1
  | [], n, _ => by
    cases substr with
    | nil => exact absurd rfl hne
    | cons c cs => simp [Index.loop]
  | c :: cs, n, h => by
    rw [Index.loop]
    have hpre : substr.isPrefixOf (c :: cs) = false := by
      rw [Bool.eq_false_iff]
      intro hp
      exact h (List.isPrefixOf_iff_prefix.mp hp).isInfix
    rw [hpre]
    simp only [Bool.false_eq_true, if_false]
    exact Index_loop_absent substr hne cs _
      (fun hin => h (hin.trans (List.suffix_cons c cs).isInfix))

/-- The index of a string is the position of its first instance: the number of bytes before
it. The instance after `pre` is the first one when none starts inside `pre`. -/
theorem Index_loop_first (substr : List Char) (hne : substr ≠ []) (rest : List Char) :
    ∀ (pre : List Char) (n : Nat), ¬ substr <:+: pre ++ substr.dropLast →
      Index.loop substr (pre ++ substr ++ rest) n = ((n + String.utf8Len pre : Nat) : Int)
  | [], n, _ => by
    have hp : substr.isPrefixOf (substr ++ rest) = true :=
      List.isPrefixOf_iff_prefix.mpr (List.prefix_append substr rest)
    rcases hs : substr ++ rest with _ | ⟨c, cs⟩
    · exact absurd (List.append_eq_nil.mp hs).1 hne
    · rw [hs] at hp
      rw [List.nil_append, hs, Index.loop, if_pos hp, String.utf8Len_nil, Nat.add_zero]
  | p :: ps, n, h => by
    have hpre : substr.isPrefixOf (p :: (ps ++ substr ++ rest)) = false := by
      rw [Bool.eq_false_iff]
      intro hp
      have hp1 : substr <+: p :: (ps ++ substr ++ rest) := List.isPrefixOf_iff_prefix.mp hp
      have htotal : p :: (ps ++ substr ++ rest)
          = (p :: ps ++ substr.dropLast) ++ ([substr.getLast hne] ++ rest) := by
        conv_lhs => rw [← List.dropLast_append_getLast hne]
        simp only [List.cons_append, List.append_assoc]
      have hp2 : (p :: ps ++ substr.dropLast) <+: p :: (ps ++ substr ++ rest) := by
        rw [htotal]
        exact List.prefix_append _ _
      have hlen : substr.length ≤ (p :: ps ++ substr.dropLast).length := by
        simp only [List.cons_append, List.length_cons, List.length_append,
          List.length_dropLast]
        have := List.length_pos.mpr hne
        omega
      exact h (List.prefix_of_prefix_length_le hp1 hp2 hlen).isInfix
    show Index.loop substr (p :: (ps ++ substr ++ rest)) n = _
    rw [Index.loop, hpre]
    simp only [Bool.false_eq_true, if_false]
    rw [Index_loop_first substr hne rest ps (n + p.utf8Size)
      (fun hin => h (hin.trans (List.suffix_cons p _).isInfix)), String.utf8Len_cons]
    congr 1
    omega

/-- Go `strings.Contains` is `strings.Index(s, substr) >= 0`: an output without `substr` has
the index `-1`. -/
theorem Index_of_not_Contains (s substr : String) (hne : substr ≠ "")
    (h : Contains s substr = false) : Index s substr = -1 := by
  unfold Index
  refine Index_loop_absent _ (fun hnil => hne (String.ext hnil)) _ 0 ?_
  unfold Contains at h
  simpa using h

/-- An output without `DETAIL:` is reported unchanged. -/
theorem Restore_strOutput_without_detail (output : String)
    (h : Contains output "DETAIL:" = false) :
    DumpPostgres.Restore.strOutput output = .ok output := by
  unfold DumpPostgres.Restore.strOutput
  simp only [Index_of_not_Contains output "DETAIL:" (by decide) h, ne_eq, not_true_eq_false,
    if_false]

/-- The position from which `Restore` searches the newline, after the `D` of the first
`DETAIL:`, and the rest of the output from there. -/
theorem Restore_sliceFrom_detail (output : String) (pre tail : List Char)
    (hout : output.toList = pre ++ "DETAIL:".toList ++ tail)
    (hfirst : ¬ "DETAIL:".toList <:+: pre ++ "DETAIL".toList) :
    Index output "DETAIL:" = (String.utf8Len pre : Int) ∧
    sliceFrom output ((String.utf8Len pre : Int) + 1)
      = .ok (String.mk ("ETAIL:".toList ++ tail)) := by
  have hidx : Index output "DETAIL:" = (String.utf8Len pre : Int) := by
    unfold Index
    rw [hout, Index_loop_first "DETAIL:".toList (by decide) tail pre 0 hfirst, Nat.zero_add]
  refine ⟨hidx, ?_⟩
  have hsplit : output.toList = (pre ++ ['D']) ++ ("ETAIL:".toList ++ tail) := by
    rw [hout]
    simp [String.toList]
  have hlen : len output = String.utf8Len (pre ++ ['D']) + String.utf8Len ("ETAIL:".toList ++ tail) := by
    have : output = String.mk output.toList := rfl
    rw [this, len_mk, hsplit, String.utf8Len_append]
  have hD : String.utf8Len (pre ++ ['D']) = String.utf8Len pre + 1 := by
    rw [String.utf8Len_append]
    rfl
  unfold sliceFrom
  rw [if_neg (by rw [hlen, hD]; push_cast; omega)]
  have hnat : ((String.utf8Len pre : Int) + 1).toNat = String.utf8Len (pre ++ ['D']) := by
    rw [hD]
    omega
  rw [hnat, hsplit, dropBytes_append]

/-- An output whose first `DETAIL:` is followed by a newline is reported up to and including
the first newline after that `DETAIL:`. -/
theorem Restore_strOutput_terminated (output : String) (pre mid rest : List Char)
    (hout : output.toList = pre ++ "DETAIL:".toList ++ (mid ++ '\n' :: rest))
    (hfirst : ¬ "DETAIL:".toList <:+: pre ++ "DETAIL".toList) (hmid : '\n' ∉ mid) :
    DumpPostgres.Restore.strOutput output
      = .ok (String.mk (pre ++ "DETAIL:".toList ++ mid ++ ['\n'])) := by
  obtain ⟨hidx, hfrom⟩ := Restore_sliceFrom_detail output pre _ hout hfirst
  have hnl : Index (String.mk ("ETAIL:".toList ++ (mid ++ '\n' :: rest))) "\n"
      = (String.utf8Len ("ETAIL:".toList ++ mid) : Int) := by
    unfold Index
    have hshape : (String.mk ("ETAIL:".toList ++ (mid ++ '\n' :: rest))).toList
        = ("ETAIL:".toList ++ mid) ++ "\n".toList ++ rest := by
      simp [String.toList]
    rw [hshape, Index_loop_first "\n".toList (by decide) rest ("ETAIL:".toList ++ mid) 0 ?_,
      Nat.zero_add]
    intro hin
    have hmem : '\n' ∈ "ETAIL:".toList ++ mid ++ List.dropLast "\n".toList :=
      hin.subset (List.mem_singleton_self _)
    simp only [String.toList, List.dropLast, List.append_nil, List.mem_append, List.mem_cons,
      List.mem_singleton, List.not_mem_nil, or_false] at hmem
    rcases hmem with hmem | hmem
    · revert hmem
      decide
    · exact hmid hmem
  have hwhole : output.toList
      = (pre ++ "DETAIL:".toList ++ mid ++ ['\n']) ++ rest := by
    rw [hout]
    simp
  have hlen : len output
      = String.utf8Len (pre ++ "DETAIL:".toList ++ mid ++ ['\n']) + String.utf8Len rest := by
    have : output = String.mk output.toList := rfl
    rw [this, len_mk, hwhole, String.utf8Len_append]
  have hcut : String.utf8Len (pre ++ "DETAIL:".toList ++ mid ++ ['\n'])
      = String.utf8Len ("ETAIL:".toList ++ mid) + (String.utf8Len pre + 1) + 1 := by
    simp only [String.utf8Len_append, String.toList]
    have h7 : String.utf8Len ['D', 'E', 'T', 'A', 'I', 'L', ':'] = 7 := rfl
    have h6 : String.utf8Len ['E', 'T', 'A', 'I', 'L', ':'] = 6 := rfl
    have h1 : String.utf8Len ['\n'] = 1 := rfl
    rw [h7, h6, h1]
    omega
  unfold DumpPostgres.Restore.strOutput IndexAt
  simp only [hidx, hfrom, hnl]
  have hne : ¬ ((String.utf8Len pre : Int) = -1) := by omega
  have hgt : ((String.utf8Len ("ETAIL:".toList ++ mid) : Int) > -1) := by omega
  simp only [ne_eq, hne, not_false_eq_true, if_true, hgt]
  unfold sliceTo
  rw [if_neg (by rw [hlen, hcut]; push_cast; omega)]
  have hnat : ((String.utf8Len ("ETAIL:".toList ++ mid) : Int)
      + ((String.utf8Len pre : Int) + 1) + 1).toNat
      = String.utf8Len (pre ++ "DETAIL:".toList ++ mid ++ ['\n']) := by
    rw [hcut]
    omega
  rw [hnat, hwhole, takeBytes_append]

/-- C25, the code on the outputs that end inside the line of the first `DETAIL:`: for every
output whose first `DETAIL:` is followed by no newline, the text that `Restore` reports is
empty, and the error of a failing utility is the text `: ` followed by the error of the
utility; the reported text does not contain `DETAIL:`. -/
theorem Restore_strOutput_unterminated (CombinedOutput : Cmd → String × Option String)
    (infra : DumpPostgres) (dump : Dump) (output e : String) (pre mid : List Char)
    (hrun : CombinedOutput (DumpPostgres.Restore.cmd infra dump) = (output, some e))
    (hout : output.toList = pre ++ "DETAIL:".toList ++ mid)
    (hfirst : ¬ "DETAIL:".toList <:+: pre ++ "DETAIL".toList) (hmid : '\n' ∉ mid) :
    Contains output "DETAIL:" = true ∧
    DumpPostgres.Restore.strOutput output = .ok "" ∧
    Contains "" "DETAIL:" = false ∧
    DumpPostgres.Restore CombinedOutput infra dump = .error (.error ("" ++ ": " ++ e)) := by
  obtain ⟨hidx, hfrom⟩ := Restore_sliceFrom_detail output pre _ hout hfirst
  have hnl : Index (String.mk ("ETAIL:".toList ++ mid)) "\n" = -1 := by
    refine Index_loop_absent _ (by decide) _ 0 ?_
    intro hin
    have hmem : '\n' ∈ "ETAIL:".toList ++ mid := hin.subset (List.mem_singleton_self _)
    simp only [String.toList, List.mem_append, List.mem_cons, List.not_mem_nil,
      or_false] at hmem
    rcases hmem with hmem | hmem
    · revert hmem
      decide
    · exact hmid hmem
  have hstr : DumpPostgres.Restore.strOutput output = .ok "" := by
    unfold DumpPostgres.Restore.strOutput IndexAt
    simp only [hidx, hfrom, hnl]
    have hne : ¬ ((String.utf8Len pre : Int) = -1) := by omega
    simp only [ne_eq, hne, not_false_eq_true, if_true]
    unfold sliceTo
    rw [if_neg (by simp)]
    simp only [gt_iff_lt, lt_self_iff_false, if_false, Int.reduceNeg, Int.add_left_neg,
      Int.toNat_zero, takeBytes_zero]
    rfl
  refine ⟨?_, hstr, by decide, ?_⟩
  · unfold Contains
    rw [hout]
    simp only [decide_eq_true_eq]
    exact ⟨pre, mid, rfl⟩
  · unfold DumpPostgres.Restore
    simp only [hrun, hstr]

theorem Restore_strOutput_unterminated_witness :
    DumpPostgres.Restore.strOutput busyOutput
      = .ok ("pg_restore: error: could not execute query: ERROR:  database is being accessed "
          ++ "by other users\nDETAIL:  There is 1 other session using the database.\n") ∧
    DumpPostgres.Restore.strOutput "pg_restore: error: connection to server failed\n"
      = .ok "pg_restore: error: connection to server failed\n" ∧
    DumpPostgres.Restore.strOutput unterminatedOutput = .ok "" ∧
    DumpPostgres.Restore (failingUtility unterminatedOutput) exampleDumpPostgres exampleDump
      = .error (.error ": exit status 1") ∧
    (Contains unterminatedOutput "DETAIL:" = true ∧
      DumpPostgres.Restore.strOutput unterminatedOutput = .ok "" ∧
      Contains "" "DETAIL:" = false ∧
      DumpPostgres.Restore (failingUtility unterminatedOutput) exampleDumpPostgres exampleDump
        = .error (.error ("" ++ ": " ++ "exit status 1"))) :=
  ⟨by decide, by decide, by decide, by decide,
    Restore_strOutput_unterminated (failingUtility unterminatedOutput) exampleDumpPostgres
      exampleDump unterminatedOutput "exit status 1"
      ("pg_restore: error: could not execute query: ERROR:  database is being accessed "
        ++ "by other users\n").toList
      "  There is 1 other session using the database.".toList rfl (by decide) (by decide)
      (by decide)⟩

/-- The commands of the examples: the value that `NewDumpPostgres` builds, the commands that
`Create` and `Restore` run for it, and the recovery command, in which `--no-password` is
left out. -/
theorem GetCommandToRestoreDump_example :
    DumpPostgres.New exampleOutside exampleDbEntry (start exampleWorld)
      = .ok exampleDumpPostgres ∧
    DumpPostgres.Restore.cmd exampleDumpPostgres exampleDump
      = { name := "/opt/dbupdater/pg_dump_restore_15_2/pg_restore.exe",
          arg := ["--host=localhost", "--port=5432", "--username=postgres", "--no-password",
            "--format=custom", "--create", "--clean", "--if-exists", "--dbname=postgres",
            "/opt/dbupdater/dumps/db.dump"],
          Env := ["PGPASSWORD=pw"] } ∧
    DumpPostgres.Create.cmd exampleDumpPostgres "/opt/dbupdater/dumps/db.dump"
      = { name := "/opt/dbupdater/pg_dump_restore_15_2/pg_dump.exe",
          arg := ["--host=localhost", "--port=5432", "--username=postgres", "--no-password",
            "--format=custom", "--create", "--clean", "--if-exists", "--dbname=db",
            "--file=/opt/dbupdater/dumps/db.dump"],
          Env := ["PGPASSWORD=pw"] } ∧
    exampleDumpPostgres.GetCommandToRestoreDump exampleOutside exampleDump (start exampleWorld)
      = .ok ("/opt/dbupdater/pg_dump_restore_15_2/pg_restore.exe --host=localhost --port=5432 "
          ++ "--username=postgres --format=custom --create --clean --if-exists "
          ++ "--dbname=postgres /opt/dbupdater/dumps/db.dump") ∧
    DumpPostgres.GetCommandToRestoreDump exampleOutside
        { exampleDumpPostgres with dbEntry := otherPasswordEntry } exampleDump
        (start exampleWorld)
      = exampleDumpPostgres.GetCommandToRestoreDump exampleOutside exampleDump
        (start exampleWorld) := by
  refine ⟨by decide, by decide, by decide, by decide, by decide⟩

/-- C26: for every two connection entries that differ only in `Password`, every pair of
utility paths, every dump path and every outside, `getParametersForDumpUtility`,
`getParametersForRestoreUtility` and `GetCommandToRestoreDump` give identical results; the
commands that `Create` and `Restore` run have the same name and the same arguments for both
entries, and the password is in their environment only, as `PGPASSWORD`. -/
theorem GetCommandToRestoreDump_password_free {ω : Type} (o : Outside ω) (s : State ω)
    (dbEntry : DbEntry) (password password' pathToDumpUtility pathToRestoreUtility : String)
    (pathToDump : String) (dump : Dump) :
    DumpPostgres.getParametersForDumpUtility
        { pathToDumpUtility := pathToDumpUtility, pathToRestoreUtility := pathToRestoreUtility,
          dbEntry := { dbEntry with Password := password } } pathToDump
      = DumpPostgres.getParametersForDumpUtility
        { pathToDumpUtility := pathToDumpUtility, pathToRestoreUtility := pathToRestoreUtility,
          dbEntry := { dbEntry with Password := password' } } pathToDump ∧
    DumpPostgres.getParametersForRestoreUtility
        { pathToDumpUtility := pathToDumpUtility, pathToRestoreUtility := pathToRestoreUtility,
          dbEntry := { dbEntry with Password := password } } pathToDump
      = DumpPostgres.getParametersForRestoreUtility
        { pathToDumpUtility := pathToDumpUtility, pathToRestoreUtility := pathToRestoreUtility,
          dbEntry := { dbEntry with Password := password' } } pathToDump ∧
    DumpPostgres.GetCommandToRestoreDump o
        { pathToDumpUtility := pathToDumpUtility, pathToRestoreUtility := pathToRestoreUtility,
          dbEntry := { dbEntry with Password := password } } dump s
      = DumpPostgres.GetCommandToRestoreDump o
        { pathToDumpUtility := pathToDumpUtility, pathToRestoreUtility := pathToRestoreUtility,
          dbEntry := { dbEntry with Password := password' } } dump s ∧
    (DumpPostgres.Create.cmd
        { pathToDumpUtility := pathToDumpUtility, pathToRestoreUtility := pathToRestoreUtility,
          dbEntry := { dbEntry with Password := password } } pathToDump
      = { DumpPostgres.Create.cmd
            { pathToDumpUtility := pathToDumpUtility,
              pathToRestoreUtility := pathToRestoreUtility,
              dbEntry := { dbEntry with Password := password' } } pathToDump
          with Env := ["PGPASSWORD=" ++ password] }) ∧
    (DumpPostgres.Restore.cmd
        { pathToDumpUtility := pathToDumpUtility, pathToRestoreUtility := pathToRestoreUtility,
          dbEntry := { dbEntry with Password := password } } dump
      = { DumpPostgres.Restore.cmd
            { pathToDumpUtility := pathToDumpUtility,
              pathToRestoreUtility := pathToRestoreUtility,
              dbEntry := { dbEntry with Password := password' } } dump
          with Env := ["PGPASSWORD=" ++ password] }) :=
  ⟨rfl, rfl, rfl, rfl, rfl⟩
end DBUpdater
